import Mathlib

/-!
# GSactor: the world-update core of `main.go`

A shallow embedding of the Go program.

* `float64` coordinates are read as exact rationals (`ℚ`); the comparison
  `distance(a, b) < 10` is evaluated on squares, `dx*dx + dy*dy < 10*10`,
  which is the same test for the real square root.  The products
  `rand.Float64() * gw.Width` and `rand.Float64() * gw.Height` of `join`,
  whose range is a property of the joined player, are rounded as float64
  rounds them (`mulFloat64`: to nearest, ties to even); infinities and
  NaN are not values of the model.
* `int` fields are integers kept in 64-bit two's complement: every `+=`
  and `-=` of the source goes through `wrapInt`.  `len(m)` is a natural
  number (a map of 2^62 entries does not fit in memory).
* A Go `map[int]*T` is an association list of `(key, value)` pairs.  A
  mutation through the stored pointer is `Map.modify`, `m[k] = v` is
  `Map.store`, `delete(m, k)` is `Map.delete`, `len(m)` is `Map.len`.
* The order in which `range` visits a map is not fixed by Go: `Map.range`
  takes a seed and visits the entries in the permutation the seed names.
* `rand.Float64()` results and the `range` seeds come from an `Oracle`.
* A run-time panic (nil pointer dereference, failed type assertion) is
  the result `none`.
* The `Mailbox` channels are never read or written by the source and are
  left out of the records.
* The lines `printTopPlayerScores` prints are the list of their
  `(ID, Score)` entries; `sort.Slice` of the Go library is a sort that
  fixes no order of ties (see `printTopPlayerScores`).
-/

namespace GSactor

/-! ## Machine integers -/

/-- Two's-complement reduction of an integer to the range of Go's 64-bit `int`. -/
def wrapInt (x : Int) : Int :=
  (x + 9223372036854775808) % 18446744073709551616 - 9223372036854775808

/-- Predicate: the integer is representable as a Go `int`. -/
def InInt (x : Int) : Prop :=
  -9223372036854775808 ≤ x ∧ x < 9223372036854775808

/-! ## Data model -/

structure Vector2D where
  X : ℚ
  Y : ℚ
deriving DecidableEq

structure Player where
  ID : Int
  Position : Vector2D
  Velocity : Vector2D
  Health : Int
  Score : Int
deriving DecidableEq

structure Enemy where
  ID : Int
  Position : Vector2D
  Health : Int
  Damage : Int
deriving DecidableEq

structure Projectile where
  ID : Int
  Position : Vector2D
  Velocity : Vector2D
  Damage : Int
  Owner : Int
deriving DecidableEq

/-- The dynamic values a `Message.Content` (`interface{}`) holds in this program; a value
of any other dynamic type fails both type assertions of the source, as `nil` does. -/
inductive Content where
  | vec (v : Vector2D)
  | int (n : Int)
  | nil
deriving DecidableEq

/-- The message record; the field `Type` of the source is `Typ` here. -/
structure Message where
  Typ : String
  Content : Content
  Sender : Int
deriving DecidableEq

/-! ## Maps -/

/-- A Go `map[int]*T`: key and value pairs. -/
abbrev Map (α : Type) := List (Int × α)

namespace Map

variable {α : Type}

/-- The value of `m[k]`: `none` is the nil pointer of a missing key. -/
def lookup (k : Int) : Map α → Option α
  | [] => none
  | e :: m => if e.1 = k then some e.2 else lookup k m

/-- The map after `delete(m, k)`. -/
def delete (k : Int) (m : Map α) : Map α :=
  m.filter (fun e => decide (e.1 ≠ k))

/-- The map after `m[k] = v`. -/
def store (k : Int) (v : α) (m : Map α) : Map α :=
  (k, v) :: delete k m

/-- The map after the object stored under `k` is mutated by `f` through its pointer. -/
def modify (k : Int) (f : α → α) (m : Map α) : Map α :=
  m.map (fun e => if e.1 = k then (e.1, f e.2) else e)

/-- The value of `len(m)`. -/
def len (m : Map α) : Nat := m.length

/-- The keys of the map. -/
def keys (m : Map α) : List Int := m.map Prod.fst

/-- The entries in the order a `range` loop visits them, the order being chosen by `seed`. -/
def range (seed : Nat) : Map α → Map α
  | [] => []
  | e :: m => List.insertIdx (seed % (m.length + 1)) e (range (seed / (m.length + 1)) m)

end Map

structure GameWorld where
  Players : Map Player
  Enemies : Map Enemy
  Projectiles : Map Projectile
  Width : ℚ
  Height : ℚ
deriving DecidableEq

/-- The outside choices of one command: random draws and iteration orders. -/
structure Oracle where
  /-- the two `rand.Float64()` results of a `join` -/
  joinDraw : ℚ × ℚ
  /-- the two `rand.Float64()` results of `randomAcceleration` for the player under a key -/
  accDraw : Int → ℚ × ℚ
  /-- the two `rand.Float64()` results of `getRandomPosition` for the enemy under a key -/
  posDraw : Int → ℚ × ℚ
  /-- the two `rand.Float64()` results of `spawnEnemy` -/
  spawnDraw : ℚ × ℚ
  /-- the order of `range gw.Projectiles` in a tick -/
  projOrder : Nat
  /-- the order of `range gw.Enemies` for the projectile under a key -/
  enemyOrder : Int → Nat
  /-- the order of `range gw.Players` for the projectile under a key -/
  playerOrder : Int → Nat

/-! ## Float64 rounding -/

/-- The integer nearest to a rational, the even one of the two when it is half way. -/
def roundHalfEven (x : ℚ) : ℤ :=
  let f := ⌊x⌋
  if x - f < 1 / 2 then f
  else if 1 / 2 < x - f then f + 1
  else if f % 2 = 0 then f else f + 1

/-- The float64 nearest to a rational (IEEE 754 binary64, round to nearest, ties to even):
a multiple of `2 ^ (e - 52)`, where `e` is the binary exponent of `q`, not below the
exponent -1022 of the subnormal numbers.  A result beyond the largest finite float64, which
float64 turns into an infinity, is left finite. -/
def roundFloat64 (q : ℚ) : ℚ :=
  if q = 0 then 0
  else
    let e : ℤ := max (Int.log 2 |q|) (-1022)
    let ulp : ℚ := 2 ^ (e - 52)
    roundHalfEven (q / ulp) * ulp

/-- The float64 product `a * b` of two finite float64 values. -/
def mulFloat64 (a b : ℚ) : ℚ := roundFloat64 (a * b)

/-! ## Geometry -/

/-- The square of `distance(a, b)`: the argument of `math.Sqrt` in the source. -/
def distanceSq (a b : Vector2D) : ℚ :=
  let dx := a.X - b.X
  let dy := a.Y - b.Y
  dx * dx + dy * dy

/-- The test `distance(a, b) < 10`. -/
def distanceLt10 (a b : Vector2D) : Bool :=
  decide (distanceSq a b < 10 * 10)

def getRandomPosition (gw : GameWorld) (r : ℚ × ℚ) : Vector2D :=
  { X := r.1 * gw.Width, Y := r.2 * gw.Height }

def randomAcceleration (r : ℚ × ℚ) : Vector2D :=
  { X := (r.1 - 1 / 2) * (1 / 5), Y := (r.2 - 1 / 2) * (1 / 5) }

/-! ## Entity message handlers -/

def Player.Receive (p : Player) (msg : Message) : Option Player :=
  if msg.Typ = "move" then
    match msg.Content with
    | .vec acceleration =>
      let v : Vector2D :=
        { X := p.Velocity.X + acceleration.X, Y := p.Velocity.Y + acceleration.Y }
      some { p with Velocity := v,
                    Position := { X := p.Position.X + v.X, Y := p.Position.Y + v.Y } }
    | _ => none
  else if msg.Typ = "damage" then
    match msg.Content with
    | .int amount =>
      let h := wrapInt (p.Health - amount)
      some { p with Health := if h < 0 then 0 else h }
    | _ => none
  else if msg.Typ = "score" then
    match msg.Content with
    | .int points => some { p with Score := wrapInt (p.Score + points) }
    | _ => none
  else some p

def Enemy.Receive (e : Enemy) (msg : Message) : Option Enemy :=
  if msg.Typ = "move" then
    match msg.Content with
    | .vec newPos => some { e with Position := newPos }
    | _ => none
  else if msg.Typ = "damage" then
    match msg.Content with
    | .int amount =>
      let h := wrapInt (e.Health - amount)
      some { e with Health := if h < 0 then 0 else h }
    | _ => none
  else some e

def Projectile.Receive (p : Projectile) (msg : Message) : Option Projectile :=
  if msg.Typ = "move" then
    some { p with Position := { X := p.Position.X + p.Velocity.X,
                                Y := p.Position.Y + p.Velocity.Y } }
  else some p

/-! ## World commands -/

def GameWorld.spawnEnemy (gw : GameWorld) (r : ℚ × ℚ) : GameWorld :=
  let enemyID : Int := Map.len gw.Enemies
  let enemy : Enemy :=
    { ID := enemyID, Health := 50, Damage := 10,
      Position := { X := r.1 * gw.Width, Y := r.2 * gw.Height } }
  { gw with Enemies := Map.store enemyID enemy gw.Enemies }

/-- The body of `checkProjectileCollisions`: the world after the call and the returned
flag; `se` and `sp` are the orders of its two `range` loops. -/
def GameWorld.checkProjectileCollisions (se sp : Nat) (gw : GameWorld)
    (projectile : Projectile) : Option (GameWorld × Bool) :=
  -- Check collisions with enemies
  match (Map.range se gw.Enemies).find?
      (fun e => distanceLt10 projectile.Position e.2.Position) with
  | some (enemyID, enemy) =>
    let health := wrapInt (enemy.Health - projectile.Damage)
    match Map.lookup projectile.Owner gw.Players with
    | none => none
    | some _ =>
      let players := Map.modify projectile.Owner
        (fun p => { p with Score := wrapInt (p.Score + 10) }) gw.Players
      let enemies := Map.modify enemyID (fun e => { e with Health := health }) gw.Enemies
      let enemies := if health ≤ 0 then Map.delete enemyID enemies else enemies
      some ({ gw with Players := players, Enemies := enemies }, true)
  | none =>
    -- Check collisions with players
    match (Map.range sp gw.Players).find?
        (fun p => decide (p.1 ≠ projectile.Owner) &&
          distanceLt10 projectile.Position p.2.Position) with
    | some (playerID, player) =>
      let health := wrapInt (player.Health - projectile.Damage)
      let players := Map.modify playerID
        (fun p => { p with Health := if health < 0 then 0 else health }) gw.Players
      some ({ gw with Players := players }, true)
    | none =>
      -- Remove projectiles that are out of bounds
      if projectile.Position.X < 0 ∨ projectile.Position.X > gw.Width ∨
          projectile.Position.Y < 0 ∨ projectile.Position.Y > gw.Height then
        some (gw, true)
      else some (gw, false)

/-- The first loop of `updateGameState` ("Update players"). -/
def GameWorld.updatePlayers (o : Oracle) (gw : GameWorld) : GameWorld :=
  { gw with Players := gw.Players.map (fun e =>
      let player := e.2
      let acceleration := randomAcceleration (o.accDraw e.1)
      let v : Vector2D := { X := player.Velocity.X + acceleration.X,
                            Y := player.Velocity.Y + acceleration.Y }
      (e.1, { player with Velocity := v,
                          Position := { X := player.Position.X + v.X,
                                        Y := player.Position.Y + v.Y } })) }

/-- The second loop of `updateGameState` ("Update enemies"). -/
def GameWorld.updateEnemies (o : Oracle) (gw : GameWorld) : GameWorld :=
  { gw with Enemies := gw.Enemies.map (fun e =>
      (e.1, { e.2 with Position := getRandomPosition gw (o.posDraw e.1) })) }

/-- One iteration of the third loop of `updateGameState`, for the entry `(id, projectile)`. -/
def GameWorld.projectileStep (o : Oracle) (gw : GameWorld) (id : Int)
    (projectile : Projectile) : Option GameWorld :=
  let moved : Projectile :=
    { projectile with Position := { X := projectile.Position.X + projectile.Velocity.X,
                                    Y := projectile.Position.Y + projectile.Velocity.Y } }
  let gw1 := { gw with Projectiles := Map.modify id (fun _ => moved) gw.Projectiles }
  match GameWorld.checkProjectileCollisions (o.enemyOrder id) (o.playerOrder id) gw1 moved with
  | none => none
  | some (gw2, true) => some { gw2 with Projectiles := Map.delete id gw2.Projectiles }
  | some (gw2, false) => some gw2

/-- The third loop of `updateGameState` ("Update projectiles and check collisions") over
the entries still to visit. -/
def GameWorld.projectileLoop (o : Oracle) : List (Int × Projectile) → GameWorld → Option GameWorld
  | [], gw => some gw
  | e :: rest, gw =>
    match GameWorld.projectileStep o gw e.1 e.2 with
    | none => none
    | some gw1 => GameWorld.projectileLoop o rest gw1

def GameWorld.updateProjectiles (o : Oracle) (gw : GameWorld) : Option GameWorld :=
  GameWorld.projectileLoop o (Map.range o.projOrder gw.Projectiles) gw

/-- The last step of `updateGameState` ("Spawn new enemies"). -/
def GameWorld.spawnNewEnemies (o : Oracle) (gw : GameWorld) : GameWorld :=
  if Map.len gw.Enemies < Map.len gw.Players * 2 then gw.spawnEnemy o.spawnDraw else gw

def GameWorld.updateGameState (o : Oracle) (gw : GameWorld) : Option GameWorld :=
  match GameWorld.updateProjectiles o (GameWorld.updateEnemies o (GameWorld.updatePlayers o gw)) with
  | none => none
  | some gw1 => some (GameWorld.spawnNewEnemies o gw1)

def GameWorld.Receive (o : Oracle) (gw : GameWorld) (msg : Message) : Option GameWorld :=
  if msg.Typ = "join" then
    match msg.Content with
    | .int playerID =>
      let player : Player :=
        { ID := playerID, Health := 100, Score := 0,
          Velocity := { X := 0, Y := 0 },
          Position := { X := mulFloat64 o.joinDraw.1 gw.Width,
                        Y := mulFloat64 o.joinDraw.2 gw.Height } }
      some { gw with Players := Map.store playerID player gw.Players }
    | _ => none
  else if msg.Typ = "leave" then
    match msg.Content with
    | .int playerID => some { gw with Players := Map.delete playerID gw.Players }
    | _ => none
  else if msg.Typ = "fire" then
    match msg.Content with
    | .int playerID =>
      match Map.lookup playerID gw.Players with
      | none => none
      | some player =>
        let projectileID : Int := Map.len gw.Projectiles
        let projectile : Projectile :=
          { ID := projectileID, Position := player.Position,
            Velocity := { X := player.Velocity.X * 2, Y := player.Velocity.Y * 2 },
            Damage := 10, Owner := playerID }
        some { gw with Projectiles := Map.store projectileID projectile gw.Projectiles }
    | _ => none
  else if msg.Typ = "update" then
    GameWorld.updateGameState o gw
  else some gw

/-- The call `gw.Players[id].Receive(msg)`, `gw.Enemies[id].Receive(msg)` or
`gw.Projectiles[id].Receive(msg)`, or the world's own `gw.Receive(msg)`. -/
inductive Command where
  | world (msg : Message)
  | player (id : Int) (msg : Message)
  | enemy (id : Int) (msg : Message)
  | projectile (id : Int) (msg : Message)

/-- The world after one command.  A handler called on the nil pointer of a missing key
panics as soon as it touches a field, which the branches of a recognised message type do. -/
def GameWorld.apply (o : Oracle) (gw : GameWorld) : Command → Option GameWorld
  | .world msg => GameWorld.Receive o gw msg
  | .player id msg =>
    match Map.lookup id gw.Players with
    | none =>
      if msg.Typ = "move" ∨ msg.Typ = "damage" ∨ msg.Typ = "score" then none else some gw
    | some p =>
      match Player.Receive p msg with
      | none => none
      | some p1 => some { gw with Players := Map.modify id (fun _ => p1) gw.Players }
  | .enemy id msg =>
    match Map.lookup id gw.Enemies with
    | none => if msg.Typ = "move" ∨ msg.Typ = "damage" then none else some gw
    | some e =>
      match Enemy.Receive e msg with
      | none => none
      | some e1 => some { gw with Enemies := Map.modify id (fun _ => e1) gw.Enemies }
  | .projectile id msg =>
    match Map.lookup id gw.Projectiles with
    | none => if msg.Typ = "move" then none else some gw
    | some p =>
      match Projectile.Receive p msg with
      | none => none
      | some p1 => some { gw with Projectiles := Map.modify id (fun _ => p1) gw.Projectiles }

instance decidableInInt (x : Int) : Decidable (InInt x) :=
  inferInstanceAs (Decidable (-9223372036854775808 ≤ x ∧ x < 9223372036854775808))

/-- No two entries of the map share a key, as in every Go map. -/
def Map.NodupKeys {α : Type} (m : Map α) : Prop := (Map.keys m).Nodup

instance Map.decidableNodupKeys {α : Type} (m : Map α) : Decidable (Map.NodupKeys m) :=
  inferInstanceAs (Decidable (Map.keys m).Nodup)

/-- Every player and every enemy in the registries has a non-negative `Health`. -/
def GameWorld.HealthNonneg (gw : GameWorld) : Prop :=
  (∀ e ∈ gw.Players, 0 ≤ e.2.Health) ∧ (∀ e ∈ gw.Enemies, 0 ≤ e.2.Health)

instance GameWorld.decidableHealthNonneg (gw : GameWorld) : Decidable gw.HealthNonneg :=
  inferInstanceAs
    (Decidable ((∀ e ∈ gw.Players, 0 ≤ e.2.Health) ∧ (∀ e ∈ gw.Enemies, 0 ≤ e.2.Health)))

/-- Every entity of the three registries carries its key in its `ID` field. -/
def GameWorld.KeysAreIDs (gw : GameWorld) : Prop :=
  (∀ e ∈ gw.Players, e.2.ID = e.1) ∧ (∀ e ∈ gw.Enemies, e.2.ID = e.1) ∧
  (∀ e ∈ gw.Projectiles, e.2.ID = e.1)

instance GameWorld.decidableKeysAreIDs (gw : GameWorld) : Decidable gw.KeysAreIDs :=
  inferInstanceAs
    (Decidable ((∀ e ∈ gw.Players, e.2.ID = e.1) ∧ (∀ e ∈ gw.Enemies, e.2.ID = e.1) ∧
      (∀ e ∈ gw.Projectiles, e.2.ID = e.1)))

/-- Ticks in a row, one oracle for each, stopping at the first panic. -/
def runTicks : List Oracle → GameWorld → Option GameWorld
  | [], gw => some gw
  | o :: os, gw =>
    match GameWorld.updateGameState o gw with
    | none => none
    | some gw1 => runTicks os gw1

/-! ## Reporting -/

/-- The local type `playerScore` of `printTopPlayerScores`. -/
structure playerScore where
  ID : Int
  Score : Int
deriving DecidableEq

/-- The order `sort.Slice` leaves the slice in: `a` may stand before `b` when
`less(b, a)`, that is `b.Score > a.Score`, does not hold. -/
def scoreOrder (a b : playerScore) : Prop := b.Score ≤ a.Score

instance decidableScoreOrder : DecidableRel scoreOrder :=
  fun a b => inferInstanceAs (Decidable (b.Score ≤ a.Score))

instance scoreOrder_isTotal : IsTotal playerScore scoreOrder :=
  ⟨fun a b => le_total b.Score a.Score⟩

instance scoreOrder_isTrans : IsTrans playerScore scoreOrder :=
  ⟨fun _ _ _ h1 h2 => le_trans h2 h1⟩

/-- The entries `printTopPlayerScores` prints, in order, one for each line
"Player ID: Score points".  The slice is filled in the order `range players` visits the
map (`seed`).  `sort.Slice` of the Go library is not stable: it returns some arrangement
sorted by `less`; here it is insertion sort, which returns every sorted arrangement
unchanged, so that over all seeds every result of `sort.Slice` is covered.  The loop
`for i := 0; i < n && i < len(scores); i++` prints the first `n` entries, none when
`n ≤ 0`. -/
def printTopPlayerScores (seed : Nat) (players : Map Player) (n : Int) : List playerScore :=
  let scores : List playerScore :=
    (Map.range seed players).map (fun e => { ID := e.1, Score := e.2.Score })
  let sorted := List.insertionSort scoreOrder scores
  sorted.take n.toNat

/-- The spec's "move (player)": velocity += acceleration, then position += velocity, the
velocity added to the position being the updated one (semi-implicit Euler). -/
def movePlayerSpec (p : Player) (a : Vector2D) : Player :=
  let velocity : Vector2D := { X := p.Velocity.X + a.X, Y := p.Velocity.Y + a.Y }
  { ID := p.ID, Velocity := velocity,
    Position := { X := p.Position.X + velocity.X, Y := p.Position.Y + velocity.Y },
    Health := p.Health, Score := p.Score }

/-! ## Example worlds -/

/-- An oracle whose draws are all `0` (accelerations `1/2`, that is, none) and whose
`range` loops visit the entries in the stored order. -/
def oracleZero : Oracle :=
  { joinDraw := (0, 0), accDraw := fun _ => (1 / 2, 1 / 2), posDraw := fun _ => (0, 0),
    spawnDraw := (0, 0), projOrder := 0, enemyOrder := fun _ => 0, playerOrder := fun _ => 0 }

/-- The world of `main` before any player joins. -/
def worldEmpty : GameWorld :=
  { Players := [], Enemies := [], Projectiles := [], Width := 1000, Height := 1000 }

/-- A world with player 7 resting at the origin and one enemy. -/
def worldOneOnOne : GameWorld :=
  { Players := [(7, { ID := 7, Position := ⟨0, 0⟩, Velocity := ⟨0, 0⟩, Health := 100, Score := 0 })],
    Enemies := [(0, { ID := 0, Position := ⟨0, 0⟩, Health := 50, Damage := 10 })],
    Projectiles := [], Width := 1000, Height := 1000 }

/-- A world with no player left and one enemy at the origin. -/
def worldOwnerLeft : GameWorld :=
  { Players := [],
    Enemies := [(0, { ID := 0, Position := ⟨0, 0⟩, Health := 50, Damage := 10 })],
    Projectiles := [], Width := 1000, Height := 1000 }

/-- A projectile at the origin fired by player 7. -/
def projectileOfSeven : Projectile :=
  { ID := 0, Position := ⟨0, 0⟩, Velocity := ⟨0, 0⟩, Damage := 10, Owner := 7 }

/-- The commands of a list applied in order, stopping at the first panic. -/
def runCommands (o : Oracle) : List Message → GameWorld → Option GameWorld
  | [], gw => some gw
  | m :: ms, gw =>
    match GameWorld.Receive o gw m with
    | none => none
    | some gw1 => runCommands o ms gw1

/-- A world with player 0 far from the origin and one enemy of `Health` 50 at the origin. -/
def worldDuel : GameWorld :=
  { Players := [(0, { ID := 0, Position := ⟨500, 500⟩, Velocity := ⟨0, 0⟩, Health := 100,
                      Score := 0 })],
    Enemies := [(0, { ID := 0, Position := ⟨0, 0⟩, Health := 50, Damage := 10 })],
    Projectiles := [], Width := 1000, Height := 1000 }

/-- A projectile of `Damage` 10 at the origin fired by player 0. -/
def projectileOfZero : Projectile :=
  { ID := 0, Position := ⟨0, 0⟩, Velocity := ⟨0, 0⟩, Damage := 10, Owner := 0 }

/-- Collision resolution run `n` times in a row for equal projectiles, stopping at a panic. -/
def hitRepeatedly (projectile : Projectile) : Nat → GameWorld → Option GameWorld
  | 0, gw => some gw
  | n + 1, gw =>
    match GameWorld.checkProjectileCollisions 0 0 gw projectile with
    | none => none
    | some (gw1, _) => hitRepeatedly projectile n gw1

/-- A world with players 0 and 1, player 1 at the origin, and no enemy. -/
def worldTwoPlayers : GameWorld :=
  { Players := [(0, { ID := 0, Position := ⟨500, 500⟩, Velocity := ⟨0, 0⟩, Health := 100,
                      Score := 0 }),
                (1, { ID := 1, Position := ⟨3, 4⟩, Velocity := ⟨0, 0⟩, Health := 5,
                      Score := 0 })],
    Enemies := [], Projectiles := [], Width := 1000, Height := 1000 }

/-- A world with player 0 and an enemy at the origin and a resting projectile of player 0
at `X = Width`. -/
def worldAtWidth : GameWorld :=
  { Players := [(0, { ID := 0, Position := ⟨0, 0⟩, Velocity := ⟨0, 0⟩, Health := 100,
                      Score := 0 })],
    Enemies := [(0, { ID := 0, Position := ⟨0, 0⟩, Health := 50, Damage := 10 })],
    Projectiles := [(0, { ID := 0, Position := ⟨1000, 5⟩, Velocity := ⟨0, 0⟩, Damage := 10,
                          Owner := 0 })],
    Width := 1000, Height := 1000 }

/-- The same world with the projectile at `X = 995` flying right at 10 a tick. -/
def worldPastWidth : GameWorld :=
  { Players := [(0, { ID := 0, Position := ⟨0, 0⟩, Velocity := ⟨0, 0⟩, Health := 100,
                      Score := 0 })],
    Enemies := [(0, { ID := 0, Position := ⟨0, 0⟩, Health := 50, Damage := 10 })],
    Projectiles := [(0, { ID := 0, Position := ⟨995, 5⟩, Velocity := ⟨10, 0⟩, Damage := 10,
                          Owner := 0 })],
    Width := 1000, Height := 1000 }

/-- A world whose only enemy sits under key 1, key 0 being free again. -/
def worldIdReuse : GameWorld :=
  { Players := [(0, { ID := 0, Position := ⟨0, 0⟩, Velocity := ⟨0, 0⟩, Health := 100,
                      Score := 40 })],
    Enemies := [(1, { ID := 1, Position := ⟨500, 500⟩, Health := 20, Damage := 10 })],
    Projectiles := [], Width := 1000, Height := 1000 }

/-- An oracle as `oracleZero`, except that it sends every enemy but enemy 0 to the middle
of the world. -/
def oracleSplit : Oracle :=
  { joinDraw := (0, 0), accDraw := fun _ => (1 / 2, 1 / 2),
    posDraw := fun k => if k = 0 then (0, 0) else (1 / 2, 1 / 2),
    spawnDraw := (0, 0), projOrder := 0, enemyOrder := fun _ => 0, playerOrder := fun _ => 0 }

/-- Player 0 joins, two ticks spawn enemies 0 and 1, then player 0 fires before each of
four further ticks and fires once more. -/
def commandsBeforeFifthHit : List Message :=
  [⟨"join", .int 0, 0⟩, ⟨"update", .nil, 0⟩, ⟨"update", .nil, 0⟩,
   ⟨"fire", .int 0, 0⟩, ⟨"update", .nil, 0⟩, ⟨"fire", .int 0, 0⟩, ⟨"update", .nil, 0⟩,
   ⟨"fire", .int 0, 0⟩, ⟨"update", .nil, 0⟩, ⟨"fire", .int 0, 0⟩, ⟨"update", .nil, 0⟩,
   ⟨"fire", .int 0, 0⟩]

/-- A world whose only player, player 0, is at the origin with velocity `(1, 0)`. -/
def worldMover : GameWorld :=
  { Players := [(0, { ID := 0, Position := ⟨0, 0⟩, Velocity := ⟨1, 0⟩, Health := 100,
                      Score := 0 })],
    Enemies := [], Projectiles := [], Width := 1000, Height := 1000 }

/-- An oracle as `oracleZero` whose `join` draws are `1/2` and `1/4`. -/
def oracleJoin : Oracle :=
  { joinDraw := (1 / 2, 1 / 4), accDraw := fun _ => (1 / 2, 1 / 2), posDraw := fun _ => (0, 0),
    spawnDraw := (0, 0), projOrder := 0, enemyOrder := fun _ => 0, playerOrder := fun _ => 0 }

/-- Four players with the scores 30, 10, 50 and 20. -/
def playersOfFourScores : Map Player :=
  [(0, { ID := 0, Position := ⟨0, 0⟩, Velocity := ⟨0, 0⟩, Health := 100, Score := 30 }),
   (1, { ID := 1, Position := ⟨0, 0⟩, Velocity := ⟨0, 0⟩, Health := 100, Score := 10 }),
   (2, { ID := 2, Position := ⟨0, 0⟩, Velocity := ⟨0, 0⟩, Health := 100, Score := 50 }),
   (3, { ID := 3, Position := ⟨0, 0⟩, Velocity := ⟨0, 0⟩, Health := 100, Score := 20 })]

/-- A player with `Score` 30. -/
def playerOfThirty : Player :=
  { ID := 0, Position := ⟨0, 0⟩, Velocity := ⟨0, 0⟩, Health := 100, Score := 30 }

/-- The world `worldMover` after player 0 has fired: projectile 0 at the origin with
velocity `(2, 0)`. -/
def worldMoverFired : GameWorld :=
  { Players := [(0, { ID := 0, Position := ⟨0, 0⟩, Velocity := ⟨1, 0⟩, Health := 100,
                      Score := 0 })],
    Enemies := [],
    Projectiles := [(0, { ID := 0, Position := ⟨0, 0⟩, Velocity := ⟨2, 0⟩, Damage := 10,
                          Owner := 0 })],
    Width := 1000, Height := 1000 }

/-- A world with player 0 at rest at the origin and a projectile of player 0 at rest at
`(200, 200)`. -/
def worldResting : GameWorld :=
  { Players := [(0, { ID := 0, Position := ⟨0, 0⟩, Velocity := ⟨0, 0⟩, Health := 100,
                      Score := 0 })],
    Enemies := [],
    Projectiles := [(0, { ID := 0, Position := ⟨200, 200⟩, Velocity := ⟨0, 0⟩, Damage := 10,
                          Owner := 0 })],
    Width := 1000, Height := 1000 }

/-- A player whose `Score` is the largest Go `int`. -/
def playerOfMaxScore : Player :=
  { ID := 0, Position := ⟨0, 0⟩, Velocity := ⟨0, 0⟩, Health := 100,
    Score := 9223372036854775807 }

/-- A world whose `Width` is the smallest positive float64, `2 ^ (-1074)`. -/
def worldTiny : GameWorld :=
  { Players := [], Enemies := [], Projectiles := [], Width := 2 ^ (-1074 : ℤ), Height := 1000 }

/-- An oracle as `oracleZero` whose `join` draws are `3/4` and `0`. -/
def oracleThreeQuarters : Oracle :=
  { joinDraw := (3 / 4, 0), accDraw := fun _ => (1 / 2, 1 / 2), posDraw := fun _ => (0, 0),
    spawnDraw := (0, 0), projOrder := 0, enemyOrder := fun _ => 0, playerOrder := fun _ => 0 }

/-! ## Basic facts -/

theorem wrapInt_of_inInt (x : Int) (h : InInt x) : wrapInt x = x := by
  unfold InInt at h
  unfold wrapInt
  omega

theorem inInt_wrapInt (x : Int) : InInt (wrapInt x) := by
  unfold InInt wrapInt
  omega

theorem wrapInt_add_wrapInt (x y : Int) : wrapInt (wrapInt x + y) = wrapInt (x + y) := by
  unfold wrapInt
  omega

theorem floor_le_roundHalfEven (x : ℚ) : ⌊x⌋ ≤ roundHalfEven x := by
  unfold roundHalfEven
  simp only
  split_ifs <;> omega

theorem roundHalfEven_le_floor_succ (x : ℚ) : roundHalfEven x ≤ ⌊x⌋ + 1 := by
  unfold roundHalfEven
  simp only
  split_ifs <;> omega

theorem roundHalfEven_nonneg (x : ℚ) (hx : 0 ≤ x) : 0 ≤ roundHalfEven x :=
  le_trans (Int.floor_nonneg.mpr hx) (floor_le_roundHalfEven x)

theorem roundHalfEven_le (x : ℚ) (K : ℤ) (hx : x ≤ K) : roundHalfEven x ≤ K := by
  have hf : ⌊x⌋ ≤ K :=
    Int.floor_le_iff.mpr (lt_of_le_of_lt hx (by exact_mod_cast Int.lt_succ_self K))
  rcases lt_or_eq_of_le hf with hlt | heq
  · exact le_trans (roundHalfEven_le_floor_succ x) hlt
  · have hxK : x = K := le_antisymm hx (by rw [← heq]; exact Int.floor_le x)
    subst hxK
    unfold roundHalfEven
    simp

theorem roundFloat64_nonneg (q : ℚ) (hq : 0 ≤ q) : 0 ≤ roundFloat64 q := by
  unfold roundFloat64
  split_ifs
  · exact le_refl _
  · simp only
    apply mul_nonneg
    · exact_mod_cast
        roundHalfEven_nonneg _ (div_nonneg hq (le_of_lt (zpow_pos (by norm_num) _)))
    · exact le_of_lt (zpow_pos (by norm_num) _)

/-- Rounding does not cross a float64: a rational between 0 and a float64 value `W` rounds
to a float64 that is still at most `W`. -/
theorem roundFloat64_le_of_le (q W : ℚ) (hq : 0 ≤ q) (hqW : q ≤ W)
    (hW : roundFloat64 W = W) : roundFloat64 q ≤ W := by
  by_cases hq0 : q = 0
  · rw [hq0]
    simp only [roundFloat64, if_true]
    exact le_trans hq hqW
  · have hqpos : 0 < q := lt_of_le_of_ne hq (Ne.symm hq0)
    have hWpos : 0 < W := lt_of_lt_of_le hqpos hqW
    have hW0 : W ≠ 0 := ne_of_gt hWpos
    have hlog : max (Int.log 2 |q|) (-1022) ≤ max (Int.log 2 |W|) (-1022) := by
      apply max_le_max _ (le_refl _)
      apply Int.log_mono_right (abs_pos.mpr hq0)
      rw [abs_of_pos hqpos, abs_of_pos hWpos]
      exact hqW
    obtain ⟨eq, heq⟩ : ∃ e : ℤ, e = max (Int.log 2 |q|) (-1022) := ⟨_, rfl⟩
    obtain ⟨eW, heW⟩ : ∃ e : ℤ, e = max (Int.log 2 |W|) (-1022) := ⟨_, rfl⟩
    rw [← heq, ← heW] at hlog
    have hfl : roundFloat64 q = (roundHalfEven (q / 2 ^ (eq - 52)) : ℚ) * 2 ^ (eq - 52) := by
      rw [heq]
      simp [roundFloat64, hq0]
    obtain ⟨n, hn⟩ : ∃ n : ℤ, W = (n : ℚ) * 2 ^ (eW - 52) := by
      refine ⟨roundHalfEven (W / 2 ^ (eW - 52)), ?_⟩
      have h1 : roundFloat64 W
          = (roundHalfEven (W / 2 ^ (eW - 52)) : ℚ) * 2 ^ (eW - 52) := by
        rw [heW]
        simp [roundFloat64, hW0]
      rw [← h1]
      exact hW.symm
    have hu : (2 : ℚ) ^ (eW - 52)
        = 2 ^ (eq - 52) * (((2 : ℤ) ^ (eW - eq).toNat : ℤ) : ℚ) := by
      have hd : ((eW - eq).toNat : ℤ) = eW - eq := Int.toNat_of_nonneg (by omega)
      push_cast
      rw [← zpow_natCast, hd, ← zpow_add₀ (by norm_num : (2 : ℚ) ≠ 0)]
      congr 1
      ring
    have hupos : (0 : ℚ) < 2 ^ (eq - 52) := zpow_pos (by norm_num) _
    have hWK : W = ((n * (2 : ℤ) ^ (eW - eq).toNat : ℤ) : ℚ) * 2 ^ (eq - 52) := by
      rw [hn, hu]
      push_cast
      ring
    have hdiv : q / 2 ^ (eq - 52) ≤ ((n * (2 : ℤ) ^ (eW - eq).toNat : ℤ) : ℚ) := by
      rw [div_le_iff₀ hupos, ← hWK]
      exact hqW
    have hr := roundHalfEven_le _ _ hdiv
    rw [hfl, hWK]
    exact mul_le_mul_of_nonneg_right (by exact_mod_cast hr) (le_of_lt hupos)

/-- In the subnormal range the float64 values are the multiples of `2 ^ (-1074)`: a
rational `x * 2 ^ (-1074)` with `0 < x ≤ 1` rounds to `roundHalfEven x` times that unit. -/
theorem roundFloat64_subnormal (x : ℚ) (hx : 0 < x) (hx1 : x ≤ 1) :
    roundFloat64 (x * 2 ^ (-1074 : ℤ)) = roundHalfEven x * 2 ^ (-1074 : ℤ) := by
  have hpos : (0 : ℚ) < x * 2 ^ (-1074 : ℤ) := mul_pos hx (zpow_pos (by norm_num) _)
  have hlog : max (Int.log 2 |x * (2 : ℚ) ^ (-1074 : ℤ)|) (-1022) = -1022 := by
    apply max_eq_right
    rw [abs_of_pos hpos]
    have h1 : Int.log 2 (x * (2 : ℚ) ^ (-1074 : ℤ)) < -1021 := by
      rw [← Int.lt_zpow_iff_log_lt (by norm_num) hpos]
      have h2 : (2 : ℚ) ^ (-1074 : ℤ) < 2 ^ (-1021 : ℤ) :=
        zpow_lt_zpow_right₀ (by norm_num) (by norm_num)
      calc x * (2 : ℚ) ^ (-1074 : ℤ) ≤ 1 * 2 ^ (-1074 : ℤ) :=
            mul_le_mul_of_nonneg_right hx1 (le_of_lt (zpow_pos (by norm_num) _))
        _ = 2 ^ (-1074 : ℤ) := one_mul _
        _ < _ := by exact_mod_cast h2
    omega
  unfold roundFloat64
  rw [if_neg (ne_of_gt hpos)]
  simp only [hlog]
  have hq : x * (2 : ℚ) ^ (-1074 : ℤ) / 2 ^ ((-1022 : ℤ) - 52) = x := by
    have : ((-1022 : ℤ) - 52) = -1074 := by norm_num
    rw [this, mul_div_assoc, div_self (ne_of_gt (zpow_pos (by norm_num) _)), mul_one]
  rw [hq]
  norm_num

theorem roundHalfEven_intCast (n : ℤ) : roundHalfEven (n : ℚ) = n := by
  unfold roundHalfEven
  simp

/-- A positive rational in the binade `[2 ^ e, 2 ^ (e + 1))` with a normal exponent is
rounded on the grid of step `2 ^ (e - 52)`. -/
theorem roundFloat64_of_binade (q : ℚ) (e : ℤ) (he : -1022 ≤ e) (hlo : 2 ^ e ≤ q)
    (hhi : q < 2 ^ (e + 1)) :
    roundFloat64 q = roundHalfEven (q / 2 ^ (e - 52)) * 2 ^ (e - 52) := by
  have hpos : 0 < q := lt_of_lt_of_le (zpow_pos (by norm_num) _) hlo
  have h1 : e ≤ Int.log 2 q := by
    rw [← Int.zpow_le_iff_le_log (by norm_num) hpos]
    exact_mod_cast hlo
  have h2 : Int.log 2 q < e + 1 := by
    rw [← Int.lt_zpow_iff_log_lt (by norm_num) hpos]
    exact_mod_cast hhi
  have hlog : max (Int.log 2 |q|) (-1022) = e := by
    rw [abs_of_pos hpos]
    omega
  unfold roundFloat64
  rw [if_neg (ne_of_gt hpos)]
  simp only [hlog]

/-- An integer multiple `n * 2 ^ (e - 52)` inside the binade of `e` is a float64 value. -/
theorem roundFloat64_of_grid (n e : ℤ) (he : -1022 ≤ e)
    (hlo : (2 : ℚ) ^ e ≤ n * 2 ^ (e - 52)) (hhi : (n : ℚ) * 2 ^ (e - 52) < 2 ^ (e + 1)) :
    roundFloat64 (n * 2 ^ (e - 52)) = n * 2 ^ (e - 52) := by
  rw [roundFloat64_of_binade _ e he hlo hhi]
  rw [mul_div_assoc, div_self (ne_of_gt (zpow_pos (by norm_num) _)), mul_one,
    roundHalfEven_intCast]

/-- The sizes of the world of `main`, 1000 by 1000, are float64 values. -/
theorem roundFloat64_thousand : roundFloat64 1000 = 1000 := by
  have h := roundFloat64_of_grid (1000 * 2 ^ 43) 9 (by norm_num) (by norm_num) (by norm_num)
  have e : (((1000 * 2 ^ 43 : ℤ) : ℚ)) * 2 ^ ((9 : ℤ) - 52) = 1000 := by norm_num
  rw [e] at h
  exact h

theorem mulFloat64_half_thousand : mulFloat64 (1 / 2) 1000 = 500 := by
  have h := roundFloat64_of_grid (500 * 2 ^ 44) 8 (by norm_num) (by norm_num) (by norm_num)
  have e : (((500 * 2 ^ 44 : ℤ) : ℚ)) * 2 ^ ((8 : ℤ) - 52) = 500 := by norm_num
  rw [e] at h
  unfold mulFloat64
  norm_num
  exact h

theorem mulFloat64_quarter_thousand : mulFloat64 (1 / 4) 1000 = 250 := by
  have h := roundFloat64_of_grid (250 * 2 ^ 45) 7 (by norm_num) (by norm_num) (by norm_num)
  have e : (((250 * 2 ^ 45 : ℤ) : ℚ)) * 2 ^ ((7 : ℤ) - 52) = 250 := by norm_num
  rw [e] at h
  unfold mulFloat64
  norm_num
  exact h

theorem roundHalfEven_le_pred (x : ℚ) (K : ℤ) (hx : x < K - 1 / 2) : roundHalfEven x ≤ K - 1 := by
  have hf : ⌊x⌋ < K := Int.floor_lt.mpr (lt_of_lt_of_le hx (by linarith))
  rcases lt_or_eq_of_le (Int.lt_iff_add_one_le.mp hf) with hlt | heq
  · have := roundHalfEven_le_floor_succ x
    omega
  · have hfl : (⌊x⌋ : ℚ) = K - 1 := by
      have : ⌊x⌋ = K - 1 := by omega
      rw [this]
      push_cast
      ring
    have hfrac : x - ⌊x⌋ < 1 / 2 := by
      rw [hfl]
      linarith
    have : roundHalfEven x = ⌊x⌋ := by
      unfold roundHalfEven
      simp only [if_pos hfrac]
    omega

/-- Below a float64 value `W` above the smallest normal number, the products with a factor
of at most `1 - 2 ^ (-53)` round to a float64 below `W`. -/
theorem roundFloat64_mul_lt (r W : ℚ) (hr0 : 0 ≤ r) (hr1 : r ≤ 1 - 2 ^ (-53 : ℤ))
    (hWn : 2 ^ (-1022 : ℤ) < W) (hfW : roundFloat64 W = W) : roundFloat64 (r * W) < W := by
  have hWpos : 0 < W := lt_trans (zpow_pos (by norm_num) _) hWn
  have hW0 : W ≠ 0 := ne_of_gt hWpos
  by_cases hq0 : r * W = 0
  · rw [hq0]
    simp only [roundFloat64, if_true]
    exact hWpos
  · have hqpos : 0 < r * W := lt_of_le_of_ne (mul_nonneg hr0 (le_of_lt hWpos)) (Ne.symm hq0)
    have hqW : r * W ≤ (1 - 2 ^ (-53 : ℤ)) * W := mul_le_mul_of_nonneg_right hr1 (le_of_lt hWpos)
    have hqltW : r * W < W := by
      have : (0 : ℚ) < 2 ^ (-53 : ℤ) * W := mul_pos (zpow_pos (by norm_num) _) hWpos
      linarith
    have heW1 : (2 : ℚ) ^ (Int.log 2 W) ≤ W := by
      exact_mod_cast Int.zpow_log_le_self (by norm_num : 1 < 2) hWpos
    have heW2 : W < (2 : ℚ) ^ (Int.log 2 W + 1) := by
      exact_mod_cast Int.lt_zpow_succ_log_self (by norm_num : 1 < 2) W
    have heW3 : -1022 ≤ Int.log 2 W := by
      rw [← Int.zpow_le_iff_le_log (by norm_num) hWpos]
      exact_mod_cast le_of_lt hWn
    obtain ⟨eW, heW⟩ : ∃ e : ℤ, e = Int.log 2 W := ⟨_, rfl⟩
    rw [← heW] at heW1 heW2 heW3
    have hmaxW : max (Int.log 2 |W|) (-1022) = eW := by
      rw [abs_of_pos hWpos, ← heW]
      omega
    obtain ⟨eq, heq⟩ : ∃ e : ℤ, e = max (Int.log 2 |r * W|) (-1022) := ⟨_, rfl⟩
    have hlogq : Int.log 2 (r * W) ≤ eW := by
      rw [heW]
      exact Int.log_mono_right hqpos (le_of_lt hqltW)
    have heqle : eq ≤ eW := by
      rw [heq, abs_of_pos hqpos]
      omega
    have hfl : roundFloat64 (r * W)
        = (roundHalfEven (r * W / 2 ^ (eq - 52)) : ℚ) * 2 ^ (eq - 52) := by
      rw [heq]
      simp [roundFloat64, hq0]
    obtain ⟨n, hn⟩ : ∃ n : ℤ, W = (n : ℚ) * 2 ^ (eW - 52) := by
      refine ⟨roundHalfEven (W / 2 ^ (eW - 52)), ?_⟩
      have h1 : roundFloat64 W
          = (roundHalfEven (W / 2 ^ (eW - 52)) : ℚ) * 2 ^ (eW - 52) := by
        unfold roundFloat64
        rw [if_neg hW0]
        simp only [hmaxW]
      rw [← h1]
      exact hfW.symm
    have huWpos : (0 : ℚ) < 2 ^ (eW - 52) := zpow_pos (by norm_num) _
    have hsplit : (2 : ℚ) ^ eW = 2 ^ (52 : ℕ) * 2 ^ (eW - 52) := by
      rw [← zpow_natCast, ← zpow_add₀ (by norm_num : (2 : ℚ) ≠ 0)]
      congr 1
      push_cast
      ring
    have hn52 : (2 : ℚ) ^ (52 : ℕ) ≤ n := by
      have : (2 : ℚ) ^ (52 : ℕ) * 2 ^ (eW - 52) ≤ (n : ℚ) * 2 ^ (eW - 52) := by
        rw [← hsplit, ← hn]
        exact heW1
      exact le_of_mul_le_mul_right this huWpos
    have hu : (2 : ℚ) ^ (eW - 52)
        = 2 ^ (eq - 52) * (((2 : ℤ) ^ (eW - eq).toNat : ℤ) : ℚ) := by
      have hd : ((eW - eq).toNat : ℤ) = eW - eq := Int.toNat_of_nonneg (by omega)
      push_cast
      rw [← zpow_natCast, hd, ← zpow_add₀ (by norm_num : (2 : ℚ) ≠ 0)]
      congr 1
      ring
    have hupos : (0 : ℚ) < 2 ^ (eq - 52) := zpow_pos (by norm_num) _
    have hWK : W = ((n * (2 : ℤ) ^ (eW - eq).toNat : ℤ) : ℚ) * 2 ^ (eq - 52) := by
      rw [hn, hu]
      push_cast
      ring
    have hK : (2 : ℚ) ^ (52 : ℕ) < ((n * (2 : ℤ) ^ (eW - eq).toNat : ℤ) : ℚ) := by
      rcases lt_or_eq_of_le heqle with hlt | heq2
      · have hd1 : 1 ≤ (eW - eq).toNat := by omega
        have h2 : (2 : ℚ) ≤ (2 : ℚ) ^ (eW - eq).toNat := by
          calc (2 : ℚ) = 2 ^ 1 := by norm_num
            _ ≤ 2 ^ (eW - eq).toNat := pow_le_pow_right₀ (by norm_num) hd1
        push_cast
        have hnpos : (0 : ℚ) < n := lt_of_lt_of_le (by positivity) hn52
        calc (2 : ℚ) ^ (52 : ℕ) < 2 ^ (52 : ℕ) * 2 := by norm_num
          _ ≤ n * 2 ^ (eW - eq).toNat := mul_le_mul hn52 h2 (by norm_num) (le_of_lt hnpos)
      · have hd0 : (eW - eq).toNat = 0 := by omega
        rw [hd0]
        push_cast
        rw [mul_one]
        refine lt_of_le_of_ne hn52 ?_
        intro hne
        have hWe : W = 2 ^ eW := by
          rw [hn, ← hne, ← hsplit]
        have hlt : Int.log 2 (r * W) < eW := by
          rw [← Int.lt_zpow_iff_log_lt (by norm_num) hqpos]
          have : r * W < 2 ^ eW := by
            rw [← hWe]
            exact hqltW
          exact_mod_cast this
        have hclip : eW = -1022 := by
          rw [heq, abs_of_pos hqpos] at heq2
          omega
        rw [hWe, hclip] at hWn
        exact lt_irrefl _ hWn
    have hdiv : r * W / 2 ^ (eq - 52)
        < ((n * (2 : ℤ) ^ (eW - eq).toNat : ℤ) : ℚ) - 1 / 2 := by
      rw [div_lt_iff₀ hupos]
      have h1 : (1 - 2 ^ (-53 : ℤ)) * W
          = (((n * (2 : ℤ) ^ (eW - eq).toNat : ℤ) : ℚ)
              - ((n * (2 : ℤ) ^ (eW - eq).toNat : ℤ) : ℚ) * 2 ^ (-53 : ℤ)) * 2 ^ (eq - 52) := by
        nth_rewrite 1 [hWK]
        ring
      have h2 : (1 : ℚ) / 2 < ((n * (2 : ℤ) ^ (eW - eq).toNat : ℤ) : ℚ) * 2 ^ (-53 : ℤ) := by
        have h3 : (2 : ℚ) ^ (52 : ℕ) * 2 ^ (-53 : ℤ) = 1 / 2 := by norm_num
        rw [← h3]
        exact mul_lt_mul_of_pos_right hK (zpow_pos (by norm_num) _)
      calc r * W ≤ (1 - 2 ^ (-53 : ℤ)) * W := hqW
        _ = _ := h1
        _ < _ := mul_lt_mul_of_pos_right (by linarith) hupos
    have hr := roundHalfEven_le_pred _ _ hdiv
    rw [hfl]
    nth_rewrite 2 [hWK]
    apply mul_lt_mul_of_pos_right _ hupos
    have : roundHalfEven (r * W / 2 ^ (eq - 52)) < n * (2 : ℤ) ^ (eW - eq).toNat := by omega
    exact_mod_cast this

namespace Map

variable {α : Type}

theorem range_perm (s : Nat) (m : Map α) : (range s m).Perm m := by
  induction m generalizing s with
  | nil => simp [range]
  | cons e m ih =>
    have hlen : (range (s / (m.length + 1)) m).length = m.length := (ih _).length_eq
    have hle : s % (m.length + 1) ≤ (range (s / (m.length + 1)) m).length := by
      rw [hlen]
      exact Nat.lt_succ_iff.mp (Nat.mod_lt _ (Nat.succ_pos _))
    exact (List.perm_insertIdx e _ hle).trans ((ih _).cons e)

theorem insertIdx_length_append (e : Int × α) (l1 l2 : Map α) :
    List.insertIdx l1.length e (l1 ++ l2) = l1 ++ e :: l2 := by
  induction l1 with
  | nil => rfl
  | cons a l1 ih =>
    simp only [List.length_cons, List.cons_append, List.insertIdx_succ_cons, ih]

/-- Every order of the entries is the order of `range` for some seed. -/
theorem range_surjective (m l : Map α) (h : l.Perm m) : ∃ s, range s m = l := by
  induction m generalizing l with
  | nil => exact ⟨0, by rw [List.Perm.eq_nil h]; rfl⟩
  | cons e m ih =>
    have hmem : e ∈ l := h.symm.subset (List.mem_cons_self e m)
    obtain ⟨l1, l2, hl⟩ := List.append_of_mem hmem
    subst hl
    have hperm : (l1 ++ l2).Perm m :=
      (List.perm_middle.symm.trans h).cons_inv
    obtain ⟨s1, hs1⟩ := ih (l1 ++ l2) hperm
    have hlen : l1.length < m.length + 1 := by
      have := hperm.length_eq
      simp only [List.length_append] at this
      omega
    refine ⟨l1.length + (m.length + 1) * s1, ?_⟩
    have hmod : (l1.length + (m.length + 1) * s1) % (m.length + 1) = l1.length := by
      rw [Nat.add_mul_mod_self_left, Nat.mod_eq_of_lt hlen]
    have hdiv : (l1.length + (m.length + 1) * s1) / (m.length + 1) = s1 := by
      rw [Nat.add_mul_div_left _ _ (Nat.succ_pos _), Nat.div_eq_of_lt hlen, Nat.zero_add]
    simp only [range, hmod, hdiv, hs1]
    exact insertIdx_length_append e l1 l2

theorem mem_range (s : Nat) (m : Map α) (e : Int × α) : e ∈ range s m ↔ e ∈ m :=
  (range_perm s m).mem_iff

theorem lookup_modify (k k1 : Int) (f : α → α) (m : Map α) :
    lookup k1 (modify k f m) = if k1 = k then (lookup k m).map f else lookup k1 m := by
  induction m with
  | nil => simp [lookup, modify]
  | cons e m ih =>
    unfold modify at ih
    by_cases h1 : e.1 = k <;> by_cases h2 : e.1 = k1 <;> by_cases h3 : k1 = k <;>
      simp_all [lookup, modify]

theorem lookup_delete (k k1 : Int) (m : Map α) :
    lookup k1 (delete k m) = if k1 = k then none else lookup k1 m := by
  induction m with
  | nil => simp [lookup, delete]
  | cons e m ih =>
    unfold delete at ih
    by_cases h1 : e.1 = k <;> by_cases h2 : e.1 = k1 <;> by_cases h3 : k1 = k <;>
      simp_all [lookup, delete, List.filter_cons]

theorem lookup_store (k k1 : Int) (v : α) (m : Map α) :
    lookup k1 (store k v m) = if k1 = k then some v else lookup k1 m := by
  by_cases h : k1 = k
  · simp [store, lookup, h]
  · have h1 : ¬ k = k1 := fun h2 => h h2.symm
    simp [store, lookup, h, h1, lookup_delete]

theorem lookup_eq_none_iff (k : Int) (m : Map α) :
    lookup k m = none ↔ ∀ e ∈ m, e.1 ≠ k := by
  induction m with
  | nil => simp [lookup]
  | cons e m ih =>
    by_cases h : e.1 = k <;> simp [lookup, h, ih]

theorem mem_of_lookup (k : Int) (v : α) (m : Map α) (h : lookup k m = some v) :
    (k, v) ∈ m := by
  induction m with
  | nil => simp [lookup] at h
  | cons e m ih =>
    by_cases h1 : e.1 = k
    · simp [lookup, h1] at h
      subst h1 h
      simp
    · simp [lookup, h1] at h
      exact List.mem_cons_of_mem _ (ih h)

theorem lookup_of_mem (k : Int) (v : α) (m : Map α) (hn : NodupKeys m) (h : (k, v) ∈ m) :
    lookup k m = some v := by
  induction m with
  | nil => simp at h
  | cons e m ih =>
    unfold NodupKeys keys at hn ih
    simp only [List.map_cons, List.nodup_cons] at hn
    rcases List.mem_cons.mp h with h1 | h1
    · subst h1
      simp [lookup]
    · have hne : e.1 ≠ k := by
        intro h2
        apply hn.1
        rw [h2]
        exact List.mem_map.mpr ⟨(k, v), h1, rfl⟩
      simp [lookup, hne, ih hn.2 h1]

theorem len_modify (k : Int) (f : α → α) (m : Map α) : len (modify k f m) = len m := by
  simp [len, modify]

theorem len_delete_le (k : Int) (m : Map α) : len (delete k m) ≤ len m := by
  simp only [len, delete]
  exact List.length_filter_le _ _

theorem len_store_le (k : Int) (v : α) (m : Map α) : len (store k v m) ≤ len m + 1 := by
  have := len_delete_le k m
  simp only [len, store, List.length_cons] at *
  omega

theorem delete_of_lookup_none (k : Int) (m : Map α) (h : lookup k m = none) :
    delete k m = m := by
  rw [lookup_eq_none_iff] at h
  simp only [delete]
  exact List.filter_eq_self.mpr (fun e he => by simpa using h e he)

theorem keys_modify (k : Int) (f : α → α) (m : Map α) : keys (modify k f m) = keys m := by
  simp only [keys, modify, List.map_map]
  apply List.map_congr_left
  intro e _
  by_cases h : e.1 = k <;> simp [h]

theorem isSome_lookup_modify (k k1 : Int) (f : α → α) (m : Map α) :
    (lookup k1 (modify k f m)).isSome = (lookup k1 m).isSome := by
  rw [lookup_modify]
  split_ifs with hk
  · rw [hk]
    cases lookup k m <;> rfl
  · rfl

theorem isSome_lookup_mapValues (g : Int × α → α) (k : Int) (m : Map α) :
    (lookup k (m.map (fun e => (e.1, g e)))).isSome = (lookup k m).isSome := by
  induction m with
  | nil => rfl
  | cons e m ih =>
    by_cases h : e.1 = k
    · simp [lookup, h]
    · simpa [lookup, h] using ih

theorem mem_delete (k : Int) (m : Map α) (e : Int × α) :
    e ∈ delete k m ↔ e ∈ m ∧ e.1 ≠ k := by
  simp [delete]

theorem mem_modify (k : Int) (f : α → α) (m : Map α) (e : Int × α) (h : e ∈ modify k f m) :
    ∃ e0 ∈ m, e0.1 = e.1 ∧ (e = e0 ∨ (e0.1 = k ∧ e.2 = f e0.2)) := by
  simp only [modify, List.mem_map] at h
  obtain ⟨e0, he0, heq⟩ := h
  by_cases hk : e0.1 = k
  · simp only [hk, if_true] at heq
    subst heq
    exact ⟨e0, he0, hk, Or.inr ⟨hk, rfl⟩⟩
  · simp only [hk, if_false] at heq
    subst heq
    exact ⟨e0, he0, rfl, Or.inl rfl⟩

theorem len_store_of_lookup_none (k : Int) (v : α) (m : Map α) (h : lookup k m = none) :
    len (store k v m) = len m + 1 := by
  simp [len, store, delete_of_lookup_none k m h]

end Map

/-! ## Departed owners and missing players -/

/-- C1 (the code fails where the claim asks for completion): with the owner 7 absent from
`Players` and an enemy at distance 0 of the projectile, `checkProjectileCollisions` panics
on `gw.Players[projectile.Owner].Score += 10`; the state is reached by the commands
fire 7, leave 7, update, the first two of which complete. -/
theorem checkProjectileCollisions_owner_left_panics :
    Map.lookup projectileOfSeven.Owner worldOwnerLeft.Players = none ∧
    GameWorld.checkProjectileCollisions 0 0 worldOwnerLeft projectileOfSeven = none ∧
    (runCommands oracleZero [⟨"fire", .int 7, 7⟩, ⟨"leave", .int 7, 7⟩] worldOneOnOne).isSome
      = true ∧
    runCommands oracleZero [⟨"fire", .int 7, 7⟩, ⟨"leave", .int 7, 7⟩, ⟨"update", .nil, 0⟩]
      worldOneOnOne = none := by
  decide!

/-- The "fire" command panics exactly when the firing player is not a key of `Players`. -/
theorem fire_eq_none_iff (o : Oracle) (gw : GameWorld) (playerID sender : Int) :
    GameWorld.Receive o gw ⟨"fire", .int playerID, sender⟩ = none ↔
      Map.lookup playerID gw.Players = none := by
  cases h : Map.lookup playerID gw.Players <;> simp [GameWorld.Receive, h]

/-- C2 (the code fails where the claim asks for a no-op): the "fire" command for player 7
in a world without player 7 panics on `player.Position`, it does not return a world. -/
theorem fire_missing_player_panics :
    Map.lookup 7 worldEmpty.Players = none ∧
    GameWorld.Receive oracleZero worldEmpty ⟨"fire", .int 7, 7⟩ = none := by
  decide!

/-! ## Collision resolution -/

theorem find_range_some {α : Type} (s : Nat) (m : Map α) (q : Int × α → Bool)
    (h : ∃ e ∈ m, q e = true) :
    ∃ e, (Map.range s m).find? q = some e ∧ e ∈ m ∧ q e = true := by
  obtain ⟨e0, he0, hq0⟩ := h
  cases hf : (Map.range s m).find? q with
  | none =>
    rw [List.find?_eq_none] at hf
    exact absurd hq0 (hf e0 ((Map.mem_range s m e0).mpr he0))
  | some e =>
    exact ⟨e, rfl, (Map.mem_range s m e).mp (List.mem_of_find?_eq_some hf),
      List.find?_some hf⟩

theorem find_range_none {α : Type} (s : Nat) (m : Map α) (q : Int × α → Bool)
    (h : ∀ e ∈ m, q e = false) : (Map.range s m).find? q = none := by
  rw [List.find?_eq_none]
  intro e he
  simp [h e ((Map.mem_range s m e).mp he)]

theorem checkProjectileCollisions_of_enemy_found (se sp : Nat) (gw : GameWorld)
    (projectile : Projectile) (owner : Player) (enemyID : Int) (enemy : Enemy)
    (hfind : (Map.range se gw.Enemies).find?
      (fun e => distanceLt10 projectile.Position e.2.Position) = some (enemyID, enemy))
    (ho : Map.lookup projectile.Owner gw.Players = some owner) :
    GameWorld.checkProjectileCollisions se sp gw projectile =
      some ({ gw with
              Players := Map.modify projectile.Owner
                (fun p => { p with Score := wrapInt (p.Score + 10) }) gw.Players,
              Enemies :=
                if wrapInt (enemy.Health - projectile.Damage) ≤ 0 then
                  Map.delete enemyID (Map.modify enemyID
                    (fun e => { e with
                                Health := wrapInt (enemy.Health - projectile.Damage) })
                    gw.Enemies)
                else
                  Map.modify enemyID
                    (fun e => { e with
                                Health := wrapInt (enemy.Health - projectile.Damage) })
                    gw.Enemies }, true) := by
  simp only [GameWorld.checkProjectileCollisions, hfind, ho]

theorem checkProjectileCollisions_of_player_found (se sp : Nat) (gw : GameWorld)
    (projectile : Projectile) (playerID : Int) (player : Player)
    (hnone : (Map.range se gw.Enemies).find?
      (fun e => distanceLt10 projectile.Position e.2.Position) = none)
    (hfind : (Map.range sp gw.Players).find?
      (fun p => decide (p.1 ≠ projectile.Owner) &&
        distanceLt10 projectile.Position p.2.Position) = some (playerID, player)) :
    GameWorld.checkProjectileCollisions se sp gw projectile =
      some ({ gw with
              Players := Map.modify playerID
                (fun p => { p with
                            Health := if wrapInt (player.Health - projectile.Damage) < 0 then 0
                                      else wrapInt (player.Health - projectile.Damage) })
                gw.Players }, true) := by
  simp only [GameWorld.checkProjectileCollisions, hnone, hfind]

theorem checkProjectileCollisions_of_none_found (se sp : Nat) (gw : GameWorld)
    (projectile : Projectile)
    (hnone : (Map.range se gw.Enemies).find?
      (fun e => distanceLt10 projectile.Position e.2.Position) = none)
    (hnone1 : (Map.range sp gw.Players).find?
      (fun p => decide (p.1 ≠ projectile.Owner) &&
        distanceLt10 projectile.Position p.2.Position) = none) :
    GameWorld.checkProjectileCollisions se sp gw projectile =
      some (gw, decide (projectile.Position.X < 0 ∨ projectile.Position.X > gw.Width ∨
          projectile.Position.Y < 0 ∨ projectile.Position.Y > gw.Height)) := by
  simp only [GameWorld.checkProjectileCollisions, hnone, hnone1]
  split <;> simp_all

theorem find_range_eq_none {α : Type} (s : Nat) (m : Map α) (q : Int × α → Bool)
    (h : (Map.range s m).find? q = none) : ∀ e ∈ m, q e = false := by
  rw [List.find?_eq_none] at h
  intro e he
  simpa using h e ((Map.mem_range s m e).mpr he)

/-- The three ways `checkProjectileCollisions` returns: an enemy hit, a player hit, or
neither, in which case the flag is the bounds test and the world is unchanged. -/
theorem checkProjectileCollisions_cases (se sp : Nat) (gw gw1 : GameWorld)
    (projectile : Projectile) (b : Bool)
    (h : GameWorld.checkProjectileCollisions se sp gw projectile = some (gw1, b)) :
    (∃ enemyID enemy owner,
      (enemyID, enemy) ∈ gw.Enemies ∧
      distanceLt10 projectile.Position enemy.Position = true ∧
      Map.lookup projectile.Owner gw.Players = some owner ∧ b = true ∧
      gw1.Players = Map.modify projectile.Owner
        (fun p => { p with Score := wrapInt (p.Score + 10) }) gw.Players ∧
      gw1.Enemies =
        (if wrapInt (enemy.Health - projectile.Damage) ≤ 0 then
          Map.delete enemyID (Map.modify enemyID
            (fun e => { e with Health := wrapInt (enemy.Health - projectile.Damage) })
            gw.Enemies)
        else
          Map.modify enemyID
            (fun e => { e with Health := wrapInt (enemy.Health - projectile.Damage) })
            gw.Enemies) ∧
      gw1.Projectiles = gw.Projectiles ∧ gw1.Width = gw.Width ∧ gw1.Height = gw.Height) ∨
    (∃ playerID player,
      (∀ e ∈ gw.Enemies, distanceLt10 projectile.Position e.2.Position = false) ∧
      (playerID, player) ∈ gw.Players ∧ playerID ≠ projectile.Owner ∧
      distanceLt10 projectile.Position player.Position = true ∧ b = true ∧
      gw1.Players = Map.modify playerID
        (fun p => { p with Health := max 0 (wrapInt (player.Health - projectile.Damage)) })
        gw.Players ∧
      gw1.Enemies = gw.Enemies ∧
      gw1.Projectiles = gw.Projectiles ∧ gw1.Width = gw.Width ∧ gw1.Height = gw.Height) ∨
    ((∀ e ∈ gw.Enemies, distanceLt10 projectile.Position e.2.Position = false) ∧
      (∀ p ∈ gw.Players, p.1 ≠ projectile.Owner →
        distanceLt10 projectile.Position p.2.Position = false) ∧
      gw1 = gw ∧
      b = decide (projectile.Position.X < 0 ∨ projectile.Position.X > gw.Width ∨
          projectile.Position.Y < 0 ∨ projectile.Position.Y > gw.Height)) := by
  have hmax : ∀ h : Int, (if h < 0 then (0 : Int) else h) = max 0 h := by
    intro h
    by_cases hh : h < 0
    · simp [hh, max_eq_left (le_of_lt hh)]
    · simp [hh, max_eq_right (not_lt.mp hh)]
  cases hfe : (Map.range se gw.Enemies).find?
      (fun e => distanceLt10 projectile.Position e.2.Position) with
  | some x =>
    obtain ⟨enemyID, enemy⟩ := x
    have hmem : (enemyID, enemy) ∈ gw.Enemies :=
      (Map.mem_range se gw.Enemies _).mp (List.mem_of_find?_eq_some hfe)
    have hnear : distanceLt10 projectile.Position enemy.Position = true := by
      have := List.find?_some hfe
      simpa using this
    cases ho : Map.lookup projectile.Owner gw.Players with
    | none => simp [GameWorld.checkProjectileCollisions, hfe, ho] at h
    | some owner =>
      rw [checkProjectileCollisions_of_enemy_found se sp gw projectile owner enemyID enemy
        hfe ho] at h
      simp only [Option.some.injEq, Prod.mk.injEq] at h
      obtain ⟨h1, h2⟩ := h
      subst h1
      exact Or.inl ⟨enemyID, enemy, owner, hmem, hnear, rfl, h2.symm, rfl, rfl, rfl, rfl, rfl⟩
  | none =>
    have hne := find_range_eq_none se gw.Enemies _ hfe
    cases hfp : (Map.range sp gw.Players).find?
        (fun p => decide (p.1 ≠ projectile.Owner) &&
          distanceLt10 projectile.Position p.2.Position) with
    | some x =>
      obtain ⟨playerID, player⟩ := x
      have hmem : (playerID, player) ∈ gw.Players :=
        (Map.mem_range sp gw.Players _).mp (List.mem_of_find?_eq_some hfp)
      have hq := List.find?_some hfp
      simp only [Bool.and_eq_true, decide_eq_true_eq] at hq
      rw [checkProjectileCollisions_of_player_found se sp gw projectile playerID player
        hfe hfp] at h
      simp only [Option.some.injEq, Prod.mk.injEq] at h
      obtain ⟨h1, h2⟩ := h
      subst h1
      refine Or.inr (Or.inl ⟨playerID, player, hne, hmem, hq.1, hq.2, h2.symm, ?_,
        rfl, rfl, rfl, rfl⟩)
      simp only [hmax]
    | none =>
      have hnp := find_range_eq_none sp gw.Players _ hfp
      rw [checkProjectileCollisions_of_none_found se sp gw projectile hfe hfp] at h
      simp only [Option.some.injEq, Prod.mk.injEq] at h
      obtain ⟨h1, h2⟩ := h
      refine Or.inr (Or.inr ⟨hne, ?_, h1.symm, h2.symm⟩)
      intro p hp hpo
      have := hnp p hp
      simpa [hpo] using this

/-- C4: when the owner is registered and some enemy is within distance < 10, collision
resolution returns true, one in-range enemy has `Health` reduced by the projectile's
`Damage` (Go `int` arithmetic) and is deleted exactly when the result is `≤ 0`, the owner's
`Score` grows by 10, and every other enemy, every other player, the owner's other fields
and the projectiles are unchanged; no assumption is made on players in range or on bounds. -/
theorem checkProjectileCollisions_enemy_hit (se sp : Nat) (gw : GameWorld)
    (projectile : Projectile) (owner : Player)
    (hn : Map.NodupKeys gw.Enemies)
    (ho : Map.lookup projectile.Owner gw.Players = some owner)
    (he : ∃ e ∈ gw.Enemies, distanceLt10 projectile.Position e.2.Position = true) :
    ∃ enemyID enemy gw1,
      Map.lookup enemyID gw.Enemies = some enemy ∧
      distanceLt10 projectile.Position enemy.Position = true ∧
      GameWorld.checkProjectileCollisions se sp gw projectile = some (gw1, true) ∧
      Map.lookup enemyID gw1.Enemies =
        (if wrapInt (enemy.Health - projectile.Damage) ≤ 0 then none
         else some { enemy with Health := wrapInt (enemy.Health - projectile.Damage) }) ∧
      (∀ k, k ≠ enemyID → Map.lookup k gw1.Enemies = Map.lookup k gw.Enemies) ∧
      Map.lookup projectile.Owner gw1.Players =
        some { owner with Score := wrapInt (owner.Score + 10) } ∧
      (∀ k, k ≠ projectile.Owner → Map.lookup k gw1.Players = Map.lookup k gw.Players) ∧
      gw1.Projectiles = gw.Projectiles ∧ gw1.Width = gw.Width ∧ gw1.Height = gw.Height ∧
      (InInt (enemy.Health - projectile.Damage) →
        wrapInt (enemy.Health - projectile.Damage) = enemy.Health - projectile.Damage) ∧
      (InInt (owner.Score + 10) → wrapInt (owner.Score + 10) = owner.Score + 10) := by
  obtain ⟨⟨enemyID, enemy⟩, hfind, hmem, hnear⟩ :=
    find_range_some se gw.Enemies
      (fun e => distanceLt10 projectile.Position e.2.Position) he
  have hlook : Map.lookup enemyID gw.Enemies = some enemy :=
    Map.lookup_of_mem enemyID enemy gw.Enemies hn hmem
  refine ⟨enemyID, enemy, _, hlook, hnear,
    checkProjectileCollisions_of_enemy_found se sp gw projectile owner enemyID enemy hfind ho,
    ?_, ?_, ?_, ?_, ?_, ?_, ?_, wrapInt_of_inInt _, wrapInt_of_inInt _⟩
  · by_cases hh : wrapInt (enemy.Health - projectile.Damage) ≤ 0
    · simp [hh, Map.lookup_delete]
    · simp [hh, Map.lookup_modify, hlook]
  · intro k hk
    by_cases hh : wrapInt (enemy.Health - projectile.Damage) ≤ 0
    · simp [hh, Map.lookup_delete, Map.lookup_modify, hk]
    · simp [hh, Map.lookup_modify, hk]
  · simp [Map.lookup_modify, ho]
  · intro k hk
    simp [Map.lookup_modify, hk]
  · rfl
  · rfl
  · rfl

/-- C5: when no enemy is within distance < 10 and some player other than the owner is,
collision resolution returns true, one such player has `Health` set to
`max 0 (Health - Damage)` (Go `int` subtraction) and nothing else changes: every other
player (the owner among them), every `Score`, the enemies and the projectiles. -/
theorem checkProjectileCollisions_player_hit (se sp : Nat) (gw : GameWorld)
    (projectile : Projectile)
    (hn : Map.NodupKeys gw.Players)
    (hne : ∀ e ∈ gw.Enemies, distanceLt10 projectile.Position e.2.Position = false)
    (hp : ∃ p ∈ gw.Players, p.1 ≠ projectile.Owner ∧
      distanceLt10 projectile.Position p.2.Position = true) :
    ∃ playerID player gw1,
      Map.lookup playerID gw.Players = some player ∧
      playerID ≠ projectile.Owner ∧
      distanceLt10 projectile.Position player.Position = true ∧
      GameWorld.checkProjectileCollisions se sp gw projectile = some (gw1, true) ∧
      Map.lookup playerID gw1.Players =
        some { player with Health := max 0 (wrapInt (player.Health - projectile.Damage)) } ∧
      (∀ k, k ≠ playerID → Map.lookup k gw1.Players = Map.lookup k gw.Players) ∧
      Map.lookup projectile.Owner gw1.Players = Map.lookup projectile.Owner gw.Players ∧
      gw1.Enemies = gw.Enemies ∧ gw1.Projectiles = gw.Projectiles ∧
      gw1.Width = gw.Width ∧ gw1.Height = gw.Height ∧
      (InInt (player.Health - projectile.Damage) →
        wrapInt (player.Health - projectile.Damage) = player.Health - projectile.Damage) := by
  have hnone := find_range_none se gw.Enemies
    (fun e => distanceLt10 projectile.Position e.2.Position) hne
  obtain ⟨⟨playerID, player⟩, hfind, hmem, hq⟩ :=
    find_range_some sp gw.Players
      (fun p => decide (p.1 ≠ projectile.Owner) &&
        distanceLt10 projectile.Position p.2.Position)
      (by
        obtain ⟨p, hp1, hp2, hp3⟩ := hp
        exact ⟨p, hp1, by simp [hp2, hp3]⟩)
  simp only [Bool.and_eq_true, decide_eq_true_eq] at hq
  have hlook : Map.lookup playerID gw.Players = some player :=
    Map.lookup_of_mem playerID player gw.Players hn hmem
  have hmax : ∀ h : Int, (if h < 0 then (0 : Int) else h) = max 0 h := by
    intro h
    by_cases hh : h < 0
    · simp [hh, max_eq_left (le_of_lt hh)]
    · simp [hh, max_eq_right (not_lt.mp hh)]
  refine ⟨playerID, player, _, hlook, hq.1, hq.2,
    checkProjectileCollisions_of_player_found se sp gw projectile playerID player hnone hfind,
    ?_, ?_, ?_, ?_, ?_, ?_, ?_, wrapInt_of_inInt _⟩
  · simp [Map.lookup_modify, hlook, hmax]
  · intro k hk
    simp [Map.lookup_modify, hk]
  · simp [Map.lookup_modify, Ne.symm hq.1]
  · rfl
  · rfl
  · rfl
  · rfl

/-- The enemy-hit statement at `worldDuel`, with the scenario of an enemy of `Health` 50
under repeated hits of `Damage` 10. -/
theorem checkProjectileCollisions_enemy_hit_witness :
    (Map.NodupKeys worldDuel.Enemies ∧
      Map.lookup projectileOfZero.Owner worldDuel.Players =
        some { ID := 0, Position := ⟨500, 500⟩, Velocity := ⟨0, 0⟩, Health := 100, Score := 0 } ∧
      ∃ e ∈ worldDuel.Enemies, distanceLt10 projectileOfZero.Position e.2.Position = true) ∧
    (∃ enemyID enemy gw1,
      Map.lookup enemyID worldDuel.Enemies = some enemy ∧
      distanceLt10 projectileOfZero.Position enemy.Position = true ∧
      GameWorld.checkProjectileCollisions 0 0 worldDuel projectileOfZero = some (gw1, true) ∧
      Map.lookup enemyID gw1.Enemies =
        (if wrapInt (enemy.Health - projectileOfZero.Damage) ≤ 0 then none
         else some { enemy with Health := wrapInt (enemy.Health - projectileOfZero.Damage) }) ∧
      (∀ k, k ≠ enemyID → Map.lookup k gw1.Enemies = Map.lookup k worldDuel.Enemies) ∧
      Map.lookup projectileOfZero.Owner gw1.Players =
        some { ID := 0, Position := ⟨500, 500⟩, Velocity := ⟨0, 0⟩, Health := 100,
               Score := wrapInt (0 + 10) } ∧
      (∀ k, k ≠ projectileOfZero.Owner →
        Map.lookup k gw1.Players = Map.lookup k worldDuel.Players) ∧
      gw1.Projectiles = worldDuel.Projectiles ∧ gw1.Width = worldDuel.Width ∧
      gw1.Height = worldDuel.Height ∧
      (InInt (enemy.Health - projectileOfZero.Damage) →
        wrapInt (enemy.Health - projectileOfZero.Damage)
          = enemy.Health - projectileOfZero.Damage) ∧
      (InInt ((0 : Int) + 10) → wrapInt ((0 : Int) + 10) = 0 + 10)) ∧
    -- two hits leave the enemy at Health 30, five remove it; the owner scores 10 a hit
    (hitRepeatedly projectileOfZero 2 worldDuel).map
        (fun w => ((Map.lookup 0 w.Enemies).map Enemy.Health,
                   (Map.lookup 0 w.Players).map Player.Score)) = some (some 30, some 20) ∧
    (hitRepeatedly projectileOfZero 4 worldDuel).map
        (fun w => ((Map.lookup 0 w.Enemies).map Enemy.Health,
                   (Map.lookup 0 w.Players).map Player.Score)) = some (some 10, some 40) ∧
    (hitRepeatedly projectileOfZero 5 worldDuel).map
        (fun w => (Map.lookup 0 w.Enemies, Map.len w.Enemies,
                   (Map.lookup 0 w.Players).map Player.Score)) = some (none, 0, some 50) :=
  have h1 : Map.NodupKeys worldDuel.Enemies := by decide
  have h2 : Map.lookup projectileOfZero.Owner worldDuel.Players =
      some { ID := 0, Position := ⟨500, 500⟩, Velocity := ⟨0, 0⟩, Health := 100, Score := 0 } := by
    decide!
  have h3 : ∃ e ∈ worldDuel.Enemies,
      distanceLt10 projectileOfZero.Position e.2.Position = true :=
    ⟨(0, { ID := 0, Position := ⟨0, 0⟩, Health := 50, Damage := 10 }), by decide!, by decide!⟩
  ⟨⟨h1, h2, h3⟩,
   checkProjectileCollisions_enemy_hit 0 0 worldDuel projectileOfZero _ h1 h2 h3,
   by decide!, by decide!, by decide!⟩

/-- The player-hit statement at `worldTwoPlayers`, where player 1 of `Health` 5 is in range
of a projectile of player 0. -/
theorem checkProjectileCollisions_player_hit_witness :
    (Map.NodupKeys worldTwoPlayers.Players ∧
      (∀ e ∈ worldTwoPlayers.Enemies,
        distanceLt10 projectileOfZero.Position e.2.Position = false) ∧
      ∃ p ∈ worldTwoPlayers.Players, p.1 ≠ projectileOfZero.Owner ∧
        distanceLt10 projectileOfZero.Position p.2.Position = true) ∧
    ∃ playerID player gw1,
      Map.lookup playerID worldTwoPlayers.Players = some player ∧
      playerID ≠ projectileOfZero.Owner ∧
      distanceLt10 projectileOfZero.Position player.Position = true ∧
      GameWorld.checkProjectileCollisions 0 0 worldTwoPlayers projectileOfZero
        = some (gw1, true) ∧
      Map.lookup playerID gw1.Players =
        some { player with
               Health := max 0 (wrapInt (player.Health - projectileOfZero.Damage)) } ∧
      (∀ k, k ≠ playerID → Map.lookup k gw1.Players = Map.lookup k worldTwoPlayers.Players) ∧
      Map.lookup projectileOfZero.Owner gw1.Players =
        Map.lookup projectileOfZero.Owner worldTwoPlayers.Players ∧
      gw1.Enemies = worldTwoPlayers.Enemies ∧ gw1.Projectiles = worldTwoPlayers.Projectiles ∧
      gw1.Width = worldTwoPlayers.Width ∧ gw1.Height = worldTwoPlayers.Height ∧
      (InInt (player.Health - projectileOfZero.Damage) →
        wrapInt (player.Health - projectileOfZero.Damage)
          = player.Health - projectileOfZero.Damage) :=
  have h1 : Map.NodupKeys worldTwoPlayers.Players := by decide
  have h2 : ∀ e ∈ worldTwoPlayers.Enemies,
      distanceLt10 projectileOfZero.Position e.2.Position = false := by
    intro e he
    simp [worldTwoPlayers] at he
  have h3 : ∃ p ∈ worldTwoPlayers.Players, p.1 ≠ projectileOfZero.Owner ∧
      distanceLt10 projectileOfZero.Position p.2.Position = true :=
    ⟨(1, { ID := 1, Position := ⟨3, 4⟩, Velocity := ⟨0, 0⟩, Health := 5, Score := 0 }),
      by decide!, by decide, by decide!⟩
  ⟨⟨h1, h2, h3⟩, checkProjectileCollisions_player_hit 0 0 worldTwoPlayers projectileOfZero h1 h2 h3⟩

/-! ## The tick -/

theorem checkProjectileCollisions_frame (se sp : Nat) (gw gw1 : GameWorld)
    (projectile : Projectile) (b : Bool)
    (h : GameWorld.checkProjectileCollisions se sp gw projectile = some (gw1, b)) :
    Map.len gw1.Players = Map.len gw.Players ∧ Map.len gw1.Enemies ≤ Map.len gw.Enemies ∧
    gw1.Projectiles = gw.Projectiles ∧ gw1.Width = gw.Width ∧ gw1.Height = gw.Height := by
  rcases checkProjectileCollisions_cases se sp gw gw1 projectile b h with
    ⟨k, e, _, _, _, _, _, hP, hE, hPr, hW, hH⟩ | ⟨k, pl, _, _, _, _, _, hP, hE, hPr, hW, hH⟩ |
    ⟨_, _, hgw, _⟩
  · refine ⟨by rw [hP, Map.len_modify], ?_, hPr, hW, hH⟩
    rw [hE]
    split
    · exact le_trans (Map.len_delete_le _ _) (le_of_eq (Map.len_modify _ _ _))
    · exact le_of_eq (Map.len_modify _ _ _)
  · exact ⟨by rw [hP, Map.len_modify], by rw [hE], hPr, hW, hH⟩
  · subst hgw
    exact ⟨rfl, le_refl _, rfl, rfl, rfl⟩

theorem checkProjectileCollisions_health (se sp : Nat) (gw gw1 : GameWorld)
    (projectile : Projectile) (b : Bool)
    (h : GameWorld.checkProjectileCollisions se sp gw projectile = some (gw1, b))
    (hinv : gw.HealthNonneg) : gw1.HealthNonneg := by
  obtain ⟨hp, he⟩ := hinv
  rcases checkProjectileCollisions_cases se sp gw gw1 projectile b h with
    ⟨k, e, _, _, _, _, _, hP, hE, _, _, _⟩ | ⟨k, pl, _, _, _, _, _, hP, hE, _, _, _⟩ |
    ⟨_, _, hgw, _⟩
  · constructor
    · intro x hx
      rw [hP] at hx
      obtain ⟨x0, hx0, _, hx1 | ⟨_, hx1⟩⟩ := Map.mem_modify _ _ _ _ hx
      · rw [hx1]
        exact hp x0 hx0
      · rw [hx1]
        exact hp x0 hx0
    · intro x hx
      rw [hE] at hx
      by_cases hh : wrapInt (e.Health - projectile.Damage) ≤ 0
      · rw [if_pos hh, Map.mem_delete] at hx
        obtain ⟨x0, hx0, hkey, hx1 | ⟨hk, _⟩⟩ := Map.mem_modify _ _ _ _ hx.1
        · rw [hx1]
          exact he x0 hx0
        · exact absurd (hkey.symm.trans hk) hx.2
      · rw [if_neg hh] at hx
        obtain ⟨x0, hx0, _, hx1 | ⟨_, hx1⟩⟩ := Map.mem_modify _ _ _ _ hx
        · rw [hx1]
          exact he x0 hx0
        · rw [hx1]
          exact le_of_lt (not_le.mp hh)
  · constructor
    · intro x hx
      rw [hP] at hx
      obtain ⟨x0, hx0, _, hx1 | ⟨_, hx1⟩⟩ := Map.mem_modify _ _ _ _ hx
      · rw [hx1]
        exact hp x0 hx0
      · rw [hx1]
        exact le_max_left _ _
    · intro x hx
      rw [hE] at hx
      exact he x hx
  · subst hgw
    exact ⟨hp, he⟩

/-- Collision resolution moves nobody: every enemy and every player left in the registries
was there before under the same key and at the same position. -/
theorem checkProjectileCollisions_places (se sp : Nat) (gw gw1 : GameWorld)
    (projectile : Projectile) (b : Bool)
    (h : GameWorld.checkProjectileCollisions se sp gw projectile = some (gw1, b)) :
    (∀ e ∈ gw1.Enemies, ∃ e0 ∈ gw.Enemies, e0.1 = e.1 ∧ e0.2.Position = e.2.Position) ∧
    (∀ q ∈ gw1.Players, ∃ q0 ∈ gw.Players, q0.1 = q.1 ∧ q0.2.Position = q.2.Position) := by
  rcases checkProjectileCollisions_cases se sp gw gw1 projectile b h with
    ⟨k, e, _, _, _, _, _, hP, hE, _, _, _⟩ | ⟨k, pl, _, _, _, _, _, hP, hE, _, _, _⟩ |
    ⟨_, _, hgw, _⟩
  · constructor
    · intro x hx
      rw [hE] at hx
      have hx1 : x ∈ Map.modify k
          (fun e0 => { e0 with Health := wrapInt (e.Health - projectile.Damage) })
          gw.Enemies := by
        by_cases hh : wrapInt (e.Health - projectile.Damage) ≤ 0
        · rw [if_pos hh, Map.mem_delete] at hx
          exact hx.1
        · rw [if_neg hh] at hx
          exact hx
      obtain ⟨x0, hx0, hkey, hx2 | ⟨_, hx2⟩⟩ := Map.mem_modify _ _ _ _ hx1
      · exact ⟨x0, hx0, hkey, by rw [hx2]⟩
      · exact ⟨x0, hx0, hkey, by rw [hx2]⟩
    · intro x hx
      rw [hP] at hx
      obtain ⟨x0, hx0, hkey, hx2 | ⟨_, hx2⟩⟩ := Map.mem_modify _ _ _ _ hx
      · exact ⟨x0, hx0, hkey, by rw [hx2]⟩
      · exact ⟨x0, hx0, hkey, by rw [hx2]⟩
  · constructor
    · intro x hx
      rw [hE] at hx
      exact ⟨x, hx, rfl, rfl⟩
    · intro x hx
      rw [hP] at hx
      obtain ⟨x0, hx0, hkey, hx2 | ⟨_, hx2⟩⟩ := Map.mem_modify _ _ _ _ hx
      · exact ⟨x0, hx0, hkey, by rw [hx2]⟩
      · exact ⟨x0, hx0, hkey, by rw [hx2]⟩
  · subst hgw
    exact ⟨fun x hx => ⟨x, hx, rfl, rfl⟩, fun x hx => ⟨x, hx, rfl, rfl⟩⟩

/-- One iteration of the projectile loop is the collision resolution of the advanced
projectile, followed by `delete(gw.Projectiles, id)` when it returned true. -/
theorem projectileStep_cases (o : Oracle) (gw gw2 : GameWorld) (id : Int)
    (projectile : Projectile) (h : GameWorld.projectileStep o gw id projectile = some gw2) :
    ∃ gw1 b,
      GameWorld.checkProjectileCollisions (o.enemyOrder id) (o.playerOrder id)
        { gw with
          Projectiles :=
            Map.modify id
              (fun _ => { projectile with
                          Position := { X := projectile.Position.X + projectile.Velocity.X,
                                        Y := projectile.Position.Y + projectile.Velocity.Y } })
              gw.Projectiles }
        { projectile with
          Position := { X := projectile.Position.X + projectile.Velocity.X,
                        Y := projectile.Position.Y + projectile.Velocity.Y } }
        = some (gw1, b) ∧
      gw2 = (if b = true then { gw1 with Projectiles := Map.delete id gw1.Projectiles }
             else gw1) := by
  unfold GameWorld.projectileStep at h
  simp only at h
  split at h
  · exact absurd h (by simp)
  · next gw1 hc =>
    exact ⟨gw1, true, hc, by simpa using (Option.some.inj h).symm⟩
  · next gw1 hc =>
    exact ⟨gw1, false, hc, by simpa using (Option.some.inj h).symm⟩

/-- Induction over the projectile loop: a reflexive and transitive relation that every
iteration respects relates the world before the loop to the world after it. -/
theorem projectileLoop_induct (o : Oracle) (R : GameWorld → GameWorld → Prop)
    (hrefl : ∀ g, R g g) (htrans : ∀ a b c, R a b → R b c → R a c)
    (hstep : ∀ g id p g1, GameWorld.projectileStep o g id p = some g1 → R g g1)
    (l : List (Int × Projectile)) (g g1 : GameWorld)
    (h : GameWorld.projectileLoop o l g = some g1) : R g g1 := by
  induction l generalizing g with
  | nil =>
    simp only [GameWorld.projectileLoop, Option.some.injEq] at h
    subst h
    exact hrefl g
  | cons e rest ih =>
    simp only [GameWorld.projectileLoop] at h
    split at h
    · exact absurd h (by simp)
    · next g2 hs => exact htrans _ _ _ (hstep _ _ _ _ hs) (ih g2 h)

theorem projectileStep_frame (o : Oracle) (gw gw2 : GameWorld) (id : Int)
    (projectile : Projectile) (h : GameWorld.projectileStep o gw id projectile = some gw2) :
    Map.len gw2.Players = Map.len gw.Players ∧ Map.len gw2.Enemies ≤ Map.len gw.Enemies ∧
    Map.len gw2.Projectiles ≤ Map.len gw.Projectiles ∧
    gw2.Width = gw.Width ∧ gw2.Height = gw.Height := by
  obtain ⟨gw1, b, hc, hgw2⟩ := projectileStep_cases o gw gw2 id projectile h
  obtain ⟨h1, h2, h3, h4, h5⟩ := checkProjectileCollisions_frame _ _ _ _ _ _ hc
  simp only at h1 h2 h3 h4 h5
  cases b
  · simp only [Bool.false_eq_true, if_false] at hgw2
    subst hgw2
    exact ⟨h1, h2, by rw [h3, Map.len_modify], h4, h5⟩
  · simp only [if_true] at hgw2
    subst hgw2
    refine ⟨h1, h2, ?_, h4, h5⟩
    simp only
    rw [h3]
    exact le_trans (Map.len_delete_le _ _) (le_of_eq (Map.len_modify _ _ _))

theorem projectileStep_health (o : Oracle) (gw gw2 : GameWorld) (id : Int)
    (projectile : Projectile) (h : GameWorld.projectileStep o gw id projectile = some gw2)
    (hinv : gw.HealthNonneg) : gw2.HealthNonneg := by
  obtain ⟨gw1, b, hc, hgw2⟩ := projectileStep_cases o gw gw2 id projectile h
  have h1 := checkProjectileCollisions_health _ _ _ _ _ _ hc hinv
  cases b
  · simp only [Bool.false_eq_true, if_false] at hgw2
    subst hgw2
    exact h1
  · simp only [if_true] at hgw2
    subst hgw2
    exact h1

theorem projectileStep_places (o : Oracle) (gw gw2 : GameWorld) (id : Int)
    (projectile : Projectile) (h : GameWorld.projectileStep o gw id projectile = some gw2) :
    (∀ e ∈ gw2.Enemies, ∃ e0 ∈ gw.Enemies, e0.1 = e.1 ∧ e0.2.Position = e.2.Position) ∧
    (∀ q ∈ gw2.Players, ∃ q0 ∈ gw.Players, q0.1 = q.1 ∧ q0.2.Position = q.2.Position) := by
  obtain ⟨gw1, b, hc, hgw2⟩ := projectileStep_cases o gw gw2 id projectile h
  have h1 := checkProjectileCollisions_places _ _ _ _ _ _ hc
  cases b
  · simp only [Bool.false_eq_true, if_false] at hgw2
    subst hgw2
    exact h1
  · simp only [if_true] at hgw2
    subst hgw2
    exact h1

/-- A key absent from `Projectiles` before an iteration is absent after it. -/
theorem projectileStep_absent (o : Oracle) (gw gw2 : GameWorld) (id k : Int)
    (projectile : Projectile) (h : GameWorld.projectileStep o gw id projectile = some gw2)
    (hk : Map.lookup k gw.Projectiles = none) : Map.lookup k gw2.Projectiles = none := by
  obtain ⟨gw1, b, hc, hgw2⟩ := projectileStep_cases o gw gw2 id projectile h
  obtain ⟨_, _, h3, _, _⟩ := checkProjectileCollisions_frame _ _ _ _ _ _ hc
  simp only at h3
  have hmod : Map.lookup k gw1.Projectiles = none := by
    rw [h3, Map.lookup_modify]
    by_cases hkid : k = id
    · subst hkid
      simp [hk]
    · simp [hkid, hk]
  cases b
  · simp only [Bool.false_eq_true, if_false] at hgw2
    subst hgw2
    exact hmod
  · simp only [if_true] at hgw2
    subst hgw2
    simp only
    rw [Map.lookup_delete]
    by_cases hkid : k = id
    · simp [hkid]
    · simp [hkid, hmod]

theorem projectileLoop_frame (o : Oracle) (l : List (Int × Projectile)) (gw gw1 : GameWorld)
    (h : GameWorld.projectileLoop o l gw = some gw1) :
    Map.len gw1.Players = Map.len gw.Players ∧ Map.len gw1.Enemies ≤ Map.len gw.Enemies ∧
    Map.len gw1.Projectiles ≤ Map.len gw.Projectiles ∧
    gw1.Width = gw.Width ∧ gw1.Height = gw.Height :=
  projectileLoop_induct o
    (fun a b => Map.len b.Players = Map.len a.Players ∧ Map.len b.Enemies ≤ Map.len a.Enemies ∧
      Map.len b.Projectiles ≤ Map.len a.Projectiles ∧ b.Width = a.Width ∧ b.Height = a.Height)
    (fun _ => ⟨rfl, le_refl _, le_refl _, rfl, rfl⟩)
    (fun _ _ _ h1 h2 => ⟨h2.1.trans h1.1, le_trans h2.2.1 h1.2.1,
      le_trans h2.2.2.1 h1.2.2.1, h2.2.2.2.1.trans h1.2.2.2.1, h2.2.2.2.2.trans h1.2.2.2.2⟩)
    (fun g id p g1 hs => projectileStep_frame o g g1 id p hs) l gw gw1 h

theorem projectileLoop_health (o : Oracle) (l : List (Int × Projectile)) (gw gw1 : GameWorld)
    (h : GameWorld.projectileLoop o l gw = some gw1) (hinv : gw.HealthNonneg) :
    gw1.HealthNonneg :=
  projectileLoop_induct o (fun a b => a.HealthNonneg → b.HealthNonneg)
    (fun _ h1 => h1) (fun _ _ _ h1 h2 h3 => h2 (h1 h3))
    (fun g id p g1 hs => projectileStep_health o g g1 id p hs) l gw gw1 h hinv

theorem projectileLoop_places (o : Oracle) (l : List (Int × Projectile)) (gw gw1 : GameWorld)
    (h : GameWorld.projectileLoop o l gw = some gw1) :
    (∀ e ∈ gw1.Enemies, ∃ e0 ∈ gw.Enemies, e0.1 = e.1 ∧ e0.2.Position = e.2.Position) ∧
    (∀ q ∈ gw1.Players, ∃ q0 ∈ gw.Players, q0.1 = q.1 ∧ q0.2.Position = q.2.Position) :=
  projectileLoop_induct o
    (fun a b =>
      (∀ e ∈ b.Enemies, ∃ e0 ∈ a.Enemies, e0.1 = e.1 ∧ e0.2.Position = e.2.Position) ∧
      (∀ q ∈ b.Players, ∃ q0 ∈ a.Players, q0.1 = q.1 ∧ q0.2.Position = q.2.Position))
    (fun _ => ⟨fun x hx => ⟨x, hx, rfl, rfl⟩, fun x hx => ⟨x, hx, rfl, rfl⟩⟩)
    (fun _ _ _ h1 h2 =>
      ⟨fun x hx => by
          obtain ⟨y, hy, hy1, hy2⟩ := h2.1 x hx
          obtain ⟨z, hz, hz1, hz2⟩ := h1.1 y hy
          exact ⟨z, hz, hz1.trans hy1, hz2.trans hy2⟩,
       fun x hx => by
          obtain ⟨y, hy, hy1, hy2⟩ := h2.2 x hx
          obtain ⟨z, hz, hz1, hz2⟩ := h1.2 y hy
          exact ⟨z, hz, hz1.trans hy1, hz2.trans hy2⟩⟩)
    (fun g id p g1 hs => projectileStep_places o g g1 id p hs) l gw gw1 h

theorem projectileLoop_absent (o : Oracle) (l : List (Int × Projectile)) (gw gw1 : GameWorld)
    (k : Int) (h : GameWorld.projectileLoop o l gw = some gw1)
    (hk : Map.lookup k gw.Projectiles = none) : Map.lookup k gw1.Projectiles = none :=
  projectileLoop_induct o
    (fun a b => Map.lookup k a.Projectiles = none → Map.lookup k b.Projectiles = none)
    (fun _ h1 => h1) (fun _ _ _ h1 h2 h3 => h2 (h1 h3))
    (fun g id p g1 hs => projectileStep_absent o g g1 id k p hs) l gw gw1 h hk

/-- A completed tick is the two motion loops, the projectile loop and the spawn step. -/
theorem updateGameState_cases (o : Oracle) (gw gw2 : GameWorld)
    (h : GameWorld.updateGameState o gw = some gw2) :
    ∃ gw1,
      GameWorld.projectileLoop o
        (Map.range o.projOrder
          (GameWorld.updateEnemies o (GameWorld.updatePlayers o gw)).Projectiles)
        (GameWorld.updateEnemies o (GameWorld.updatePlayers o gw)) = some gw1 ∧
      gw2 = GameWorld.spawnNewEnemies o gw1 := by
  unfold GameWorld.updateGameState GameWorld.updateProjectiles at h
  split at h
  · exact absurd h (by simp)
  · next gw1 hl => exact ⟨gw1, hl, (Option.some.inj h).symm⟩

theorem updateMotion_frame (o : Oracle) (gw : GameWorld) :
    Map.len (GameWorld.updateEnemies o (GameWorld.updatePlayers o gw)).Players
      = Map.len gw.Players ∧
    Map.len (GameWorld.updateEnemies o (GameWorld.updatePlayers o gw)).Enemies
      = Map.len gw.Enemies ∧
    (GameWorld.updateEnemies o (GameWorld.updatePlayers o gw)).Projectiles = gw.Projectiles ∧
    (GameWorld.updateEnemies o (GameWorld.updatePlayers o gw)).Width = gw.Width ∧
    (GameWorld.updateEnemies o (GameWorld.updatePlayers o gw)).Height = gw.Height := by
  simp [GameWorld.updateEnemies, GameWorld.updatePlayers, Map.len]

theorem updateMotion_health (o : Oracle) (gw : GameWorld) (hinv : gw.HealthNonneg) :
    (GameWorld.updateEnemies o (GameWorld.updatePlayers o gw)).HealthNonneg := by
  obtain ⟨hp, he⟩ := hinv
  constructor
  · intro x hx
    simp only [GameWorld.updateEnemies, GameWorld.updatePlayers, List.mem_map] at hx
    obtain ⟨x0, hx0, rfl⟩ := hx
    exact hp x0 hx0
  · intro x hx
    simp only [GameWorld.updateEnemies, GameWorld.updatePlayers, List.mem_map] at hx
    obtain ⟨x0, hx0, rfl⟩ := hx
    exact he x0 hx0

theorem spawnNewEnemies_frame (o : Oracle) (gw : GameWorld) :
    (GameWorld.spawnNewEnemies o gw).Players = gw.Players ∧
    (GameWorld.spawnNewEnemies o gw).Projectiles = gw.Projectiles ∧
    (GameWorld.spawnNewEnemies o gw).Width = gw.Width ∧
    (GameWorld.spawnNewEnemies o gw).Height = gw.Height ∧
    Map.len (GameWorld.spawnNewEnemies o gw).Enemies ≤ Map.len gw.Enemies + 1 ∧
    Map.len (GameWorld.spawnNewEnemies o gw).Enemies
      ≤ max (Map.len gw.Enemies) (Map.len gw.Players * 2) := by
  unfold GameWorld.spawnNewEnemies
  by_cases hlt : Map.len gw.Enemies < Map.len gw.Players * 2
  · rw [if_pos hlt]
    have hle := Map.len_store_le (↑(Map.len gw.Enemies))
      ({ ID := ↑(Map.len gw.Enemies), Health := 50, Damage := 10,
         Position := { X := o.spawnDraw.1 * gw.Width, Y := o.spawnDraw.2 * gw.Height } } : Enemy)
      gw.Enemies
    exact ⟨rfl, rfl, rfl, rfl, hle, le_trans hle (le_max_of_le_right hlt)⟩
  · rw [if_neg hlt]
    exact ⟨rfl, rfl, rfl, rfl, Nat.le_succ _, le_max_left _ _⟩

theorem spawnNewEnemies_health (o : Oracle) (gw : GameWorld) (hinv : gw.HealthNonneg) :
    (GameWorld.spawnNewEnemies o gw).HealthNonneg := by
  obtain ⟨hp, he⟩ := hinv
  unfold GameWorld.spawnNewEnemies
  by_cases hlt : Map.len gw.Enemies < Map.len gw.Players * 2
  · simp only [if_pos hlt, GameWorld.spawnEnemy]
    refine ⟨hp, ?_⟩
    intro x hx
    simp only [Map.store, List.mem_cons] at hx
    rcases hx with hx | hx
    · subst hx
      show (0 : Int) ≤ 50
      decide
    · exact he x ((Map.mem_delete _ _ _).mp hx).1
  · simp only [if_neg hlt]
    exact ⟨hp, he⟩

/-! ## When the tick completes -/

/-- Collision resolution panics exactly when some enemy is within distance < 10 and the
projectile's owner is not a key of `Players`. -/
theorem checkProjectileCollisions_eq_none_iff (se sp : Nat) (gw : GameWorld)
    (projectile : Projectile) :
    GameWorld.checkProjectileCollisions se sp gw projectile = none ↔
      (∃ e ∈ gw.Enemies, distanceLt10 projectile.Position e.2.Position = true) ∧
      Map.lookup projectile.Owner gw.Players = none := by
  cases hfe : (Map.range se gw.Enemies).find?
      (fun e => distanceLt10 projectile.Position e.2.Position) with
  | some x =>
    obtain ⟨enemyID, enemy⟩ := x
    have hmem : (enemyID, enemy) ∈ gw.Enemies :=
      (Map.mem_range se gw.Enemies _).mp (List.mem_of_find?_eq_some hfe)
    have hnear : distanceLt10 projectile.Position enemy.Position = true := by
      have := List.find?_some hfe
      simpa using this
    cases ho : Map.lookup projectile.Owner gw.Players with
    | none =>
      simp only [GameWorld.checkProjectileCollisions, hfe, ho, true_iff, and_true]
      exact ⟨(enemyID, enemy), hmem, hnear⟩
    | some owner =>
      rw [checkProjectileCollisions_of_enemy_found se sp gw projectile owner enemyID enemy
        hfe ho]
      simp
  | none =>
    have hne := find_range_eq_none se gw.Enemies _ hfe
    have hsome : GameWorld.checkProjectileCollisions se sp gw projectile ≠ none := by
      cases hfp : (Map.range sp gw.Players).find?
          (fun p => decide (p.1 ≠ projectile.Owner) &&
            distanceLt10 projectile.Position p.2.Position) with
      | some x =>
        rw [checkProjectileCollisions_of_player_found se sp gw projectile x.1 x.2 hfe hfp]
        simp
      | none =>
        rw [checkProjectileCollisions_of_none_found se sp gw projectile hfe hfp]
        simp
    constructor
    · intro h
      exact absurd h hsome
    · rintro ⟨⟨e, he, hnear⟩, _⟩
      have := hne e he
      simp only at this
      rw [hnear] at this
      exact absurd this (by simp)

/-- Collision resolution keeps the key set of `Players`. -/
theorem checkProjectileCollisions_player_keys (se sp : Nat) (gw gw1 : GameWorld)
    (projectile : Projectile) (b : Bool)
    (h : GameWorld.checkProjectileCollisions se sp gw projectile = some (gw1, b)) (k : Int) :
    (Map.lookup k gw1.Players).isSome = (Map.lookup k gw.Players).isSome := by
  rcases checkProjectileCollisions_cases se sp gw gw1 projectile b h with
    ⟨_, _, _, _, _, _, _, hP, _, _, _, _⟩ | ⟨_, _, _, _, _, _, _, hP, _, _, _, _⟩ |
    ⟨_, _, hgw, _⟩
  · rw [hP]
    exact Map.isSome_lookup_modify _ _ _ _
  · rw [hP]
    exact Map.isSome_lookup_modify _ _ _ _
  · rw [hgw]

theorem projectileStep_player_keys (o : Oracle) (gw gw2 : GameWorld) (id : Int)
    (projectile : Projectile) (h : GameWorld.projectileStep o gw id projectile = some gw2)
    (k : Int) : (Map.lookup k gw2.Players).isSome = (Map.lookup k gw.Players).isSome := by
  obtain ⟨gw1, b, hc, hgw2⟩ := projectileStep_cases o gw gw2 id projectile h
  have h1 := checkProjectileCollisions_player_keys _ _ _ _ _ _ hc k
  cases b
  · simp only [Bool.false_eq_true, if_false] at hgw2
    subst hgw2
    exact h1
  · simp only [if_true] at hgw2
    subst hgw2
    exact h1

/-- The projectile loop completes when the owner of every projectile it visits is a key
of `Players`. -/
theorem projectileLoop_completes (o : Oracle) (l : List (Int × Projectile)) (gw : GameWorld)
    (ho : ∀ e ∈ l, (Map.lookup e.2.Owner gw.Players).isSome = true) :
    (GameWorld.projectileLoop o l gw).isSome = true := by
  induction l generalizing gw with
  | nil => simp [GameWorld.projectileLoop]
  | cons e rest ih =>
    have hstep : ∃ g2, GameWorld.projectileStep o gw e.1 e.2 = some g2 := by
      cases hc : GameWorld.checkProjectileCollisions (o.enemyOrder e.1) (o.playerOrder e.1)
          { gw with
            Projectiles :=
              Map.modify e.1
                (fun _ => { e.2 with
                            Position := { X := e.2.Position.X + e.2.Velocity.X,
                                          Y := e.2.Position.Y + e.2.Velocity.Y } })
                gw.Projectiles }
          { e.2 with
            Position := { X := e.2.Position.X + e.2.Velocity.X,
                          Y := e.2.Position.Y + e.2.Velocity.Y } } with
      | none =>
        rw [checkProjectileCollisions_eq_none_iff] at hc
        have h1 := ho e (List.mem_cons_self _ _)
        have h2 : Map.lookup e.2.Owner gw.Players = none := hc.2
        rw [h2] at h1
        exact absurd h1 (by simp)
      | some r =>
        obtain ⟨g1, b⟩ := r
        cases b
        · exact ⟨g1, by simp only [GameWorld.projectileStep, hc]⟩
        · exact ⟨{ g1 with Projectiles := Map.delete e.1 g1.Projectiles },
            by simp only [GameWorld.projectileStep, hc]⟩
    obtain ⟨g2, hs⟩ := hstep
    simp only [GameWorld.projectileLoop, hs]
    apply ih
    intro x hx
    rw [projectileStep_player_keys o gw g2 e.1 e.2 hs]
    exact ho x (List.mem_cons_of_mem _ hx)

/-- The tick completes when the owner of every projectile is a key of `Players`. -/
theorem updateGameState_completes (o : Oracle) (gw : GameWorld)
    (ho : ∀ e ∈ gw.Projectiles, (Map.lookup e.2.Owner gw.Players).isSome = true) :
    (GameWorld.updateGameState o gw).isSome = true := by
  have hkeys : ∀ k, (Map.lookup k
      (GameWorld.updateEnemies o (GameWorld.updatePlayers o gw)).Players).isSome =
      (Map.lookup k gw.Players).isSome :=
    fun k => Map.isSome_lookup_mapValues _ k gw.Players
  have hloop := projectileLoop_completes o
    (Map.range o.projOrder
      (GameWorld.updateEnemies o (GameWorld.updatePlayers o gw)).Projectiles)
    (GameWorld.updateEnemies o (GameWorld.updatePlayers o gw))
    (by
      intro e he
      rw [hkeys]
      exact ho e ((Map.mem_range _ _ _).mp he))
  unfold GameWorld.updateGameState GameWorld.updateProjectiles
  cases hl : GameWorld.projectileLoop o
      (Map.range o.projOrder
        (GameWorld.updateEnemies o (GameWorld.updatePlayers o gw)).Projectiles)
      (GameWorld.updateEnemies o (GameWorld.updatePlayers o gw)) with
  | none =>
    rw [hl] at hloop
    exact absurd hloop (by simp)
  | some g1 => rfl

/-! ## The right edge of the world -/

theorem projectileStep_removes (o : Oracle) (gw gw2 : GameWorld) (id : Int)
    (projectile : Projectile)
    (hne : ∀ e ∈ gw.Enemies,
      distanceLt10 ⟨projectile.Position.X + projectile.Velocity.X,
        projectile.Position.Y + projectile.Velocity.Y⟩ e.2.Position = false)
    (hnp : ∀ q ∈ gw.Players, q.1 ≠ projectile.Owner →
      distanceLt10 ⟨projectile.Position.X + projectile.Velocity.X,
        projectile.Position.Y + projectile.Velocity.Y⟩ q.2.Position = false)
    (hx : gw.Width < projectile.Position.X + projectile.Velocity.X)
    (h : GameWorld.projectileStep o gw id projectile = some gw2) :
    Map.lookup id gw2.Projectiles = none := by
  obtain ⟨gw1, b, hc, hgw2⟩ := projectileStep_cases o gw gw2 id projectile h
  have hfe := find_range_none (o.enemyOrder id) gw.Enemies
    (fun e => distanceLt10 ⟨projectile.Position.X + projectile.Velocity.X,
        projectile.Position.Y + projectile.Velocity.Y⟩ e.2.Position) hne
  have hfp := find_range_none (o.playerOrder id) gw.Players
    (fun q => decide (q.1 ≠ projectile.Owner) &&
      distanceLt10 ⟨projectile.Position.X + projectile.Velocity.X,
        projectile.Position.Y + projectile.Velocity.Y⟩ q.2.Position)
    (by
      intro q hq
      by_cases hqo : q.1 = projectile.Owner
      · simp [hqo]
      · simp [hqo, hnp q hq hqo])
  have hc0 := checkProjectileCollisions_of_none_found (o.enemyOrder id) (o.playerOrder id)
    { gw with
      Projectiles :=
        Map.modify id
          (fun _ => { projectile with
                      Position := { X := projectile.Position.X + projectile.Velocity.X,
                                    Y := projectile.Position.Y + projectile.Velocity.Y } })
          gw.Projectiles }
    { projectile with
      Position := { X := projectile.Position.X + projectile.Velocity.X,
                    Y := projectile.Position.Y + projectile.Velocity.Y } } hfe hfp
  rw [hc0] at hc
  simp only [Option.some.injEq, Prod.mk.injEq] at hc
  obtain ⟨hc1, hc2⟩ := hc
  have hb : b = true := by
    rw [← hc2]
    simp [hx]
  subst hc1
  rw [hb] at hgw2
  simp only [if_true] at hgw2
  subst hgw2
  simp [Map.lookup_delete]

theorem projectileLoop_removes (o : Oracle) (id : Int) (projectile : Projectile)
    (l : List (Int × Projectile)) (gw gw1 : GameWorld)
    (hmem : (id, projectile) ∈ l)
    (hne : ∀ e ∈ gw.Enemies,
      distanceLt10 ⟨projectile.Position.X + projectile.Velocity.X,
        projectile.Position.Y + projectile.Velocity.Y⟩ e.2.Position = false)
    (hnp : ∀ q ∈ gw.Players, q.1 ≠ projectile.Owner →
      distanceLt10 ⟨projectile.Position.X + projectile.Velocity.X,
        projectile.Position.Y + projectile.Velocity.Y⟩ q.2.Position = false)
    (hx : gw.Width < projectile.Position.X + projectile.Velocity.X)
    (h : GameWorld.projectileLoop o l gw = some gw1) :
    Map.lookup id gw1.Projectiles = none := by
  induction l generalizing gw with
  | nil => simp at hmem
  | cons e rest ih =>
    simp only [GameWorld.projectileLoop] at h
    split at h
    · exact absurd h (by simp)
    · next g2 hs =>
      rcases List.mem_cons.mp hmem with heq | hrest
      · subst heq
        exact projectileLoop_absent o rest g2 gw1 id h
          (projectileStep_removes o gw g2 id projectile hne hnp hx hs)
      · obtain ⟨hpe, hpp⟩ := projectileStep_places o gw g2 e.1 e.2 hs
        obtain ⟨_, _, _, hw, _⟩ := projectileStep_frame o gw g2 e.1 e.2 hs
        refine ih g2 hrest ?_ ?_ (by rw [hw]; exact hx) h
        · intro x hx1
          obtain ⟨x0, hx0, _, hpos⟩ := hpe x hx1
          rw [← hpos]
          exact hne x0 hx0
        · intro x hx1 hxo
          obtain ⟨x0, hx0, hkey, hpos⟩ := hpp x hx1
          rw [← hpos]
          exact hnp x0 hx0 (by rw [hkey]; exact hxo)

/-- C3 (the claim fails at `X = Width`): a projectile at `(1000, 5)` in a world of `Width`
1000, far from the only enemy and from every player, is not reported out of bounds and
is still in `Projectiles` after the tick. -/
theorem projectile_at_width_is_kept :
    (Map.lookup 0 worldAtWidth.Projectiles).map (fun p => p.Position.X)
      = some worldAtWidth.Width ∧
    (∀ e ∈ worldAtWidth.Enemies, distanceLt10 ⟨1000, 5⟩ e.2.Position = false) ∧
    (∀ q ∈ worldAtWidth.Players, distanceLt10 ⟨1000, 5⟩ q.2.Position = false) ∧
    GameWorld.checkProjectileCollisions 0 0 worldAtWidth
      { ID := 0, Position := ⟨1000, 5⟩, Velocity := ⟨0, 0⟩, Damage := 10, Owner := 0 }
      = some (worldAtWidth, false) ∧
    (GameWorld.updateGameState oracleZero worldAtWidth).map
      (fun w => Map.lookup 0 w.Projectiles)
      = some (some { ID := 0, Position := ⟨1000, 5⟩, Velocity := ⟨0, 0⟩, Damage := 10,
                     Owner := 0 }) := by
  decide!

/-- C3 (amended): for a projectile within distance < 10 of no enemy and of no player other
than its owner, collision resolution returns true as soon as `X > Width`, and the tick then
deletes the projectile; at `X = Width` (with `Width ≥ 0`) it returns true only when `Y` is
outside `[0, Height]`, so `Width` is an inclusive upper bound. -/
theorem projectile_beyond_width_is_removed :
    (∀ (se sp : Nat) (gw : GameWorld) (projectile : Projectile),
      (∀ e ∈ gw.Enemies, distanceLt10 projectile.Position e.2.Position = false) →
      (∀ q ∈ gw.Players, q.1 ≠ projectile.Owner →
        distanceLt10 projectile.Position q.2.Position = false) →
      (gw.Width < projectile.Position.X →
        GameWorld.checkProjectileCollisions se sp gw projectile = some (gw, true)) ∧
      (projectile.Position.X = gw.Width → 0 ≤ gw.Width →
        GameWorld.checkProjectileCollisions se sp gw projectile
          = some (gw, decide (projectile.Position.Y < 0 ∨ projectile.Position.Y > gw.Height)))) ∧
    (∀ (o : Oracle) (gw gw2 : GameWorld) (id : Int) (projectile : Projectile),
      (id, projectile) ∈ gw.Projectiles →
      (∀ e ∈ (GameWorld.updateEnemies o (GameWorld.updatePlayers o gw)).Enemies,
        distanceLt10 ⟨projectile.Position.X + projectile.Velocity.X,
          projectile.Position.Y + projectile.Velocity.Y⟩ e.2.Position = false) →
      (∀ q ∈ (GameWorld.updateEnemies o (GameWorld.updatePlayers o gw)).Players,
        q.1 ≠ projectile.Owner →
        distanceLt10 ⟨projectile.Position.X + projectile.Velocity.X,
          projectile.Position.Y + projectile.Velocity.Y⟩ q.2.Position = false) →
      gw.Width < projectile.Position.X + projectile.Velocity.X →
      GameWorld.updateGameState o gw = some gw2 →
      Map.lookup id gw2.Projectiles = none) := by
  constructor
  · intro se sp gw projectile hne hnp
    have hfe := find_range_none se gw.Enemies
      (fun e => distanceLt10 projectile.Position e.2.Position) hne
    have hfp := find_range_none sp gw.Players
      (fun q => decide (q.1 ≠ projectile.Owner) &&
        distanceLt10 projectile.Position q.2.Position)
      (by
        intro q hq
        by_cases hqo : q.1 = projectile.Owner
        · simp [hqo]
        · simp [hqo, hnp q hq hqo])
    rw [checkProjectileCollisions_of_none_found _ _ _ _ hfe hfp]
    constructor
    · intro hx
      simp [hx]
    · intro hx hw
      have h1 : ¬ projectile.Position.X < 0 := by
        rw [hx]
        exact not_lt.mpr hw
      have h2 : ¬ projectile.Position.X > gw.Width := by
        rw [hx]
        exact lt_irrefl _
      simp [h1, h2]
  · intro o gw gw2 id projectile hmem hne hnp hx htick
    obtain ⟨gw1, hloop, hgw2⟩ := updateGameState_cases o gw gw2 htick
    obtain ⟨_, _, hpr, hw, _⟩ := updateMotion_frame o gw
    have h1 := projectileLoop_removes o id projectile _ _ gw1
      ((Map.mem_range _ _ _).mpr (by rw [hpr]; exact hmem)) hne hnp
      (by rw [hw]; exact hx) hloop
    rw [hgw2, (spawnNewEnemies_frame o gw1).2.1]
    exact h1

/-- The bounds statement at `X = 1005` and at `(1000, 1001)`, and the tick of
`worldPastWidth`, whose projectile flies from 995 to 1005. -/
theorem projectile_beyond_width_is_removed_witness :
    GameWorld.checkProjectileCollisions 0 0 worldPastWidth
      { ID := 0, Position := ⟨1005, 5⟩, Velocity := ⟨10, 0⟩, Damage := 10, Owner := 0 }
      = some (worldPastWidth, true) ∧
    GameWorld.checkProjectileCollisions 0 0 worldAtWidth
      { ID := 0, Position := ⟨1000, 1001⟩, Velocity := ⟨0, 0⟩, Damage := 10, Owner := 0 }
      = some (worldAtWidth, decide ((1001 : ℚ) < 0 ∨ (1001 : ℚ) > worldAtWidth.Height)) ∧
    ∃ gw2, GameWorld.updateGameState oracleZero worldPastWidth = some gw2 ∧
      Map.lookup 0 gw2.Projectiles = none :=
  ⟨(projectile_beyond_width_is_removed.1 0 0 worldPastWidth
      { ID := 0, Position := ⟨1005, 5⟩, Velocity := ⟨10, 0⟩, Damage := 10, Owner := 0 }
      (by decide!) (by decide!)).1 (by decide!),
   (projectile_beyond_width_is_removed.1 0 0 worldAtWidth
      { ID := 0, Position := ⟨1000, 1001⟩, Velocity := ⟨0, 0⟩, Damage := 10, Owner := 0 }
      (by decide!) (by decide!)).2 (by decide!) (by decide!),
   ⟨GameWorld.spawnNewEnemies oracleZero { worldPastWidth with Projectiles := [] },
    by decide!,
    projectile_beyond_width_is_removed.2 oracleZero worldPastWidth
      (GameWorld.spawnNewEnemies oracleZero { worldPastWidth with Projectiles := [] }) 0
      { ID := 0, Position := ⟨995, 5⟩, Velocity := ⟨10, 0⟩, Damage := 10, Owner := 0 }
      (by decide!) (by decide!) (by decide!) (by decide!) (by decide!)⟩⟩

/-! ## The enemy population -/

/-- C6 (the claim fails after a player leaves): from the empty world, join 7, a tick (which
spawns enemy 0) and leave 7 give a world with one enemy and no player; the next tick
completes and leaves one enemy, more than 2 × 0. -/
theorem enemies_exceed_twice_players_after_leave :
    runCommands oracleZero
      [⟨"join", .int 7, 7⟩, ⟨"update", .nil, 0⟩, ⟨"leave", .int 7, 7⟩] worldEmpty
      = some worldOwnerLeft ∧
    GameWorld.updateGameState oracleZero worldOwnerLeft = some worldOwnerLeft ∧
    ¬ Map.len worldOwnerLeft.Enemies ≤ 2 * Map.len worldOwnerLeft.Players := by
  decide!

/-- C6 (amended): a completed tick keeps the number of players and leaves at most
`max (enemies before) (2 × players)` enemies; so the bound `enemies ≤ 2 × players` holds
after the tick whenever it held before it. -/
theorem enemies_after_tick_bounded (o : Oracle) (gw gw2 : GameWorld)
    (h : GameWorld.updateGameState o gw = some gw2) :
    Map.len gw2.Players = Map.len gw.Players ∧
    Map.len gw2.Enemies ≤ max (Map.len gw.Enemies) (2 * Map.len gw.Players) ∧
    (Map.len gw.Enemies ≤ 2 * Map.len gw.Players →
      Map.len gw2.Enemies ≤ 2 * Map.len gw2.Players) := by
  obtain ⟨gw1, hloop, hgw2⟩ := updateGameState_cases o gw gw2 h
  obtain ⟨hp0, he0, _, _, _⟩ := updateMotion_frame o gw
  obtain ⟨hp1, he1, _, _, _⟩ := projectileLoop_frame o _ _ gw1 hloop
  obtain ⟨hp2, _, _, _, _, he2⟩ := spawnNewEnemies_frame o gw1
  rw [hp0] at hp1
  rw [he0] at he1
  have hP : Map.len gw2.Players = Map.len gw.Players := by rw [hgw2, hp2, hp1]
  have hE : Map.len gw2.Enemies ≤ max (Map.len gw.Enemies) (2 * Map.len gw.Players) := by
    rw [hgw2]
    refine le_trans he2 (max_le (le_trans he1 (le_max_left _ _)) ?_)
    rw [hp1, Nat.mul_comm]
    exact le_max_right _ _
  refine ⟨hP, hE, ?_⟩
  intro hle
  rw [hP]
  exact le_trans hE (max_le hle (le_refl _))

/-- The tick of `worldPastWidth`: one player, one enemy before, two enemies after. -/
theorem enemies_after_tick_bounded_witness :
    GameWorld.updateGameState oracleZero worldPastWidth
      = some (GameWorld.spawnNewEnemies oracleZero
          { worldPastWidth with Projectiles := [] }) ∧
    (Map.len (GameWorld.spawnNewEnemies oracleZero
        { worldPastWidth with Projectiles := [] }).Players = Map.len worldPastWidth.Players ∧
      Map.len (GameWorld.spawnNewEnemies oracleZero
        { worldPastWidth with Projectiles := [] }).Enemies
        ≤ max (Map.len worldPastWidth.Enemies) (2 * Map.len worldPastWidth.Players) ∧
      (Map.len worldPastWidth.Enemies ≤ 2 * Map.len worldPastWidth.Players →
        Map.len (GameWorld.spawnNewEnemies oracleZero
          { worldPastWidth with Projectiles := [] }).Enemies
          ≤ 2 * Map.len (GameWorld.spawnNewEnemies oracleZero
              { worldPastWidth with Projectiles := [] }).Players)) :=
  have h : GameWorld.updateGameState oracleZero worldPastWidth
      = some (GameWorld.spawnNewEnemies oracleZero
          { worldPastWidth with Projectiles := [] }) := by decide!
  ⟨h, enemies_after_tick_bounded oracleZero worldPastWidth _ h⟩

/-- C8: after a completed tick the registry holds at most one enemy more than before. -/
theorem enemies_grow_by_at_most_one (o : Oracle) (gw gw2 : GameWorld)
    (h : GameWorld.updateGameState o gw = some gw2) :
    Map.len gw2.Enemies ≤ Map.len gw.Enemies + 1 := by
  obtain ⟨gw1, hloop, hgw2⟩ := updateGameState_cases o gw gw2 h
  obtain ⟨_, he0, _, _, _⟩ := updateMotion_frame o gw
  obtain ⟨_, he1, _, _, _⟩ := projectileLoop_frame o _ _ gw1 hloop
  obtain ⟨_, _, _, _, he2, _⟩ := spawnNewEnemies_frame o gw1
  rw [he0] at he1
  rw [hgw2]
  exact le_trans he2 (Nat.succ_le_succ he1)

/-- The tick of `worldDuel` spawns one enemy: the bound is reached. -/
theorem enemies_grow_by_at_most_one_witness :
    GameWorld.updateGameState oracleZero worldDuel
      = some (GameWorld.spawnNewEnemies oracleZero worldDuel) ∧
    Map.len (GameWorld.spawnNewEnemies oracleZero worldDuel).Enemies = 2 ∧
    Map.len (GameWorld.spawnNewEnemies oracleZero worldDuel).Enemies
      ≤ Map.len worldDuel.Enemies + 1 :=
  have h : GameWorld.updateGameState oracleZero worldDuel
      = some (GameWorld.spawnNewEnemies oracleZero worldDuel) := by decide!
  ⟨h, by decide!, enemies_grow_by_at_most_one oracleZero worldDuel _ h⟩

/-! ## The spawn step -/

/-- C7 (the claim fails when the key is taken): with one player and one enemy under key 1
the count 1 is below the threshold 2, and the spawn step stores the new enemy under key
`len(gw.Enemies) = 1`: the enemy that was there is replaced and the count stays 1.  The
commands of `commandsBeforeFifthHit` followed by a tick reach such a spawn step, the
projectile loop of that tick having deleted enemy 0. -/
theorem spawn_replaces_enemy_under_reused_key :
    Map.len worldIdReuse.Enemies < Map.len worldIdReuse.Players * 2 ∧
    Map.lookup 1 worldIdReuse.Enemies
      = some { ID := 1, Position := ⟨500, 500⟩, Health := 20, Damage := 10 } ∧
    Map.lookup 1 (GameWorld.spawnNewEnemies oracleZero worldIdReuse).Enemies
      = some { ID := 1, Position := ⟨0, 0⟩, Health := 50, Damage := 10 } ∧
    Map.len (GameWorld.spawnNewEnemies oracleZero worldIdReuse).Enemies
      = Map.len worldIdReuse.Enemies ∧
    ((runCommands oracleSplit commandsBeforeFifthHit worldEmpty).bind
      (fun gw => GameWorld.updateProjectiles oracleSplit
        (GameWorld.updateEnemies oracleSplit (GameWorld.updatePlayers oracleSplit gw)))).map
      (fun gw => (Map.len gw.Players, gw.Enemies,
        (GameWorld.spawnNewEnemies oracleSplit gw).Enemies))
      = some (1, [(1, { ID := 1, Position := ⟨500, 500⟩, Health := 50, Damage := 10 })],
              [(1, { ID := 1, Position := ⟨0, 0⟩, Health := 50, Damage := 10 })]) := by
  decide!

/-- C7 (amended): below the threshold the spawn step stores one new enemy (`Health` 50,
`Damage` 10) under the key `len(gw.Enemies)` and leaves the enemies under every other key,
the players and the projectiles as they were; when that key was free the number of enemies
grows by exactly one and every enemy present before is still present.  At or above the
threshold the world is unchanged. -/
theorem spawnNewEnemies_stores_one_enemy (o : Oracle) (gw : GameWorld) :
    (Map.len gw.Enemies < Map.len gw.Players * 2 →
      Map.lookup (Map.len gw.Enemies) (GameWorld.spawnNewEnemies o gw).Enemies
        = some { ID := Map.len gw.Enemies, Health := 50, Damage := 10,
                 Position := { X := o.spawnDraw.1 * gw.Width,
                               Y := o.spawnDraw.2 * gw.Height } } ∧
      (∀ k : Int, k ≠ Map.len gw.Enemies →
        Map.lookup k (GameWorld.spawnNewEnemies o gw).Enemies = Map.lookup k gw.Enemies) ∧
      (Map.lookup (Map.len gw.Enemies) gw.Enemies = none →
        Map.len (GameWorld.spawnNewEnemies o gw).Enemies = Map.len gw.Enemies + 1 ∧
        ∀ e ∈ gw.Enemies, e ∈ (GameWorld.spawnNewEnemies o gw).Enemies) ∧
      (GameWorld.spawnNewEnemies o gw).Players = gw.Players ∧
      (GameWorld.spawnNewEnemies o gw).Projectiles = gw.Projectiles) ∧
    (¬ Map.len gw.Enemies < Map.len gw.Players * 2 →
      GameWorld.spawnNewEnemies o gw = gw) := by
  constructor
  · intro hlt
    have hs : GameWorld.spawnNewEnemies o gw = gw.spawnEnemy o.spawnDraw := by
      unfold GameWorld.spawnNewEnemies
      rw [if_pos hlt]
    rw [hs]
    refine ⟨?_, ?_, ?_, rfl, rfl⟩
    · simp [GameWorld.spawnEnemy, Map.lookup_store]
    · intro k hk
      simp [GameWorld.spawnEnemy, Map.lookup_store, hk]
    · intro hfree
      constructor
      · simp only [GameWorld.spawnEnemy]
        exact Map.len_store_of_lookup_none _ _ _ hfree
      · intro e he
        simp only [GameWorld.spawnEnemy, Map.store, Map.delete_of_lookup_none _ _ hfree]
        exact List.mem_cons_of_mem _ he
  · intro hge
    unfold GameWorld.spawnNewEnemies
    rw [if_neg hge]

/-- The spawn step at `worldDuel` (key 1 free, below the threshold) and at `worldOwnerLeft`
(not below the threshold). -/
theorem spawnNewEnemies_stores_one_enemy_witness :
    (Map.len worldDuel.Enemies < Map.len worldDuel.Players * 2 ∧
      Map.lookup (Map.len worldDuel.Enemies) worldDuel.Enemies = none) ∧
    Map.len (GameWorld.spawnNewEnemies oracleZero worldDuel).Enemies
      = Map.len worldDuel.Enemies + 1 ∧
    (∀ e ∈ worldDuel.Enemies, e ∈ (GameWorld.spawnNewEnemies oracleZero worldDuel).Enemies) ∧
    GameWorld.spawnNewEnemies oracleZero worldOwnerLeft = worldOwnerLeft :=
  have h1 : Map.len worldDuel.Enemies < Map.len worldDuel.Players * 2 := by decide
  have h2 : Map.lookup (Map.len worldDuel.Enemies) worldDuel.Enemies = none := by decide!
  have h3 : ¬ Map.len worldOwnerLeft.Enemies < Map.len worldOwnerLeft.Players * 2 := by decide
  ⟨⟨h1, h2⟩,
   (((spawnNewEnemies_stores_one_enemy oracleZero worldDuel).1 h1).2.2.1 h2).1,
   (((spawnNewEnemies_stores_one_enemy oracleZero worldDuel).1 h1).2.2.1 h2).2,
   (spawnNewEnemies_stores_one_enemy oracleZero worldOwnerLeft).2 h3⟩

/-! ## Health is never negative -/

theorem playerReceive_health (p p1 : Player) (msg : Message)
    (h : Player.Receive p msg = some p1) (hp : 0 ≤ p.Health) : 0 ≤ p1.Health := by
  unfold Player.Receive at h
  split_ifs at h
  · cases hc : msg.Content <;> simp only [hc] at h <;> cases h
    exact hp
  · cases hc : msg.Content <;> simp only [hc] at h <;> cases h
    simp only
    split_ifs with hneg
    · exact le_refl _
    · exact not_lt.mp hneg
  · cases hc : msg.Content <;> simp only [hc] at h <;> cases h
    exact hp
  · cases h
    exact hp

theorem enemyReceive_health (e e1 : Enemy) (msg : Message)
    (h : Enemy.Receive e msg = some e1) (he : 0 ≤ e.Health) : 0 ≤ e1.Health := by
  unfold Enemy.Receive at h
  split_ifs at h
  · cases hc : msg.Content <;> simp only [hc] at h <;> cases h
    exact he
  · cases hc : msg.Content <;> simp only [hc] at h <;> cases h
    simp only
    split_ifs with hneg
    · exact le_refl _
    · exact not_lt.mp hneg
  · cases h
    exact he

theorem worldReceive_health (o : Oracle) (gw gw2 : GameWorld) (msg : Message)
    (h : GameWorld.Receive o gw msg = some gw2) (hinv : gw.HealthNonneg) :
    gw2.HealthNonneg := by
  unfold GameWorld.Receive at h
  split_ifs at h
  · -- join
    cases hc : msg.Content <;> simp only [hc] at h <;> cases h
    refine ⟨?_, hinv.2⟩
    intro x hx
    simp only [Map.store, List.mem_cons] at hx
    rcases hx with hx | hx
    · subst hx
      show (0 : Int) ≤ 100
      decide
    · exact hinv.1 x ((Map.mem_delete _ _ _).mp hx).1
  · -- leave
    cases hc : msg.Content <;> simp only [hc] at h <;> cases h
    exact ⟨fun x hx => hinv.1 x ((Map.mem_delete _ _ _).mp hx).1, hinv.2⟩
  · -- fire
    cases hc : msg.Content <;> simp only [hc] at h <;> try cases h
    split at h
    · cases h
    · cases h
      exact hinv
  · -- update
    obtain ⟨gw1, hloop, hgw2⟩ := updateGameState_cases o gw gw2 h
    rw [hgw2]
    exact spawnNewEnemies_health o gw1
      (projectileLoop_health o _ _ gw1 hloop (updateMotion_health o gw hinv))
  · cases h
    exact hinv

/-- C9: if every player and every enemy in the registries has `Health ≥ 0`, the same holds
after any single command that completes: a world command (join, leave, fire, update or any
other message) or any message, with any payload, handled by a registered or unregistered
player, enemy or projectile. -/
theorem health_nonneg_preserved (o : Oracle) (gw gw2 : GameWorld) (c : Command)
    (hinv : gw.HealthNonneg) (h : gw.apply o c = some gw2) : gw2.HealthNonneg := by
  cases c with
  | world msg => exact worldReceive_health o gw gw2 msg h hinv
  | player id msg =>
    simp only [GameWorld.apply] at h
    split at h
    · split_ifs at h
      cases h
      exact hinv
    · next p hp =>
      split at h
      · cases h
      · next p1 hr =>
        cases h
        refine ⟨?_, hinv.2⟩
        intro x hx
        obtain ⟨x0, hx0, _, hx1 | ⟨_, hx1⟩⟩ :=
          Map.mem_modify id (fun _ => p1) gw.Players x hx
        · rw [hx1]
          exact hinv.1 x0 hx0
        · rw [hx1]
          exact playerReceive_health p p1 msg hr
            (hinv.1 (id, p) (Map.mem_of_lookup id p gw.Players hp))
  | enemy id msg =>
    simp only [GameWorld.apply] at h
    split at h
    · split_ifs at h
      cases h
      exact hinv
    · next e he =>
      split at h
      · cases h
      · next e1 hr =>
        cases h
        refine ⟨hinv.1, ?_⟩
        intro x hx
        obtain ⟨x0, hx0, _, hx1 | ⟨_, hx1⟩⟩ :=
          Map.mem_modify id (fun _ => e1) gw.Enemies x hx
        · rw [hx1]
          exact hinv.2 x0 hx0
        · rw [hx1]
          exact enemyReceive_health e e1 msg hr
            (hinv.2 (id, e) (Map.mem_of_lookup id e gw.Enemies he))
  | projectile id msg =>
    simp only [GameWorld.apply] at h
    split at h
    · split_ifs at h
      cases h
      exact hinv
    · split at h
      · cases h
      · cases h
        exact hinv

/-- Damage 1000 on player 1 of `worldTwoPlayers`, whose `Health` 5 becomes 0. -/
theorem health_nonneg_preserved_witness :
    worldTwoPlayers.HealthNonneg ∧
    worldTwoPlayers.apply oracleZero (.player 1 ⟨"damage", .int 1000, 0⟩)
      = some { worldTwoPlayers with
               Players := [(0, { ID := 0, Position := ⟨500, 500⟩, Velocity := ⟨0, 0⟩,
                                 Health := 100, Score := 0 }),
                           (1, { ID := 1, Position := ⟨3, 4⟩, Velocity := ⟨0, 0⟩,
                                 Health := 0, Score := 0 })] } ∧
    GameWorld.HealthNonneg
      { worldTwoPlayers with
        Players := [(0, { ID := 0, Position := ⟨500, 500⟩, Velocity := ⟨0, 0⟩,
                          Health := 100, Score := 0 }),
                    (1, { ID := 1, Position := ⟨3, 4⟩, Velocity := ⟨0, 0⟩,
                          Health := 0, Score := 0 })] } :=
  have h1 : worldTwoPlayers.HealthNonneg := by decide
  have h2 : worldTwoPlayers.apply oracleZero (.player 1 ⟨"damage", .int 1000, 0⟩)
      = some { worldTwoPlayers with
               Players := [(0, { ID := 0, Position := ⟨500, 500⟩, Velocity := ⟨0, 0⟩,
                                 Health := 100, Score := 0 }),
                           (1, { ID := 1, Position := ⟨3, 4⟩, Velocity := ⟨0, 0⟩,
                                 Health := 0, Score := 0 })] } := by
    decide!
  ⟨h1, h2, health_nonneg_preserved oracleZero worldTwoPlayers _ _ h1 h2⟩

/-! ## The damage command -/

/-- C10: for every player, every enemy and every integer amount, the "damage" command
returns the entity with `Health` set to `max 0 (Health - amount)`, the subtraction being
Go's `int` subtraction (the mathematical difference whenever that fits 64 bits), and with
every other field as before; the new `Health` is never negative. -/
theorem damage_sets_health_to_clamped_difference (p : Player) (e : Enemy)
    (amount sender : Int) :
    Player.Receive p ⟨"damage", .int amount, sender⟩ =
      some { p with Health := max 0 (wrapInt (p.Health - amount)) } ∧
    Enemy.Receive e ⟨"damage", .int amount, sender⟩ =
      some { e with Health := max 0 (wrapInt (e.Health - amount)) } ∧
    (0 : Int) ≤ max 0 (wrapInt (p.Health - amount)) ∧
    (0 : Int) ≤ max 0 (wrapInt (e.Health - amount)) ∧
    (InInt (p.Health - amount) → wrapInt (p.Health - amount) = p.Health - amount) ∧
    (InInt (e.Health - amount) → wrapInt (e.Health - amount) = e.Health - amount) := by
  have hmax : ∀ h : Int, (if h < 0 then (0 : Int) else h) = max 0 h := by
    intro h
    by_cases hh : h < 0
    · simp [hh, max_eq_left (le_of_lt hh)]
    · simp [hh, max_eq_right (not_lt.mp hh)]
  refine ⟨?_, ?_, le_max_left _ _, le_max_left _ _, wrapInt_of_inInt _, wrapInt_of_inInt _⟩
  · simp [Player.Receive, hmax]
  · simp [Enemy.Receive, hmax]

/-! ## The fire, leave and join commands -/

/-- C12: for a player id registered in `Players`, the "fire" command stores under the key
`len(gw.Projectiles)` a projectile at the player's `Position`, with twice the player's
`Velocity` in each component, `Damage` 10 and `Owner` the player id; the projectiles under
other keys, the players and the enemies are unchanged. -/
theorem fire_creates_projectile (o : Oracle) (gw : GameWorld) (playerID sender : Int)
    (player : Player) (hp : Map.lookup playerID gw.Players = some player) :
    ∃ gw1,
      GameWorld.Receive o gw ⟨"fire", .int playerID, sender⟩ = some gw1 ∧
      Map.lookup (Map.len gw.Projectiles) gw1.Projectiles =
        some { ID := Map.len gw.Projectiles, Position := player.Position,
               Velocity := { X := player.Velocity.X * 2, Y := player.Velocity.Y * 2 },
               Damage := 10, Owner := playerID } ∧
      (∀ k : Int, k ≠ Map.len gw.Projectiles →
        Map.lookup k gw1.Projectiles = Map.lookup k gw.Projectiles) ∧
      gw1.Players = gw.Players ∧ gw1.Enemies = gw.Enemies ∧
      gw1.Width = gw.Width ∧ gw1.Height = gw.Height := by
  refine ⟨{ gw with
            Projectiles := Map.store (Map.len gw.Projectiles)
                             ⟨Map.len gw.Projectiles, player.Position,
                               ⟨player.Velocity.X * 2, player.Velocity.Y * 2⟩, 10, playerID⟩
                             gw.Projectiles },
    ?_, ?_, ?_, rfl, rfl, rfl, rfl⟩
  · simp [GameWorld.Receive, hp]
  · simp [Map.lookup_store]
  · intro k hk
    simp [Map.lookup_store, hk]

/-- The scenario of the spec: player 0 at `(0, 0)` with velocity `(1, 0)` fires; the
projectile is at `(0, 0)` with velocity `(2, 0)`. -/
theorem fire_creates_projectile_witness :
    Map.lookup 0 worldMover.Players =
      some { ID := 0, Position := ⟨0, 0⟩, Velocity := ⟨1, 0⟩, Health := 100, Score := 0 } ∧
    (∃ gw1,
      GameWorld.Receive oracleZero worldMover ⟨"fire", .int 0, 0⟩ = some gw1 ∧
      Map.lookup (Map.len worldMover.Projectiles) gw1.Projectiles =
        some { ID := Map.len worldMover.Projectiles, Position := ⟨0, 0⟩,
               Velocity := { X := (1 : ℚ) * 2, Y := (0 : ℚ) * 2 },
               Damage := 10, Owner := 0 } ∧
      (∀ k : Int, k ≠ Map.len worldMover.Projectiles →
        Map.lookup k gw1.Projectiles = Map.lookup k worldMover.Projectiles) ∧
      gw1.Players = worldMover.Players ∧ gw1.Enemies = worldMover.Enemies ∧
      gw1.Width = worldMover.Width ∧ gw1.Height = worldMover.Height) ∧
    (GameWorld.Receive oracleZero worldMover ⟨"fire", .int 0, 0⟩).map
        (fun w => Map.lookup 0 w.Projectiles)
      = some (some { ID := 0, Position := ⟨0, 0⟩, Velocity := ⟨2, 0⟩, Damage := 10,
                     Owner := 0 }) :=
  have h : Map.lookup 0 worldMover.Players =
      some { ID := 0, Position := ⟨0, 0⟩, Velocity := ⟨1, 0⟩, Health := 100, Score := 0 } := by
    decide!
  ⟨h, fire_creates_projectile oracleZero worldMover 0 0 _ h, by decide!⟩

/-- C16: for every world and every player id, registered or not, the "leave" command
completes, leaves no player under that id and keeps every other entry of `Players`, all
of `Enemies` and all of `Projectiles`, the leaving player's projectiles included. -/
theorem leave_removes_only_that_player (o : Oracle) (gw : GameWorld)
    (playerID sender : Int) :
    ∃ gw1,
      GameWorld.Receive o gw ⟨"leave", .int playerID, sender⟩ = some gw1 ∧
      Map.lookup playerID gw1.Players = none ∧
      (∀ k : Int, k ≠ playerID → Map.lookup k gw1.Players = Map.lookup k gw.Players) ∧
      (∀ e, e ∈ gw1.Players ↔ e ∈ gw.Players ∧ e.1 ≠ playerID) ∧
      gw1.Enemies = gw.Enemies ∧ gw1.Projectiles = gw.Projectiles ∧
      gw1.Width = gw.Width ∧ gw1.Height = gw.Height := by
  refine ⟨{ gw with Players := Map.delete playerID gw.Players }, ?_, ?_, ?_, ?_,
    rfl, rfl, rfl, rfl⟩
  · simp [GameWorld.Receive]
  · simp [Map.lookup_delete]
  · intro k hk
    simp [Map.lookup_delete, hk]
  · intro e
    exact Map.mem_delete playerID gw.Players e

/-- The "join" command always returns: it stores the new player under the id of the
payload. -/
theorem worldReceive_join (o : Oracle) (gw : GameWorld) (playerID sender : Int) :
    GameWorld.Receive o gw ⟨"join", .int playerID, sender⟩
      = some { gw with
          Players := Map.store playerID
                       ⟨playerID, ⟨mulFloat64 o.joinDraw.1 gw.Width,
                         mulFloat64 o.joinDraw.2 gw.Height⟩, ⟨0, 0⟩, 100, 0⟩
                       gw.Players } := by
  simp [GameWorld.Receive]

/-- C17 (the claim fails where the product rounds up to `Width`): in a world whose `Width`
is the smallest positive float64, `2 ^ (-1074)`, a join with the draw `3/4` places the
player at `X = 3/4 * Width` rounded to float64, which is `Width` itself, not below it. -/
theorem join_position_can_reach_width :
    (0 < worldTiny.Width ∧ 0 < worldTiny.Height ∧
      roundFloat64 worldTiny.Width = worldTiny.Width ∧
      (0 ≤ oracleThreeQuarters.joinDraw.1 ∧ oracleThreeQuarters.joinDraw.1 < 1) ∧
      (0 ≤ oracleThreeQuarters.joinDraw.2 ∧ oracleThreeQuarters.joinDraw.2 < 1)) ∧
    (GameWorld.Receive oracleThreeQuarters worldTiny ⟨"join", .int 3, 3⟩).map
        (fun w => (Map.lookup 3 w.Players).map (fun p => p.Position.X))
      = some (some worldTiny.Width) ∧
    ¬ worldTiny.Width < worldTiny.Width := by
  have hone : roundHalfEven 1 = 1 := by
    unfold roundHalfEven
    simp
  have hthree : roundHalfEven (3 / 4) = 1 := by
    have hf : ⌊(3 / 4 : ℚ)⌋ = 0 := by
      rw [Int.floor_eq_iff]
      norm_num
    unfold roundHalfEven
    simp only [hf]
    norm_num
  have hW : roundFloat64 ((2 : ℚ) ^ (-1074 : ℤ)) = 2 ^ (-1074 : ℤ) := by
    have h := roundFloat64_subnormal 1 (by norm_num) (le_refl _)
    rw [one_mul, hone] at h
    rw [h]
    norm_num
  have hX : mulFloat64 (3 / 4) ((2 : ℚ) ^ (-1074 : ℤ)) = 2 ^ (-1074 : ℤ) := by
    unfold mulFloat64
    rw [roundFloat64_subnormal (3 / 4) (by norm_num) (by norm_num), hthree]
    norm_num
  refine ⟨⟨?_, ?_, hW, ⟨?_, ?_⟩, ⟨?_, ?_⟩⟩, ?_, lt_irrefl _⟩
  · exact zpow_pos (by norm_num) _
  · show (0 : ℚ) < 1000
    norm_num
  · show (0 : ℚ) ≤ 3 / 4
    norm_num
  · show (3 / 4 : ℚ) < 1
    norm_num
  · exact le_refl _
  · show (0 : ℚ) < 1
    norm_num
  · rw [worldReceive_join]
    exact congrArg (fun x => some (some x)) hX

/-- C17 (amended): in a world whose `Width` and `Height` are positive float64 values, for
two random draws in `[0, 1)`, the "join" command stores under the player id a player with
that `ID`, `Health` 100, `Score` 0, zero `Velocity` and the `Position` of the float64
products draw × `Width` and draw × `Height`, with `0 ≤ X ≤ Width` and `0 ≤ Y ≤ Height`
(the products before rounding are below `Width` and `Height`); `X < Width` when `Width` is
above the smallest normal float64 `2 ^ (-1022)` and the draw is at most `1 - 2 ^ (-53)`, as
every float64 below 1 is, and likewise `Y < Height`; the players under other keys, the
enemies and the projectiles are unchanged. -/
theorem join_registers_player (o : Oracle) (gw : GameWorld) (playerID sender : Int)
    (hW : 0 < gw.Width) (hH : 0 < gw.Height)
    (hfW : roundFloat64 gw.Width = gw.Width) (hfH : roundFloat64 gw.Height = gw.Height)
    (h1 : 0 ≤ o.joinDraw.1 ∧ o.joinDraw.1 < 1) (h2 : 0 ≤ o.joinDraw.2 ∧ o.joinDraw.2 < 1) :
    ∃ gw1 player,
      GameWorld.Receive o gw ⟨"join", .int playerID, sender⟩ = some gw1 ∧
      Map.lookup playerID gw1.Players = some player ∧
      player.ID = playerID ∧ player.Health = 100 ∧ player.Score = 0 ∧
      player.Velocity = { X := 0, Y := 0 } ∧
      player.Position = { X := mulFloat64 o.joinDraw.1 gw.Width,
                          Y := mulFloat64 o.joinDraw.2 gw.Height } ∧
      0 ≤ player.Position.X ∧ player.Position.X ≤ gw.Width ∧
      0 ≤ player.Position.Y ∧ player.Position.Y ≤ gw.Height ∧
      o.joinDraw.1 * gw.Width < gw.Width ∧ o.joinDraw.2 * gw.Height < gw.Height ∧
      (2 ^ (-1022 : ℤ) < gw.Width → o.joinDraw.1 ≤ 1 - 2 ^ (-53 : ℤ) →
        player.Position.X < gw.Width) ∧
      (2 ^ (-1022 : ℤ) < gw.Height → o.joinDraw.2 ≤ 1 - 2 ^ (-53 : ℤ) →
        player.Position.Y < gw.Height) ∧
      (∀ k : Int, k ≠ playerID → Map.lookup k gw1.Players = Map.lookup k gw.Players) ∧
      gw1.Enemies = gw.Enemies ∧ gw1.Projectiles = gw.Projectiles ∧
      gw1.Width = gw.Width ∧ gw1.Height = gw.Height := by
  have hx : o.joinDraw.1 * gw.Width < gw.Width := mul_lt_of_lt_one_left hW h1.2
  have hy : o.joinDraw.2 * gw.Height < gw.Height := mul_lt_of_lt_one_left hH h2.2
  have hx0 : 0 ≤ o.joinDraw.1 * gw.Width := mul_nonneg h1.1 (le_of_lt hW)
  have hy0 : 0 ≤ o.joinDraw.2 * gw.Height := mul_nonneg h2.1 (le_of_lt hH)
  refine ⟨{ gw with
            Players := Map.store playerID
                         ⟨playerID, ⟨mulFloat64 o.joinDraw.1 gw.Width,
                           mulFloat64 o.joinDraw.2 gw.Height⟩, ⟨0, 0⟩, 100, 0⟩
                         gw.Players },
    ⟨playerID, ⟨mulFloat64 o.joinDraw.1 gw.Width, mulFloat64 o.joinDraw.2 gw.Height⟩,
      ⟨0, 0⟩, 100, 0⟩,
    ?_, ?_, rfl, rfl, rfl, rfl, rfl, ?_, ?_, ?_, ?_, hx, hy, ?_, ?_, ?_, rfl, rfl, rfl, rfl⟩
  · simp [GameWorld.Receive]
  · simp [Map.lookup_store]
  · exact roundFloat64_nonneg _ hx0
  · exact roundFloat64_le_of_le _ _ hx0 (le_of_lt hx) hfW
  · exact roundFloat64_nonneg _ hy0
  · exact roundFloat64_le_of_le _ _ hy0 (le_of_lt hy) hfH
  · intro hn hr
    exact roundFloat64_mul_lt _ _ h1.1 hr hn hfW
  · intro hn hr
    exact roundFloat64_mul_lt _ _ h2.1 hr hn hfH
  · intro k hk
    simp [Map.lookup_store, hk]

/-- Player 3 joins the empty world of `main` (1000 by 1000) with the draws `1/2` and `1/4`
and stands at `(500, 250)`. -/
theorem join_registers_player_witness :
    ((0 : ℚ) < worldEmpty.Width ∧ (0 : ℚ) < worldEmpty.Height ∧
      roundFloat64 worldEmpty.Width = worldEmpty.Width ∧
      roundFloat64 worldEmpty.Height = worldEmpty.Height ∧
      ((0 : ℚ) ≤ oracleJoin.joinDraw.1 ∧ oracleJoin.joinDraw.1 < 1) ∧
      ((0 : ℚ) ≤ oracleJoin.joinDraw.2 ∧ oracleJoin.joinDraw.2 < 1) ∧
      (2 ^ (-1022 : ℤ) < worldEmpty.Width ∧ oracleJoin.joinDraw.1 ≤ 1 - 2 ^ (-53 : ℤ)) ∧
      (2 ^ (-1022 : ℤ) < worldEmpty.Height ∧ oracleJoin.joinDraw.2 ≤ 1 - 2 ^ (-53 : ℤ))) ∧
    (∃ gw1 player,
      GameWorld.Receive oracleJoin worldEmpty ⟨"join", .int 3, 3⟩ = some gw1 ∧
      Map.lookup 3 gw1.Players = some player ∧
      player.ID = 3 ∧ player.Health = 100 ∧ player.Score = 0 ∧
      player.Velocity = { X := 0, Y := 0 } ∧
      player.Position = { X := mulFloat64 oracleJoin.joinDraw.1 worldEmpty.Width,
                          Y := mulFloat64 oracleJoin.joinDraw.2 worldEmpty.Height } ∧
      0 ≤ player.Position.X ∧ player.Position.X ≤ worldEmpty.Width ∧
      0 ≤ player.Position.Y ∧ player.Position.Y ≤ worldEmpty.Height ∧
      oracleJoin.joinDraw.1 * worldEmpty.Width < worldEmpty.Width ∧
      oracleJoin.joinDraw.2 * worldEmpty.Height < worldEmpty.Height ∧
      (2 ^ (-1022 : ℤ) < worldEmpty.Width → oracleJoin.joinDraw.1 ≤ 1 - 2 ^ (-53 : ℤ) →
        player.Position.X < worldEmpty.Width) ∧
      (2 ^ (-1022 : ℤ) < worldEmpty.Height → oracleJoin.joinDraw.2 ≤ 1 - 2 ^ (-53 : ℤ) →
        player.Position.Y < worldEmpty.Height) ∧
      (∀ k : Int, k ≠ 3 → Map.lookup k gw1.Players = Map.lookup k worldEmpty.Players) ∧
      gw1.Enemies = worldEmpty.Enemies ∧ gw1.Projectiles = worldEmpty.Projectiles ∧
      gw1.Width = worldEmpty.Width ∧ gw1.Height = worldEmpty.Height) ∧
    (GameWorld.Receive oracleJoin worldEmpty ⟨"join", .int 3, 3⟩).map (fun w => w.Players)
      = some [(3, { ID := 3, Position := ⟨500, 250⟩, Velocity := ⟨0, 0⟩, Health := 100,
                    Score := 0 })] :=
  have hW : (0 : ℚ) < worldEmpty.Width := by decide!
  have hH : (0 : ℚ) < worldEmpty.Height := by decide!
  have hfW : roundFloat64 worldEmpty.Width = worldEmpty.Width := roundFloat64_thousand
  have hfH : roundFloat64 worldEmpty.Height = worldEmpty.Height := roundFloat64_thousand
  have h1 : (0 : ℚ) ≤ oracleJoin.joinDraw.1 ∧ oracleJoin.joinDraw.1 < 1 := by decide!
  have h2 : (0 : ℚ) ≤ oracleJoin.joinDraw.2 ∧ oracleJoin.joinDraw.2 < 1 := by decide!
  have hn : (2 : ℚ) ^ (-1022 : ℤ) < 1000 :=
    lt_trans (zpow_lt_zpow_right₀ (by norm_num) (by norm_num : (-1022 : ℤ) < 0))
      (by norm_num)
  have hs1 : oracleJoin.joinDraw.1 ≤ 1 - 2 ^ (-53 : ℤ) := by
    show (1 / 2 : ℚ) ≤ 1 - 2 ^ (-53 : ℤ)
    norm_num
  have hs2 : oracleJoin.joinDraw.2 ≤ 1 - 2 ^ (-53 : ℤ) := by
    show (1 / 4 : ℚ) ≤ 1 - 2 ^ (-53 : ℤ)
    norm_num
  ⟨⟨hW, hH, hfW, hfH, h1, h2, ⟨hn, hs1⟩, ⟨hn, hs2⟩⟩,
   join_registers_player oracleJoin worldEmpty 3 3 hW hH hfW hfH h1 h2,
   by
     rw [worldReceive_join]
     exact congrArg₂ (fun x y => some [((3 : Int), (⟨3, ⟨x, y⟩, ⟨0, 0⟩, 100, 0⟩ : Player))])
       mulFloat64_half_thousand mulFloat64_quarter_thousand⟩

/-! ## Identifiers -/

/-- C18 (the claim fails for players): player 7 joins the empty world of `main`; the new
player's `ID` is 7, the id carried by the command, while `Players` held 0 entries. -/
theorem join_id_is_not_the_count :
    Map.len worldEmpty.Players = 0 ∧
    (GameWorld.Receive oracleZero worldEmpty ⟨"join", .int 7, 7⟩).map
        (fun w => w.Players.map (fun e => (e.1, e.2.ID))) = some [(7, 7)] ∧
    (7 : Int) ≠ Map.len worldEmpty.Players := by
  decide!

/-- C18 (amended): an enemy created by `spawnEnemy` and a projectile created by "fire" get
as `ID`, and as key, the number of entries their registry held just before; a player created
by "join" gets the id carried by the command. -/
theorem new_entity_ids (o : Oracle) (gw : GameWorld) :
    (∀ r : ℚ × ℚ, ∃ enemy,
      Map.lookup (Map.len gw.Enemies) (gw.spawnEnemy r).Enemies = some enemy ∧
      enemy.ID = Map.len gw.Enemies) ∧
    (∀ (playerID sender : Int) (player : Player),
      Map.lookup playerID gw.Players = some player →
      ∃ gw1 projectile,
        GameWorld.Receive o gw ⟨"fire", .int playerID, sender⟩ = some gw1 ∧
        Map.lookup (Map.len gw.Projectiles) gw1.Projectiles = some projectile ∧
        projectile.ID = Map.len gw.Projectiles) ∧
    (∀ playerID sender : Int, ∃ gw1 player,
      GameWorld.Receive o gw ⟨"join", .int playerID, sender⟩ = some gw1 ∧
      Map.lookup playerID gw1.Players = some player ∧ player.ID = playerID) := by
  refine ⟨?_, ?_, ?_⟩
  · intro r
    exact ⟨⟨Map.len gw.Enemies, ⟨r.1 * gw.Width, r.2 * gw.Height⟩, 50, 10⟩,
      by simp [GameWorld.spawnEnemy, Map.lookup_store], rfl⟩
  · intro playerID sender player hp
    refine ⟨{ gw with
              Projectiles := Map.store (Map.len gw.Projectiles)
                               ⟨Map.len gw.Projectiles, player.Position,
                                 ⟨player.Velocity.X * 2, player.Velocity.Y * 2⟩, 10, playerID⟩
                               gw.Projectiles },
      ⟨Map.len gw.Projectiles, player.Position,
        ⟨player.Velocity.X * 2, player.Velocity.Y * 2⟩, 10, playerID⟩, ?_, ?_, rfl⟩
    · simp [GameWorld.Receive, hp]
    · simp [Map.lookup_store]
  · intro playerID sender
    refine ⟨{ gw with
              Players := Map.store playerID
                           ⟨playerID, ⟨mulFloat64 o.joinDraw.1 gw.Width, mulFloat64 o.joinDraw.2 gw.Height⟩,
                             ⟨0, 0⟩, 100, 0⟩
                           gw.Players },
      ⟨playerID, ⟨mulFloat64 o.joinDraw.1 gw.Width, mulFloat64 o.joinDraw.2 gw.Height⟩, ⟨0, 0⟩, 100, 0⟩,
      ?_, ?_, rfl⟩
    · simp [GameWorld.Receive]
    · simp [Map.lookup_store]

/-- The three creations at concrete worlds: the second enemy of `worldDuel` gets `ID` 1, the
first projectile of `worldMover` gets `ID` 0, and player 7 joining `worldDuel`, which holds
one player, gets `ID` 7. -/
theorem new_entity_ids_witness :
    (∃ enemy, Map.lookup (Map.len worldDuel.Enemies)
        (worldDuel.spawnEnemy (0, 0)).Enemies = some enemy ∧
      enemy.ID = Map.len worldDuel.Enemies) ∧
    (∃ gw1 projectile,
      GameWorld.Receive oracleZero worldMover ⟨"fire", .int 0, 0⟩ = some gw1 ∧
      Map.lookup (Map.len worldMover.Projectiles) gw1.Projectiles = some projectile ∧
      projectile.ID = Map.len worldMover.Projectiles) ∧
    (∃ gw1 player,
      GameWorld.Receive oracleZero worldDuel ⟨"join", .int 7, 7⟩ = some gw1 ∧
      Map.lookup 7 gw1.Players = some player ∧ player.ID = 7) :=
  ⟨(new_entity_ids oracleZero worldDuel).1 (0, 0),
   (new_entity_ids oracleZero worldMover).2.1 0 0
     { ID := 0, Position := ⟨0, 0⟩, Velocity := ⟨1, 0⟩, Health := 100, Score := 0 }
     (by decide!),
   (new_entity_ids oracleZero worldDuel).2.2 7 7⟩

/-! ## Player integration -/

/-- C15: the first loop of the tick gives every player the result of the "move" command
carrying that player's sampled acceleration `a`, and both are the spec's move: the new
`Velocity` is the old one plus `a`, the new `Position` is the old one plus the new
`Velocity`, and `ID`, `Health` and `Score` are unchanged; the loop touches nothing else. -/
theorem updatePlayers_is_move (o : Oracle) (gw : GameWorld) :
    (GameWorld.updatePlayers o gw).Players =
      gw.Players.map
        (fun e => (e.1, movePlayerSpec e.2 (randomAcceleration (o.accDraw e.1)))) ∧
    (∀ (p : Player) (a : Vector2D) (sender : Int),
      Player.Receive p ⟨"move", .vec a, sender⟩ = some (movePlayerSpec p a)) ∧
    (∀ (p : Player) (a : Vector2D),
      (movePlayerSpec p a).Velocity = ⟨p.Velocity.X + a.X, p.Velocity.Y + a.Y⟩ ∧
      (movePlayerSpec p a).Position =
        ⟨p.Position.X + (movePlayerSpec p a).Velocity.X,
         p.Position.Y + (movePlayerSpec p a).Velocity.Y⟩ ∧
      (movePlayerSpec p a).Health = p.Health ∧ (movePlayerSpec p a).Score = p.Score ∧
      (movePlayerSpec p a).ID = p.ID) ∧
    (GameWorld.updatePlayers o gw).Enemies = gw.Enemies ∧
    (GameWorld.updatePlayers o gw).Projectiles = gw.Projectiles := by
  refine ⟨rfl, ?_, ?_, rfl, rfl⟩
  · intro p a sender
    simp [Player.Receive, movePlayerSpec]
  · intro p a
    exact ⟨rfl, rfl, rfl, rfl, rfl⟩

/-! ## The leaderboard -/

theorem perm_map_preimage {α β : Type} [DecidableEq α] (f : α → β) (s : List β) (m : List α)
    (h : s.Perm (m.map f)) : ∃ l : List α, l.Perm m ∧ l.map f = s := by
  induction s generalizing m with
  | nil =>
    have hm : m = [] := by
      have := h.length_eq
      simp only [List.length_nil, List.length_map] at this
      exact List.length_eq_zero.mp this.symm
    exact ⟨[], by rw [hm], rfl⟩
  | cons b s ih =>
    have hb : b ∈ m.map f := h.subset (List.mem_cons_self b s)
    obtain ⟨x, hx, hfx⟩ := List.mem_map.mp hb
    have hm : m.Perm (x :: m.erase x) := List.perm_cons_erase hx
    have h1 : (b :: s).Perm (b :: (m.erase x).map f) := by
      have h2 := h.trans (hm.map f)
      rw [List.map_cons, hfx] at h2
      exact h2
    obtain ⟨l1, hl1, hl2⟩ := ih (m.erase x) h1.cons_inv
    exact ⟨x :: l1, (hl1.cons x).trans hm.symm, by rw [List.map_cons, hfx, hl2]⟩

/-- Every arrangement of the slice `scores` that is sorted by `less`, whatever its order of
ties, is what the sorting step returns for some visiting order of the map. -/
theorem sorted_scores_covered (players : Map Player) (s : List playerScore)
    (hperm : s.Perm
      (players.map (fun e => ({ ID := e.1, Score := e.2.Score } : playerScore))))
    (hsorted : s.Sorted scoreOrder) :
    ∃ seed, List.insertionSort scoreOrder
        ((Map.range seed players).map
          (fun e => ({ ID := e.1, Score := e.2.Score } : playerScore))) = s := by
  obtain ⟨l, hl, hls⟩ := perm_map_preimage _ s players hperm
  obtain ⟨seed, hseed⟩ := Map.range_surjective players l hl
  exact ⟨seed, by rw [hseed, hls]; exact List.Sorted.insertionSort_eq hsorted⟩

/-- C14: for distinct player keys and `n ≥ 0` the leaderboard has `min n (number of
players)` entries; every entry is the key and the `Score` of a registered player, no key
occurs twice, the scores are in non-increasing order, and a player whose key is not listed
has a `Score` no greater than any listed one. -/
theorem printTopPlayerScores_top_n (seed : Nat) (players : Map Player) (n : Int)
    (hn : Map.NodupKeys players) (h0 : 0 ≤ n) :
    ((printTopPlayerScores seed players n).length : Int) = min n (Map.len players) ∧
    (∀ e ∈ printTopPlayerScores seed players n,
      ∃ p, Map.lookup e.ID players = some p ∧ e.Score = p.Score) ∧
    ((printTopPlayerScores seed players n).map playerScore.ID).Nodup ∧
    (printTopPlayerScores seed players n).Pairwise (fun a b => b.Score ≤ a.Score) ∧
    (∀ (k : Int) (p : Player), Map.lookup k players = some p →
      k ∉ (printTopPlayerScores seed players n).map playerScore.ID →
      ∀ e ∈ printTopPlayerScores seed players n, p.Score ≤ e.Score) := by
  have hperm : (List.insertionSort scoreOrder
      ((Map.range seed players).map
        (fun e => ({ ID := e.1, Score := e.2.Score } : playerScore)))).Perm
      (players.map (fun e => ({ ID := e.1, Score := e.2.Score } : playerScore))) :=
    (List.perm_insertionSort scoreOrder _).trans ((Map.range_perm seed players).map _)
  have hsorted : (List.insertionSort scoreOrder
      ((Map.range seed players).map
        (fun e => ({ ID := e.1, Score := e.2.Score } : playerScore)))).Pairwise
      (fun a b => b.Score ≤ a.Score) :=
    List.sorted_insertionSort scoreOrder _
  have hmem : ∀ e ∈ printTopPlayerScores seed players n,
      ∃ x ∈ players, ({ ID := x.1, Score := x.2.Score } : playerScore) = e := by
    intro e he
    have h1 := hperm.subset (List.mem_of_mem_take he)
    simpa using h1
  refine ⟨?_, ?_, ?_, ?_, ?_⟩
  · have hlen : (printTopPlayerScores seed players n).length
        = min n.toNat (Map.len players) := by
      simp only [printTopPlayerScores, List.length_take, Map.len]
      rw [hperm.length_eq, List.length_map]
    rw [hlen]
    have h1 : (n.toNat : Int) = n := Int.toNat_of_nonneg h0
    omega
  · intro e he
    obtain ⟨x, hx, hxe⟩ := hmem e he
    refine ⟨x.2, ?_, ?_⟩
    · rw [← hxe]
      exact Map.lookup_of_mem x.1 x.2 players hn hx
    · rw [← hxe]
  · have h1 : ((List.insertionSort scoreOrder
        ((Map.range seed players).map
          (fun e => ({ ID := e.1, Score := e.2.Score } : playerScore)))).map
        playerScore.ID).Nodup := by
      have h2 := (hperm.map playerScore.ID).nodup_iff
      rw [h2, List.map_map]
      exact hn
    exact h1.sublist ((List.take_sublist _ _).map _)
  · exact hsorted.sublist (List.take_sublist _ _)
  · intro k p hk hnot e he
    have hx : ({ ID := k, Score := p.Score } : playerScore) ∈
        List.insertionSort scoreOrder
          ((Map.range seed players).map
            (fun e => ({ ID := e.1, Score := e.2.Score } : playerScore))) := by
      apply hperm.symm.subset
      exact List.mem_map.mpr ⟨(k, p), Map.mem_of_lookup k p players hk, rfl⟩
    rw [← List.take_append_drop n.toNat (List.insertionSort scoreOrder
      ((Map.range seed players).map
        (fun e => ({ ID := e.1, Score := e.2.Score } : playerScore))))] at hx hsorted
    rcases List.mem_append.mp hx with hx1 | hx1
    · exact absurd (List.mem_map.mpr ⟨_, hx1, rfl⟩) hnot
    · exact (List.pairwise_append.mp hsorted).2.2 e he _ hx1

/-- The scenario of the spec: the scores 30, 10, 50 and 20 with `n = 2` give 50 then 30,
in the stored order of the map and in another one. -/
theorem printTopPlayerScores_top_n_witness :
    (Map.NodupKeys playersOfFourScores ∧ (0 : Int) ≤ 2) ∧
    (((printTopPlayerScores 0 playersOfFourScores 2).length : Int)
        = min 2 (Map.len playersOfFourScores) ∧
      (∀ e ∈ printTopPlayerScores 0 playersOfFourScores 2,
        ∃ p, Map.lookup e.ID playersOfFourScores = some p ∧ e.Score = p.Score) ∧
      ((printTopPlayerScores 0 playersOfFourScores 2).map playerScore.ID).Nodup ∧
      (printTopPlayerScores 0 playersOfFourScores 2).Pairwise
        (fun a b => b.Score ≤ a.Score) ∧
      (∀ (k : Int) (p : Player), Map.lookup k playersOfFourScores = some p →
        k ∉ (printTopPlayerScores 0 playersOfFourScores 2).map playerScore.ID →
        ∀ e ∈ printTopPlayerScores 0 playersOfFourScores 2, p.Score ≤ e.Score)) ∧
    printTopPlayerScores 0 playersOfFourScores 2 = [⟨2, 50⟩, ⟨0, 30⟩] ∧
    printTopPlayerScores 17 playersOfFourScores 2 = [⟨2, 50⟩, ⟨0, 30⟩] ∧
    printTopPlayerScores 0 playersOfFourScores 9
      = [⟨2, 50⟩, ⟨0, 30⟩, ⟨3, 20⟩, ⟨1, 10⟩] :=
  have h1 : Map.NodupKeys playersOfFourScores := by decide
  have h2 : (0 : Int) ≤ 2 := by decide
  ⟨⟨h1, h2⟩, printTopPlayerScores_top_n 0 playersOfFourScores 2 h1 h2,
   by decide, by decide, by decide⟩

/-! ## Keys and `ID` fields -/

theorem Map.forall_modify {α : Type} (P : Int × α → Prop) (k : Int) (f : α → α) (m : Map α)
    (hm : ∀ e ∈ m, P e) (hf : ∀ e ∈ m, e.1 = k → P (e.1, f e.2)) :
    ∀ e ∈ Map.modify k f m, P e := by
  intro e he
  obtain ⟨e0, he0, hkey, h1 | ⟨hk, h1⟩⟩ := Map.mem_modify k f m e he
  · rw [h1]
    exact hm e0 he0
  · have : e = (e0.1, f e0.2) := Prod.ext hkey.symm h1
    rw [this]
    exact hf e0 he0 hk

theorem checkProjectileCollisions_keysAreIDs (se sp : Nat) (gw gw1 : GameWorld)
    (projectile : Projectile) (b : Bool)
    (h : GameWorld.checkProjectileCollisions se sp gw projectile = some (gw1, b))
    (hinv : gw.KeysAreIDs) : gw1.KeysAreIDs := by
  obtain ⟨hp, he, hpr⟩ := hinv
  rcases checkProjectileCollisions_cases se sp gw gw1 projectile b h with
    ⟨k, e, _, _, _, _, _, hP, hE, hPr, _, _⟩ | ⟨k, pl, _, _, _, _, _, hP, hE, hPr, _, _⟩ |
    ⟨_, _, hgw, _⟩
  · refine ⟨?_, ?_, by rw [hPr]; exact hpr⟩
    · rw [hP]
      exact Map.forall_modify (fun x : Int × Player => x.2.ID = x.1) projectile.Owner
        (fun p => { p with Score := wrapInt (p.Score + 10) }) gw.Players hp
        (fun x hx _ => hp x hx)
    · rw [hE]
      have hmod := Map.forall_modify (fun x : Int × Enemy => x.2.ID = x.1) k
        (fun e0 => { e0 with Health := wrapInt (e.Health - projectile.Damage) })
        gw.Enemies he (fun x hx _ => he x hx)
      split
      · intro x hx
        exact hmod x ((Map.mem_delete _ _ _).mp hx).1
      · exact hmod
  · refine ⟨?_, by rw [hE]; exact he, by rw [hPr]; exact hpr⟩
    rw [hP]
    exact Map.forall_modify (fun x : Int × Player => x.2.ID = x.1) k
      (fun p => { p with Health := max 0 (wrapInt (pl.Health - projectile.Damage)) })
      gw.Players hp (fun x hx _ => hp x hx)
  · rw [hgw]
    exact ⟨hp, he, hpr⟩

theorem projectileStep_keysAreIDs (o : Oracle) (gw gw2 : GameWorld) (id : Int)
    (projectile : Projectile) (hid : projectile.ID = id)
    (h : GameWorld.projectileStep o gw id projectile = some gw2)
    (hinv : gw.KeysAreIDs) : gw2.KeysAreIDs := by
  obtain ⟨gw1, b, hc, hgw2⟩ := projectileStep_cases o gw gw2 id projectile h
  have h0 : GameWorld.KeysAreIDs
      { gw with
        Projectiles :=
          Map.modify id
            (fun _ => { projectile with
                        Position := { X := projectile.Position.X + projectile.Velocity.X,
                                      Y := projectile.Position.Y + projectile.Velocity.Y } })
            gw.Projectiles } := by
    refine ⟨hinv.1, hinv.2.1, ?_⟩
    exact Map.forall_modify (fun x : Int × Projectile => x.2.ID = x.1) id
      (fun _ => { projectile with
                  Position := { X := projectile.Position.X + projectile.Velocity.X,
                                Y := projectile.Position.Y + projectile.Velocity.Y } })
      gw.Projectiles hinv.2.2 (fun x _ hx => hid.trans hx.symm)
  have h1 := checkProjectileCollisions_keysAreIDs _ _ _ _ _ _ hc h0
  cases b
  · simp only [Bool.false_eq_true, if_false] at hgw2
    subst hgw2
    exact h1
  · simp only [if_true] at hgw2
    subst hgw2
    exact ⟨h1.1, h1.2.1, fun x hx => h1.2.2 x ((Map.mem_delete _ _ _).mp hx).1⟩

theorem projectileLoop_keysAreIDs (o : Oracle) (l : List (Int × Projectile))
    (gw gw1 : GameWorld) (hl : ∀ e ∈ l, e.2.ID = e.1)
    (h : GameWorld.projectileLoop o l gw = some gw1) (hinv : gw.KeysAreIDs) :
    gw1.KeysAreIDs := by
  induction l generalizing gw with
  | nil =>
    simp only [GameWorld.projectileLoop, Option.some.injEq] at h
    subst h
    exact hinv
  | cons e rest ih =>
    simp only [GameWorld.projectileLoop] at h
    split at h
    · cases h
    · next g2 hs =>
      exact ih g2 (fun x hx => hl x (List.mem_cons_of_mem _ hx)) h
        (projectileStep_keysAreIDs o gw g2 e.1 e.2 (hl e (List.mem_cons_self _ _)) hs hinv)

theorem updateGameState_keysAreIDs (o : Oracle) (gw gw2 : GameWorld)
    (h : GameWorld.updateGameState o gw = some gw2) (hinv : gw.KeysAreIDs) :
    gw2.KeysAreIDs := by
  obtain ⟨gw1, hloop, hgw2⟩ := updateGameState_cases o gw gw2 h
  have h0 : (GameWorld.updateEnemies o (GameWorld.updatePlayers o gw)).KeysAreIDs := by
    refine ⟨?_, ?_, hinv.2.2⟩
    · intro x hx
      simp only [GameWorld.updateEnemies, GameWorld.updatePlayers, List.mem_map] at hx
      obtain ⟨x0, hx0, rfl⟩ := hx
      exact hinv.1 x0 hx0
    · intro x hx
      simp only [GameWorld.updateEnemies, GameWorld.updatePlayers, List.mem_map] at hx
      obtain ⟨x0, hx0, rfl⟩ := hx
      exact hinv.2.1 x0 hx0
  have h1 := projectileLoop_keysAreIDs o _ _ gw1
    (fun e he => hinv.2.2 e ((Map.mem_range _ _ _).mp he)) hloop h0
  rw [hgw2]
  unfold GameWorld.spawnNewEnemies
  split
  · refine ⟨h1.1, ?_, h1.2.2⟩
    intro x hx
    simp only [GameWorld.spawnEnemy, Map.store, List.mem_cons] at hx
    rcases hx with hx | hx
    · rw [hx]
    · exact h1.2.1 x ((Map.mem_delete _ _ _).mp hx).1
  · exact h1

/-- C19: if every entity of the three registries carries its key in its `ID` field, the
same holds after any message to the world that completes: join, leave, fire, update, or
a message of another type, which changes nothing. -/
theorem keys_are_ids_preserved (o : Oracle) (gw gw2 : GameWorld) (msg : Message)
    (hinv : gw.KeysAreIDs) (h : GameWorld.Receive o gw msg = some gw2) :
    gw2.KeysAreIDs := by
  unfold GameWorld.Receive at h
  split_ifs at h
  · -- join
    cases hc : msg.Content <;> simp only [hc] at h <;> cases h
    refine ⟨?_, hinv.2.1, hinv.2.2⟩
    intro x hx
    simp only [Map.store, List.mem_cons] at hx
    rcases hx with hx | hx
    · rw [hx]
    · exact hinv.1 x ((Map.mem_delete _ _ _).mp hx).1
  · -- leave
    cases hc : msg.Content <;> simp only [hc] at h <;> cases h
    exact ⟨fun x hx => hinv.1 x ((Map.mem_delete _ _ _).mp hx).1, hinv.2.1, hinv.2.2⟩
  · -- fire
    cases hc : msg.Content <;> simp only [hc] at h <;> try cases h
    split at h
    · cases h
    · cases h
      refine ⟨hinv.1, hinv.2.1, ?_⟩
      intro x hx
      simp only [Map.store, List.mem_cons] at hx
      rcases hx with hx | hx
      · rw [hx]
      · exact hinv.2.2 x ((Map.mem_delete _ _ _).mp hx).1
  · -- update
    exact updateGameState_keysAreIDs o gw gw2 h hinv
  · cases h
    exact hinv

/-- The invariant across the tick of `worldPastWidth`, which deletes projectile 0 and spawns
enemy 1. -/
theorem keys_are_ids_preserved_witness :
    worldPastWidth.KeysAreIDs ∧
    GameWorld.Receive oracleZero worldPastWidth ⟨"update", .nil, 0⟩
      = some (GameWorld.spawnNewEnemies oracleZero
          { worldPastWidth with Projectiles := [] }) ∧
    (GameWorld.spawnNewEnemies oracleZero
      { worldPastWidth with Projectiles := [] }).KeysAreIDs :=
  have h1 : worldPastWidth.KeysAreIDs := by decide
  have h2 : GameWorld.Receive oracleZero worldPastWidth ⟨"update", .nil, 0⟩
      = some (GameWorld.spawnNewEnemies oracleZero
          { worldPastWidth with Projectiles := [] }) := by decide!
  ⟨h1, h2, keys_are_ids_preserved oracleZero worldPastWidth _ _ h1 h2⟩

/-! ## The fate of a projectile in a tick -/

theorem Map.lookup_mapValues {α β : Type} (g : Int × α → β) (k : Int) (m : Map α) :
    Map.lookup k (m.map (fun e => (e.1, g e))) = (Map.lookup k m).map (fun v => g (k, v)) := by
  induction m with
  | nil => rfl
  | cons e m ih =>
    by_cases h : e.1 = k
    · subst h
      simp [Map.lookup]
    · simpa [Map.lookup, h] using ih

theorem Map.keys_delete_sublist {α : Type} (k : Int) (m : Map α) :
    (Map.keys (Map.delete k m)).Sublist (Map.keys m) :=
  (List.filter_sublist m).map Prod.fst

theorem Map.nodupKeys_modify {α : Type} (k : Int) (f : α → α) (m : Map α)
    (h : Map.NodupKeys m) : Map.NodupKeys (Map.modify k f m) := by
  unfold Map.NodupKeys
  rw [Map.keys_modify]
  exact h

theorem Map.nodupKeys_range {α : Type} (s : Nat) (m : Map α) (h : Map.NodupKeys m) :
    Map.NodupKeys (Map.range s m) :=
  (((Map.range_perm s m).map Prod.fst).nodup_iff).mpr h

theorem projectileLoop_append (o : Oracle) (l1 l2 : List (Int × Projectile))
    (gw : GameWorld) :
    GameWorld.projectileLoop o (l1 ++ l2) gw
      = (GameWorld.projectileLoop o l1 gw).bind (GameWorld.projectileLoop o l2) := by
  induction l1 generalizing gw with
  | nil => rfl
  | cons e rest ih =>
    simp only [List.cons_append, GameWorld.projectileLoop]
    cases GameWorld.projectileStep o gw e.1 e.2 with
    | none => rfl
    | some g1 => exact ih g1

/-- The registry of projectiles after one iteration of the loop: the visited entry is
advanced, and deleted when collision resolution returned true. -/
theorem projectileStep_projectiles (o : Oracle) (gw gw2 : GameWorld) (id : Int)
    (projectile : Projectile) (h : GameWorld.projectileStep o gw id projectile = some gw2) :
    ∃ gw1 b,
      GameWorld.checkProjectileCollisions (o.enemyOrder id) (o.playerOrder id)
        { gw with
          Projectiles :=
            Map.modify id
              (fun _ => { projectile with
                          Position := { X := projectile.Position.X + projectile.Velocity.X,
                                        Y := projectile.Position.Y + projectile.Velocity.Y } })
              gw.Projectiles }
        { projectile with
          Position := { X := projectile.Position.X + projectile.Velocity.X,
                        Y := projectile.Position.Y + projectile.Velocity.Y } }
        = some (gw1, b) ∧
      gw2.Projectiles =
        (if b = true then
          Map.delete id (Map.modify id
            (fun _ => { projectile with
                        Position := { X := projectile.Position.X + projectile.Velocity.X,
                                      Y := projectile.Position.Y + projectile.Velocity.Y } })
            gw.Projectiles)
        else
          Map.modify id
            (fun _ => { projectile with
                        Position := { X := projectile.Position.X + projectile.Velocity.X,
                                      Y := projectile.Position.Y + projectile.Velocity.Y } })
            gw.Projectiles) := by
  obtain ⟨gw1, b, hc, hgw2⟩ := projectileStep_cases o gw gw2 id projectile h
  obtain ⟨_, _, h3, _, _⟩ := checkProjectileCollisions_frame _ _ _ _ _ _ hc
  simp only at h3
  refine ⟨gw1, b, hc, ?_⟩
  cases b
  · simp only [Bool.false_eq_true, if_false] at hgw2 ⊢
    rw [hgw2, h3]
  · simp only [if_true] at hgw2 ⊢
    rw [hgw2]
    simp only
    rw [h3]

theorem projectileStep_lookup_other (o : Oracle) (gw gw2 : GameWorld) (id k : Int)
    (projectile : Projectile) (hk : k ≠ id)
    (h : GameWorld.projectileStep o gw id projectile = some gw2) :
    Map.lookup k gw2.Projectiles = Map.lookup k gw.Projectiles := by
  obtain ⟨_, b, _, hpr⟩ := projectileStep_projectiles o gw gw2 id projectile h
  rw [hpr]
  cases b
  · simp [Map.lookup_modify, hk]
  · simp [Map.lookup_delete, Map.lookup_modify, hk]

theorem projectileLoop_lookup_other (o : Oracle) (l : List (Int × Projectile))
    (gw gw1 : GameWorld) (k : Int) (hl : ∀ e ∈ l, e.1 ≠ k)
    (h : GameWorld.projectileLoop o l gw = some gw1) :
    Map.lookup k gw1.Projectiles = Map.lookup k gw.Projectiles := by
  induction l generalizing gw with
  | nil =>
    simp only [GameWorld.projectileLoop, Option.some.injEq] at h
    rw [h]
  | cons e rest ih =>
    simp only [GameWorld.projectileLoop] at h
    split at h
    · cases h
    · next g2 hs =>
      rw [ih g2 (fun x hx => hl x (List.mem_cons_of_mem _ hx)) h]
      exact projectileStep_lookup_other o gw g2 e.1 k e.2
        (Ne.symm (hl e (List.mem_cons_self _ _))) hs

theorem projectileStep_keys_sublist (o : Oracle) (gw gw2 : GameWorld) (id : Int)
    (projectile : Projectile) (h : GameWorld.projectileStep o gw id projectile = some gw2) :
    (Map.keys gw2.Projectiles).Sublist (Map.keys gw.Projectiles) := by
  obtain ⟨_, b, _, hpr⟩ := projectileStep_projectiles o gw gw2 id projectile h
  rw [hpr]
  cases b
  · simp only [Bool.false_eq_true, if_false]
    rw [Map.keys_modify]
  · simp only [if_true]
    have := Map.keys_delete_sublist id (Map.modify id
      (fun _ => { projectile with
                  Position := { X := projectile.Position.X + projectile.Velocity.X,
                                Y := projectile.Position.Y + projectile.Velocity.Y } })
      gw.Projectiles)
    rw [Map.keys_modify] at this
    exact this

/-- A tick adds no projectile: the keys of `Projectiles` after it are among those before,
in the same order. -/
theorem updateGameState_projectile_keys (o : Oracle) (gw gw2 : GameWorld)
    (h : GameWorld.updateGameState o gw = some gw2) :
    (Map.keys gw2.Projectiles).Sublist (Map.keys gw.Projectiles) := by
  obtain ⟨gw1, hloop, hgw2⟩ := updateGameState_cases o gw gw2 h
  have h1 := projectileLoop_induct o
    (fun a b => (Map.keys b.Projectiles).Sublist (Map.keys a.Projectiles))
    (fun _ => List.Sublist.refl _) (fun _ _ _ h1 h2 => h2.trans h1)
    (fun g id p g1 hs => projectileStep_keys_sublist o g g1 id p hs) _ _ gw1 hloop
  rw [hgw2, (spawnNewEnemies_frame o gw1).2.1]
  exact h1

/-- A tick keeps the keys of `Players`. -/
theorem updateGameState_player_keys (o : Oracle) (gw gw2 : GameWorld)
    (h : GameWorld.updateGameState o gw = some gw2) :
    Map.keys gw2.Players = Map.keys gw.Players := by
  obtain ⟨gw1, hloop, hgw2⟩ := updateGameState_cases o gw gw2 h
  have hcheck : ∀ se sp (g g1 : GameWorld) (q : Projectile) (b : Bool),
      GameWorld.checkProjectileCollisions se sp g q = some (g1, b) →
      Map.keys g1.Players = Map.keys g.Players := by
    intro se sp g g1 q b hc
    rcases checkProjectileCollisions_cases se sp g g1 q b hc with
      ⟨_, _, _, _, _, _, _, hP, _, _, _, _⟩ | ⟨_, _, _, _, _, _, _, hP, _, _, _, _⟩ |
      ⟨_, _, hgw, _⟩
    · rw [hP, Map.keys_modify]
    · rw [hP, Map.keys_modify]
    · rw [hgw]
  have hstep : ∀ g id q g1, GameWorld.projectileStep o g id q = some g1 →
      Map.keys g1.Players = Map.keys g.Players := by
    intro g id q g1 hs
    obtain ⟨g0, b, hc, hg1⟩ := projectileStep_cases o g g1 id q hs
    have h0 := hcheck _ _ _ _ _ _ hc
    cases b
    · simp only [Bool.false_eq_true, if_false] at hg1
      rw [hg1]
      exact h0
    · simp only [if_true] at hg1
      rw [hg1]
      exact h0
  have h1 := projectileLoop_induct o
    (fun a b => Map.keys b.Players = Map.keys a.Players)
    (fun _ => rfl) (fun _ _ _ h1 h2 => h2.trans h1) hstep _ _ gw1 hloop
  rw [hgw2, (spawnNewEnemies_frame o gw1).1, h1]
  simp [GameWorld.updateEnemies, GameWorld.updatePlayers, Map.keys, List.map_map,
    Function.comp_def]

/-- What a completed tick does to a projectile registered under `id`: the loop visits it
once, after the entries `l1` that come before it in the visiting order, advances it and
resolves its collisions in the world `g` those entries left; the projectile is absent after
the tick if the resolution returned true and is the advanced projectile otherwise. -/
theorem updateGameState_projectile_fate (o : Oracle) (gw gw2 : GameWorld) (id : Int)
    (projectile : Projectile) (hn : Map.NodupKeys gw.Projectiles)
    (hp : Map.lookup id gw.Projectiles = some projectile)
    (h : GameWorld.updateGameState o gw = some gw2) :
    ∃ l1 l2 g g1 b,
      Map.range o.projOrder gw.Projectiles = l1 ++ (id, projectile) :: l2 ∧
      GameWorld.projectileLoop o l1
        (GameWorld.updateEnemies o (GameWorld.updatePlayers o gw)) = some g ∧
      GameWorld.checkProjectileCollisions (o.enemyOrder id) (o.playerOrder id)
        { g with
          Projectiles :=
            Map.modify id
              (fun _ => { projectile with
                          Position := { X := projectile.Position.X + projectile.Velocity.X,
                                        Y := projectile.Position.Y + projectile.Velocity.Y } })
              g.Projectiles }
        { projectile with
          Position := { X := projectile.Position.X + projectile.Velocity.X,
                        Y := projectile.Position.Y + projectile.Velocity.Y } }
        = some (g1, b) ∧
      Map.lookup id gw2.Projectiles =
        (if b = true then none
         else some { projectile with
                     Position := { X := projectile.Position.X + projectile.Velocity.X,
                                   Y := projectile.Position.Y + projectile.Velocity.Y } }) := by
  obtain ⟨gwL, hloop, hgw2⟩ := updateGameState_cases o gw gw2 h
  have hmem : (id, projectile) ∈ Map.range o.projOrder gw.Projectiles :=
    (Map.mem_range _ _ _).mpr (Map.mem_of_lookup id projectile gw.Projectiles hp)
  obtain ⟨l1, l2, hsplit⟩ := List.append_of_mem hmem
  have hnd : (Map.keys (l1 ++ (id, projectile) :: l2)).Nodup := by
    rw [← hsplit]
    exact Map.nodupKeys_range o.projOrder gw.Projectiles hn
  have hnd1 : ∀ e ∈ l1, e.1 ≠ id := by
    intro e he heq
    simp only [Map.keys, List.map_append, List.map_cons] at hnd
    have h1 := (List.nodup_append.mp hnd).2.2
    exact h1 (List.mem_map.mpr ⟨e, he, rfl⟩) (by rw [heq]; exact List.mem_cons_self _ _)
  have hnd2 : ∀ e ∈ l2, e.1 ≠ id := by
    intro e he heq
    simp only [Map.keys, List.map_append, List.map_cons] at hnd
    have h1 := (List.nodup_cons.mp (List.nodup_append.mp hnd).2.1).1
    exact h1 (by rw [← heq]; exact List.mem_map.mpr ⟨e, he, rfl⟩)
  have hloop1 : GameWorld.projectileLoop o (l1 ++ (id, projectile) :: l2)
      (GameWorld.updateEnemies o (GameWorld.updatePlayers o gw)) = some gwL := by
    rw [← hsplit]
    exact hloop
  rw [projectileLoop_append] at hloop1
  cases hg : GameWorld.projectileLoop o l1
      (GameWorld.updateEnemies o (GameWorld.updatePlayers o gw)) with
  | none =>
    rw [hg] at hloop1
    cases hloop1
  | some g =>
    rw [hg] at hloop1
    simp only [Option.bind, GameWorld.projectileLoop] at hloop1
    split at hloop1
    · cases hloop1
    · next g2 hs =>
      obtain ⟨g1, b, hc, hpr⟩ := projectileStep_projectiles o g g2 id projectile hs
      have hlook0 : Map.lookup id g.Projectiles = some projectile := by
        rw [projectileLoop_lookup_other o l1 _ g id hnd1 hg]
        exact hp
      have hlook2 : Map.lookup id gwL.Projectiles = Map.lookup id g2.Projectiles :=
        projectileLoop_lookup_other o l2 g2 gwL id hnd2 hloop1
      refine ⟨l1, l2, g, g1, b, hsplit, hg, hc, ?_⟩
      rw [hgw2, (spawnNewEnemies_frame o gwL).2.1, hlook2, hpr]
      cases b
      · simp [Map.lookup_modify, hlook0]
      · simp [Map.lookup_delete]

theorem updateGameState_absent (o : Oracle) (gw gw2 : GameWorld) (k : Int)
    (h : GameWorld.updateGameState o gw = some gw2)
    (hk : Map.lookup k gw.Projectiles = none) : Map.lookup k gw2.Projectiles = none := by
  obtain ⟨gw1, hloop, hgw2⟩ := updateGameState_cases o gw gw2 h
  rw [hgw2, (spawnNewEnemies_frame o gw1).2.1]
  exact projectileLoop_absent o _ _ gw1 k hloop hk

theorem runTicks_absent (os : List Oracle) (gw gw2 : GameWorld) (k : Int)
    (h : runTicks os gw = some gw2)
    (hk : Map.lookup k gw.Projectiles = none) : Map.lookup k gw2.Projectiles = none := by
  induction os generalizing gw with
  | nil =>
    simp only [runTicks, Option.some.injEq] at h
    rw [← h]
    exact hk
  | cons o os ih =>
    simp only [runTicks] at h
    split at h
    · cases h
    · next g1 hs => exact ih g1 h (updateGameState_absent o gw g1 k hs hk)

/-- C13: a projectile registered under a key before a completed tick and still registered
under it afterwards has moved by its `Velocity` exactly once and kept its `Velocity`,
`Damage`, `Owner` and `ID`; so a projectile of zero `Velocity` that is still registered
after any number of ticks is unchanged, at its first position. -/
theorem projectile_advances_once_per_tick :
    (∀ (o : Oracle) (gw gw2 : GameWorld) (id : Int) (p p2 : Projectile),
      Map.NodupKeys gw.Projectiles →
      Map.lookup id gw.Projectiles = some p →
      GameWorld.updateGameState o gw = some gw2 →
      Map.lookup id gw2.Projectiles = some p2 →
      p2.Position = ⟨p.Position.X + p.Velocity.X, p.Position.Y + p.Velocity.Y⟩ ∧
      p2.Velocity = p.Velocity ∧ p2.Damage = p.Damage ∧ p2.Owner = p.Owner ∧
      p2.ID = p.ID) ∧
    (∀ (os : List Oracle) (gw gw2 : GameWorld) (id : Int) (p p2 : Projectile),
      Map.NodupKeys gw.Projectiles →
      Map.lookup id gw.Projectiles = some p →
      p.Velocity = ⟨0, 0⟩ →
      runTicks os gw = some gw2 →
      Map.lookup id gw2.Projectiles = some p2 →
      p2 = p) := by
  have hone : ∀ (o : Oracle) (gw gw2 : GameWorld) (id : Int) (p p2 : Projectile),
      Map.NodupKeys gw.Projectiles →
      Map.lookup id gw.Projectiles = some p →
      GameWorld.updateGameState o gw = some gw2 →
      Map.lookup id gw2.Projectiles = some p2 →
      p2 = { p with Position := ⟨p.Position.X + p.Velocity.X,
                                 p.Position.Y + p.Velocity.Y⟩ } := by
    intro o gw gw2 id p p2 hn hp h h2
    obtain ⟨_, _, _, _, b, _, _, _, hfate⟩ :=
      updateGameState_projectile_fate o gw gw2 id p hn hp h
    rw [h2] at hfate
    cases b
    · simp only [Bool.false_eq_true, if_false, Option.some.injEq] at hfate
      exact hfate
    · simp at hfate
  constructor
  · intro o gw gw2 id p p2 hn hp h h2
    rw [hone o gw gw2 id p p2 hn hp h h2]
    exact ⟨rfl, rfl, rfl, rfl, rfl⟩
  · intro os
    induction os with
    | nil =>
      intro gw gw2 id p p2 _ hp _ h h2
      simp only [runTicks, Option.some.injEq] at h
      rw [← h, hp] at h2
      exact (Option.some.inj h2).symm
    | cons o os ih =>
      intro gw gw2 id p p2 hn hp hv h h2
      simp only [runTicks] at h
      split at h
      · cases h
      · next g1 hs =>
        have hn1 : Map.NodupKeys g1.Projectiles :=
          List.Nodup.sublist (updateGameState_projectile_keys o gw g1 hs) hn
        cases h1 : Map.lookup id g1.Projectiles with
        | none =>
          rw [runTicks_absent os g1 gw2 id h h1] at h2
          cases h2
        | some p1 =>
          have hp1 : p1 = p := by
            rw [hone o gw g1 id p p1 hn hp hs h1]
            cases p with
            | mk pid ppos pvel pdmg pown =>
              cases ppos with
              | mk px py =>
                simp only at hv
                rw [hv]
                simp
          rw [hp1] at h1
          exact ih g1 gw2 id p p2 hn1 h1 hv h h2

/-- The scenario of the spec: the projectile fired at `(0, 0)` with velocity `(2, 0)` is at
`(2, 0)` after one tick; and a resting projectile at `(200, 200)` is there after three. -/
theorem projectile_advances_once_per_tick_witness :
    (∃ gw2 p2,
      GameWorld.updateGameState oracleZero worldMoverFired = some gw2 ∧
      Map.lookup 0 gw2.Projectiles = some p2 ∧
      p2.Position = ⟨(0 : ℚ) + 2, (0 : ℚ) + 0⟩ ∧ p2.Velocity = ⟨2, 0⟩ ∧ p2.Damage = 10 ∧
      p2.Owner = 0 ∧ p2.ID = 0) ∧
    (∃ gw2 p2,
      runTicks [oracleZero, oracleZero, oracleZero] worldResting = some gw2 ∧
      Map.lookup 0 gw2.Projectiles = some p2 ∧
      p2 = { ID := 0, Position := ⟨200, 200⟩, Velocity := ⟨0, 0⟩, Damage := 10,
             Owner := 0 }) ∧
    (GameWorld.updateGameState oracleZero worldMoverFired).map
        (fun w => (Map.lookup 0 w.Projectiles).map Projectile.Position)
      = some (some ⟨2, 0⟩) := by
  have hf1 : (GameWorld.updateGameState oracleZero worldMoverFired).map
      (fun w => Map.lookup 0 w.Projectiles)
      = some (some { ID := 0, Position := ⟨2, 0⟩, Velocity := ⟨2, 0⟩, Damage := 10,
                     Owner := 0 }) := by decide!
  have hf2 : (runTicks [oracleZero, oracleZero, oracleZero] worldResting).map
      (fun w => Map.lookup 0 w.Projectiles)
      = some (some { ID := 0, Position := ⟨200, 200⟩, Velocity := ⟨0, 0⟩, Damage := 10,
                     Owner := 0 }) := by decide!
  refine ⟨?_, ?_, by decide!⟩
  · cases h : GameWorld.updateGameState oracleZero worldMoverFired with
    | none =>
      rw [h] at hf1
      cases hf1
    | some gw2 =>
      rw [h] at hf1
      simp only [Option.map_some', Option.some.injEq] at hf1
      exact ⟨gw2, _, rfl, hf1,
        projectile_advances_once_per_tick.1 oracleZero worldMoverFired gw2 0
          { ID := 0, Position := ⟨0, 0⟩, Velocity := ⟨2, 0⟩, Damage := 10, Owner := 0 } _
          (by decide) (by decide!) h hf1⟩
  · cases h : runTicks [oracleZero, oracleZero, oracleZero] worldResting with
    | none =>
      rw [h] at hf2
      cases hf2
    | some gw2 =>
      rw [h] at hf2
      simp only [Option.map_some', Option.some.injEq] at hf2
      exact ⟨gw2, _, rfl, hf2,
        projectile_advances_once_per_tick.2 [oracleZero, oracleZero, oracleZero]
          worldResting gw2 0
          { ID := 0, Position := ⟨200, 200⟩, Velocity := ⟨0, 0⟩, Damage := 10, Owner := 0 } _
          (by decide) (by decide!) rfl h hf2⟩

/-! ## What a tick leaves in place -/

/-- C20: a completed tick keeps the keys of `Players`, adds no key to `Projectiles`, and
a projectile registered before the tick is absent after it exactly when the call of
`checkProjectileCollisions` the loop makes for it returned true. -/
theorem updateGameState_keeps_players_and_adds_no_projectile (o : Oracle)
    (gw gw2 : GameWorld) (hn : Map.NodupKeys gw.Projectiles)
    (h : GameWorld.updateGameState o gw = some gw2) :
    Map.keys gw2.Players = Map.keys gw.Players ∧
    (Map.keys gw2.Projectiles).Sublist (Map.keys gw.Projectiles) ∧
    (∀ k : Int, Map.lookup k gw.Projectiles = none → Map.lookup k gw2.Projectiles = none) ∧
    (∀ (id : Int) (projectile : Projectile),
      Map.lookup id gw.Projectiles = some projectile →
      ∃ l1 l2 g g1 b,
        Map.range o.projOrder gw.Projectiles = l1 ++ (id, projectile) :: l2 ∧
        GameWorld.projectileLoop o l1
          (GameWorld.updateEnemies o (GameWorld.updatePlayers o gw)) = some g ∧
        GameWorld.checkProjectileCollisions (o.enemyOrder id) (o.playerOrder id)
          { g with
            Projectiles :=
              Map.modify id
                (fun _ => { projectile with
                            Position := { X := projectile.Position.X + projectile.Velocity.X,
                                          Y := projectile.Position.Y + projectile.Velocity.Y } })
                g.Projectiles }
          { projectile with
            Position := { X := projectile.Position.X + projectile.Velocity.X,
                          Y := projectile.Position.Y + projectile.Velocity.Y } }
          = some (g1, b) ∧
        (Map.lookup id gw2.Projectiles = none ↔ b = true)) := by
  refine ⟨updateGameState_player_keys o gw gw2 h, updateGameState_projectile_keys o gw gw2 h,
    fun k hk => updateGameState_absent o gw gw2 k h hk, ?_⟩
  intro id projectile hp
  obtain ⟨l1, l2, g, g1, b, h1, h2, h3, h4⟩ :=
    updateGameState_projectile_fate o gw gw2 id projectile hn hp h
  refine ⟨l1, l2, g, g1, b, h1, h2, h3, ?_⟩
  rw [h4]
  cases b <;> simp

/-- The tick of `worldPastWidth`: player 0 stays, and projectile 0, for which collision
resolution returns true (out of bounds at `X = 1005`), is gone. -/
theorem updateGameState_keeps_players_and_adds_no_projectile_witness :
    (Map.NodupKeys worldPastWidth.Projectiles ∧
      GameWorld.updateGameState oracleZero worldPastWidth
        = some (GameWorld.spawnNewEnemies oracleZero
            { worldPastWidth with Projectiles := [] })) ∧
    Map.keys (GameWorld.spawnNewEnemies oracleZero
      { worldPastWidth with Projectiles := [] }).Players = Map.keys worldPastWidth.Players ∧
    (Map.keys (GameWorld.spawnNewEnemies oracleZero
      { worldPastWidth with Projectiles := [] }).Projectiles).Sublist
      (Map.keys worldPastWidth.Projectiles) ∧
    (∃ l1 l2 g g1 b,
      Map.range oracleZero.projOrder worldPastWidth.Projectiles
        = l1 ++ (0, { ID := 0, Position := ⟨995, 5⟩, Velocity := ⟨10, 0⟩, Damage := 10,
                      Owner := 0 }) :: l2 ∧
      GameWorld.projectileLoop oracleZero l1
        (GameWorld.updateEnemies oracleZero (GameWorld.updatePlayers oracleZero worldPastWidth))
        = some g ∧
      GameWorld.checkProjectileCollisions (oracleZero.enemyOrder 0) (oracleZero.playerOrder 0)
        { g with
          Projectiles :=
            Map.modify 0
              (fun _ => { ID := 0, Position := { X := (995 : ℚ) + 10, Y := (5 : ℚ) + 0 },
                          Velocity := ⟨10, 0⟩, Damage := 10, Owner := 0 })
              g.Projectiles }
        { ID := 0, Position := { X := (995 : ℚ) + 10, Y := (5 : ℚ) + 0 },
          Velocity := ⟨10, 0⟩, Damage := 10, Owner := 0 }
        = some (g1, b) ∧
      (Map.lookup 0 (GameWorld.spawnNewEnemies oracleZero
        { worldPastWidth with Projectiles := [] }).Projectiles = none ↔ b = true)) ∧
    Map.lookup 0 (GameWorld.spawnNewEnemies oracleZero
      { worldPastWidth with Projectiles := [] }).Projectiles = none :=
  have h1 : Map.NodupKeys worldPastWidth.Projectiles := by decide
  have h2 : GameWorld.updateGameState oracleZero worldPastWidth
      = some (GameWorld.spawnNewEnemies oracleZero
          { worldPastWidth with Projectiles := [] }) := by decide!
  ⟨⟨h1, h2⟩,
   (updateGameState_keeps_players_and_adds_no_projectile oracleZero worldPastWidth _ h1 h2).1,
   (updateGameState_keeps_players_and_adds_no_projectile oracleZero worldPastWidth _
      h1 h2).2.1,
   (updateGameState_keeps_players_and_adds_no_projectile oracleZero worldPastWidth _
      h1 h2).2.2.2 0
      { ID := 0, Position := ⟨995, 5⟩, Velocity := ⟨10, 0⟩, Damage := 10, Owner := 0 }
      (by decide!),
   by decide!⟩

/-! ## The score -/

theorem checkProjectileCollisions_score (se sp : Nat) (gw gw1 : GameWorld)
    (projectile : Projectile) (b : Bool)
    (h : GameWorld.checkProjectileCollisions se sp gw projectile = some (gw1, b))
    (k : Int) (p : Player) (hp : Map.lookup k gw.Players = some p) :
    ∃ p1, Map.lookup k gw1.Players = some p1 ∧
      (p1.Score = p.Score ∨ p1.Score = wrapInt (p.Score + 10)) := by
  rcases checkProjectileCollisions_cases se sp gw gw1 projectile b h with
    ⟨_, _, _, _, _, _, _, hP, _, _, _, _⟩ | ⟨kp, _, _, _, _, _, _, hP, _, _, _, _⟩ |
    ⟨_, _, hgw, _⟩
  · rw [hP, Map.lookup_modify]
    by_cases hk : k = projectile.Owner
    · rw [if_pos hk, ← hk, hp]
      exact ⟨_, rfl, Or.inr rfl⟩
    · rw [if_neg hk]
      exact ⟨p, hp, Or.inl rfl⟩
  · rw [hP, Map.lookup_modify]
    by_cases hk : k = kp
    · rw [if_pos hk, ← hk, hp]
      exact ⟨_, rfl, Or.inl rfl⟩
    · rw [if_neg hk]
      exact ⟨p, hp, Or.inl rfl⟩
  · rw [hgw]
    exact ⟨p, hp, Or.inl rfl⟩

theorem projectileStep_score (o : Oracle) (gw gw2 : GameWorld) (id : Int)
    (projectile : Projectile) (h : GameWorld.projectileStep o gw id projectile = some gw2)
    (k : Int) (p : Player) (hp : Map.lookup k gw.Players = some p) :
    ∃ p1, Map.lookup k gw2.Players = some p1 ∧
      (p1.Score = p.Score ∨ p1.Score = wrapInt (p.Score + 10)) := by
  obtain ⟨gw1, b, hc, hgw2⟩ := projectileStep_cases o gw gw2 id projectile h
  have h1 := checkProjectileCollisions_score _ _ _ _ _ _ hc k p hp
  cases b
  · simp only [Bool.false_eq_true, if_false] at hgw2
    subst hgw2
    exact h1
  · simp only [if_true] at hgw2
    subst hgw2
    exact h1

/-- Over the projectile loop a registered player stays registered and its `Score` becomes
the wrapped sum of the old `Score` and `10 * n`, for some number `n` of credited hits that
is at most the number of iterations; with `n = 0` the `Score` is the old one. -/
theorem projectileLoop_score (o : Oracle) (l : List (Int × Projectile)) (gw gw1 : GameWorld)
    (k : Int) (p : Player) (hp : Map.lookup k gw.Players = some p)
    (h : GameWorld.projectileLoop o l gw = some gw1) :
    ∃ (p1 : Player) (n : Nat), Map.lookup k gw1.Players = some p1 ∧ n ≤ l.length ∧
      ((n = 0 ∧ p1.Score = p.Score) ∨
       (0 < n ∧ p1.Score = wrapInt (p.Score + 10 * (n : Int)))) := by
  induction l generalizing gw p with
  | nil =>
    simp only [GameWorld.projectileLoop, Option.some.injEq] at h
    subst h
    exact ⟨p, 0, hp, le_refl _, Or.inl ⟨rfl, rfl⟩⟩
  | cons e rest ih =>
    simp only [GameWorld.projectileLoop] at h
    split at h
    · cases h
    · next g2 hs =>
      obtain ⟨p1, hp1, hsc⟩ := projectileStep_score o gw g2 e.1 e.2 hs k p hp
      obtain ⟨p2, n, hp2, hn, hcase⟩ := ih g2 p1 hp1 h
      rcases hsc with hsc | hsc
      · refine ⟨p2, n, hp2, ?_, ?_⟩
        · simp only [List.length_cons]
          omega
        · rw [hsc] at hcase
          exact hcase
      · refine ⟨p2, n + 1, hp2, ?_, Or.inr ⟨Nat.succ_pos n, ?_⟩⟩
        · simp only [List.length_cons]
          omega
        · rcases hcase with ⟨hn0, h2⟩ | ⟨_, h2⟩
          · rw [h2, hsc, hn0]
            norm_num
          · rw [h2, hsc, wrapInt_add_wrapInt]
            congr 1
            push_cast
            ring

/-- C11 (the claim fails for negative points and at the top of the `int` range): the
"score" command with points -50 takes a `Score` of 30 to -20, and with points 1 it takes
the largest `int` to the smallest. -/
theorem score_command_can_lower_score :
    (Player.Receive playerOfThirty ⟨"score", .int (-50), 0⟩).map Player.Score = some (-20) ∧
    (-20 : Int) < playerOfThirty.Score ∧
    (Player.Receive playerOfMaxScore ⟨"score", .int 1, 0⟩).map Player.Score
      = some (-9223372036854775808) ∧
    (-9223372036854775808 : Int) < playerOfMaxScore.Score := by
  decide!

/-- C11 (amended): what holds of a player's `Score`, for every player. A "score" command
with any integer points returns and sets `Score` to the 64-bit wrap of `Score + points`;
when `Score + points` is within the range of a Go `int` the new `Score` is that sum, which
is `≥` the old `Score` for points `≥ 0` and below it for points `< 0`. Any other message the
player handles ("damage", "move") leaves `Score` as it is. A completed tick keeps the player
registered and sets its `Score` to the old one (`n = 0`) or to the 64-bit wrap of
`Score + 10 * n`, for some `n` with `0 < n ≤` the number of projectiles at the start of the
tick; when `Score + 10 * n` is within the range of a Go `int` the new `Score` is that sum
and is `≥` the old `Score`. -/
theorem score_is_nondecreasing :
    (∀ (p : Player) (points sender : Int),
      ∃ p1, Player.Receive p ⟨"score", .int points, sender⟩ = some p1 ∧
        p1.Score = wrapInt (p.Score + points) ∧
        (InInt (p.Score + points) →
          p1.Score = p.Score + points ∧ (0 ≤ points → p.Score ≤ p1.Score) ∧
          (points < 0 → p1.Score < p.Score))) ∧
    (∀ (p p1 : Player) (msg : Message), msg.Typ ≠ "score" →
      Player.Receive p msg = some p1 → p1.Score = p.Score) ∧
    (∀ (o : Oracle) (gw gw2 : GameWorld) (k : Int) (p : Player),
      Map.lookup k gw.Players = some p →
      GameWorld.updateGameState o gw = some gw2 →
      ∃ (p2 : Player) (n : Nat), Map.lookup k gw2.Players = some p2 ∧
        n ≤ Map.len gw.Projectiles ∧
        ((n = 0 ∧ p2.Score = p.Score) ∨
         (0 < n ∧ p2.Score = wrapInt (p.Score + 10 * (n : Int)))) ∧
        (InInt (p.Score + 10 * (n : Int)) →
          p2.Score = p.Score + 10 * (n : Int) ∧ p.Score ≤ p2.Score)) := by
  refine ⟨?_, ?_, ?_⟩
  · intro p points sender
    refine ⟨{ p with Score := wrapInt (p.Score + points) }, ?_, rfl, ?_⟩
    · simp [Player.Receive]
    · intro hin
      show wrapInt (p.Score + points) = p.Score + points ∧
        (0 ≤ points → p.Score ≤ wrapInt (p.Score + points)) ∧
        (points < 0 → wrapInt (p.Score + points) < p.Score)
      rw [wrapInt_of_inInt _ hin]
      refine ⟨rfl, ?_, ?_⟩
      · intro h0
        omega
      · intro h0
        omega
  · intro p p1 msg hne h
    unfold Player.Receive at h
    split_ifs at h
    · cases hc : msg.Content <;> simp only [hc] at h <;> cases h
      rfl
    · cases hc : msg.Content <;> simp only [hc] at h <;> cases h
      rfl
    · cases h
      rfl
  · intro o gw gw2 k p hp h
    obtain ⟨gw1, hloop, hgw2⟩ := updateGameState_cases o gw gw2 h
    have hp0 : Map.lookup k
        (GameWorld.updateEnemies o (GameWorld.updatePlayers o gw)).Players
        = some (movePlayerSpec p (randomAcceleration (o.accDraw k))) := by
      have := Map.lookup_mapValues
        (fun e : Int × Player => movePlayerSpec e.2 (randomAcceleration (o.accDraw e.1)))
        k gw.Players
      rw [hp] at this
      exact this
    have hlen : (Map.range o.projOrder
        (GameWorld.updateEnemies o (GameWorld.updatePlayers o gw)).Projectiles).length
        = Map.len gw.Projectiles :=
      (Map.range_perm o.projOrder gw.Projectiles).length_eq
    obtain ⟨p2, n, hp2, hn, hcase⟩ := projectileLoop_score o _ _ gw1 k _ hp0 hloop
    rw [hlen] at hn
    have hcase2 : (n = 0 ∧ p2.Score = p.Score) ∨
        (0 < n ∧ p2.Score = wrapInt (p.Score + 10 * (n : Int))) := hcase
    refine ⟨p2, n, by rw [hgw2, (spawnNewEnemies_frame o gw1).1]; exact hp2, hn, hcase2, ?_⟩
    intro hin
    rcases hcase2 with ⟨hn0, h2⟩ | ⟨_, h2⟩
    · rw [h2, hn0]
      simp
    · rw [h2, wrapInt_of_inInt _ hin]
      exact ⟨rfl, by omega⟩

/-- The cases at concrete inputs: 5 points and -50 points on a `Score` of 30, damage 7 on
the same player, and the first of the five hits of `worldDuel` scored in a tick. -/
theorem score_is_nondecreasing_witness :
    (∃ p1, Player.Receive playerOfThirty ⟨"score", .int 5, 0⟩ = some p1 ∧
      p1.Score = playerOfThirty.Score + 5 ∧ playerOfThirty.Score ≤ p1.Score) ∧
    (∃ p1, Player.Receive playerOfThirty ⟨"score", .int (-50), 0⟩ = some p1 ∧
      p1.Score = playerOfThirty.Score + (-50) ∧ p1.Score < playerOfThirty.Score) ∧
    (Player.Receive playerOfThirty ⟨"damage", .int 7, 0⟩).map Player.Score = some 30 ∧
    (∃ gw2 p2,
      GameWorld.updateGameState oracleZero
        { worldDuel with Projectiles := [(0, projectileOfZero)] } = some gw2 ∧
      Map.lookup 0 gw2.Players = some p2 ∧ (0 : Int) ≤ p2.Score ∧ p2.Score = 10) := by
  have hf : (GameWorld.updateGameState oracleZero
      { worldDuel with Projectiles := [(0, projectileOfZero)] }).map
      (fun w => (Map.lookup 0 w.Players).map Player.Score) = some (some 10) := by decide!
  refine ⟨?_, ?_, by decide!, ?_⟩
  · obtain ⟨p1, h1, _, h3⟩ := score_is_nondecreasing.1 playerOfThirty 5 0
    have h4 := h3 (by decide)
    exact ⟨p1, h1, h4.1, h4.2.1 (by decide)⟩
  · obtain ⟨p1, h1, _, h3⟩ := score_is_nondecreasing.1 playerOfThirty (-50) 0
    have h4 := h3 (by decide)
    exact ⟨p1, h1, h4.1, h4.2.2 (by decide)⟩
  · cases h : GameWorld.updateGameState oracleZero
        { worldDuel with Projectiles := [(0, projectileOfZero)] } with
    | none =>
      rw [h] at hf
      cases hf
    | some gw2 =>
      rw [h] at hf
      obtain ⟨p2, n, hp2, _, _, _⟩ := score_is_nondecreasing.2.2 oracleZero
        { worldDuel with Projectiles := [(0, projectileOfZero)] } gw2 0
        { ID := 0, Position := ⟨500, 500⟩, Velocity := ⟨0, 0⟩, Health := 100, Score := 0 }
        (by decide!) h
      simp only [Option.map_some', hp2, Option.some.injEq] at hf
      exact ⟨gw2, p2, rfl, hp2, by rw [hf]; decide, hf⟩

end GSactor
